import Mathlib

/-!
# tevent-req-iterate: a request iterator over the tevent request primitive

A shallow embedding of `sample-sources/tevent-req-iterate.c`.

The C program chains a bounded number of curl transfers, one at a time, through
tevent requests: `transfer_file_send` creates the iterator request,
`transfer_file_next` issues one leaf subrequest with `curl_execute_send`,
`transfer_file_done` is the continuation run by the event loop when the
subrequest's trigger fires, and `caller` / `caller_done` form the top-level
consumer.

The program state is a `World`: a heap of requests addressed by numbers, the
queue of scheduled immediate triggers of the event context, and a trace of
every observable operation.  The results of the external collaborators (the
curl call, the allocator) are read from an `Env`.  The tevent and talloc
primitives are library code outside the repository; they are modelled after
the request primitive of the specification, with the behaviour of the tevent
library: finishing a request (`tevent_req_done`, `tevent_req_error`, or the
trigger scheduled by `tevent_req_post`) sets the state and calls the registered
callback, if there is one, directly.

The definitions come first, the theorems follow.
-/

namespace TeventReqIterate

/-! ## Constants of the headers -/

/-- The errno value `EIO` of `errno.h` (Linux). -/
def EIO : Int := 5

/-- The errno value `EAGAIN` of `errno.h` (Linux). -/
def EAGAIN : Int := 11

/-- The errno value `ENOMEM` of `errno.h` (Linux). -/
def ENOMEM : Int := 12

/-- The errno value `ETIMEDOUT` of `errno.h` (Linux). -/
def ETIMEDOUT : Int := 110

/-- The success code `CURLE_OK` of `curl/curl.h`. -/
def CURLE_OK : Nat := 0

/-- The cast `(int)x` of a `uint64_t` value: reduction modulo `2^32`, read as
two's complement. -/
def int_of_uint64 (x : Nat) : Int :=
  if x % 2 ^ 32 < 2 ^ 31 then ((x % 2 ^ 32 : Nat) : Int)
  else ((x % 2 ^ 32 : Nat) : Int) - 2 ^ 32

/-- The conversion of an `int` argument to the `uint64_t` parameter of
`tevent_req_error`. -/
def uint64_of_int (x : Int) : Nat := (x % 2 ^ 64).toNat

/-- The conversion of a `CURLcode` argument to the `uint64_t` parameter of
`tevent_req_error`. -/
def uint64_of_CURLcode (x : Nat) : Nat := x % 2 ^ 64

/-! ## Data model -/

/-- The states of a request, `enum tevent_req_state` of `tevent.h`. -/
inductive tevent_req_state
  | TEVENT_REQ_INIT
  | TEVENT_REQ_IN_PROGRESS
  | TEVENT_REQ_DONE
  | TEVENT_REQ_USER_ERROR
  | TEVENT_REQ_TIMED_OUT
  | TEVENT_REQ_NO_MEMORY
  | TEVENT_REQ_RECEIVED
  deriving DecidableEq, Repr

open tevent_req_state

/-- A pointer to a request: `none` is `NULL`, `some i` the address `i`. -/
abbrev Ptr := Option Nat

/-- A registered callback: the function pointer together with its private
data.  `transfer_file_done` is registered with the iterator request as private
data, `caller_done` with the main context. -/
inductive Callback
  | transfer_file_done (private_data : Ptr)
  | caller_done
  deriving DecidableEq, Repr

/-- The payload of a leaf subrequest, `struct curl_execute_state`. -/
structure curl_execute_state where
  res : Nat
  deriving DecidableEq, Repr

/-- The payload of the iterator request, `struct transfer_file_state`.  The
event context `ev` and the string `url` are held by reference.  The counter
`num_iter`, an `int`, never exceeds the maximum and is held as a natural
number. -/
structure transfer_file_state where
  ev : Nat
  num_iter : Nat
  res : Nat
  url : Nat
  deriving DecidableEq, Repr

/-- The private state block of a request. -/
inductive Payload
  | curl (s : curl_execute_state)
  | transfer (s : transfer_file_state)
  deriving DecidableEq, Repr

/-- The type named in `tevent_req_create`. -/
inductive PayloadType
  | curl_execute_state
  | transfer_file_state
  deriving DecidableEq, Repr

/-- A request, `struct tevent_req`: the internal state and error, the
callback, the payload, the request whose state block is its talloc parent (if
any), and whether it has been released.  A released request stays in the heap
with its last contents so that they can be examined; the program can no longer
reach it. -/
structure tevent_req where
  state : tevent_req_state
  error : Nat
  fn : Option Callback
  data : Payload
  parent : Ptr
  freed : Bool
  deriving DecidableEq, Repr

/-- The functions of the program. -/
inductive Fn
  | curl_execute_send
  | curl_execute_recv
  | transfer_file_send
  | transfer_file_next
  | transfer_file_done
  | transfer_file_recv
  | caller
  | caller_done
  deriving DecidableEq, Repr

/-- The messages printed by the program. -/
inductive Msg
  | create_failed
  | sending (num_iter : Nat) (url : Nat)
  | receiving
  | transfer_failure
  | request_eio
  | request_etimedout
  | curl_failed (ret : Int)
  | transfer_successful
  | context_init_failure
  | caller_unsuccessful
  deriving DecidableEq, Repr

/-- A value returned by a function of the program. -/
inductive Val
  | void
  | int (i : Int)
  | ptr (p : Ptr)
  deriving DecidableEq, Repr

/-- The observable operations of a run, in the order they happen. -/
inductive Event
  | enter (f : Fn)
  | leave (f : Fn) (v : Val)
  | printf (m : Msg)
  | tevent_req_create (ty : PayloadType) (req : Ptr)
  | curl_easy_perform (k : Nat) (res : Nat)
  | tevent_req_done (req : Ptr)
  | tevent_req_error (req : Ptr) (error : Nat)
  | tevent_req_post (req : Ptr)
  | tevent_req_set_callback (req : Ptr) (cb : Callback)
  | callback (req : Nat) (cb : Callback)
  | talloc_free (req : Ptr)
  | tevent_loop_wait
  deriving DecidableEq, Repr

/-- The ways a run can go wrong. -/
inductive Fault
  | null_deref
  | use_after_free
  | bad_payload
  | stack_exhausted
  | loop_exhausted
  deriving DecidableEq, Repr

/-- The external collaborators and the configuration: the iteration maximum
(the literal `3` of `transfer_file_next`), the result of the `k`-th curl call,
whether the `k`-th `tevent_req_create` succeeds, and whether the allocations of
`main` succeed. -/
structure Env where
  maximum : Nat
  perform : Nat → Nat
  alloc : Nat → Bool
  ev_ok : Bool
  mctx_ok : Bool

/-- The program state. -/
structure World where
  heap : Nat → Option tevent_req
  next : Nat
  nalloc : Nat
  ncurl : Nat
  queue : List Nat
  trace : List Event

/-- The state at program start. -/
def World.init : World :=
  { heap := fun _ => none, next := 0, nalloc := 0, ncurl := 0, queue := [], trace := [] }

/-- A computation: a result, or a fault with the state at the fault.  A
function of the program returns its value together with the new state. -/
abbrev Run := Except (Fault × World)

/-- The way a function pointer is called. -/
abbrev Call := Callback → Nat → World → Run World

/-! ## The tevent and talloc primitives -/

/-- Record an operation in the trace. -/
def emit (e : Event) (w : World) : World :=
  { w with trace := w.trace ++ [e] }

/-- Dereference a request pointer. -/
def deref (req : Ptr) (w : World) : Run (Nat × tevent_req) :=
  match req with
  | none => .error (.null_deref, w)
  | some i =>
    match w.heap i with
    | none => .error (.use_after_free, w)
    | some r => if r.freed then .error (.use_after_free, w) else .ok (i, r)

/-- Write a request back to the heap. -/
def store (i : Nat) (r : tevent_req) (w : World) : World :=
  { w with heap := Function.update w.heap i (some r) }

/-- The zero-initialised payload of a type. -/
def PayloadType.zero : PayloadType → Payload
  | .curl_execute_state => .curl { res := 0 }
  | .transfer_file_state => .transfer { ev := 0, num_iter := 0, res := 0, url := 0 }

/-- Modelled from the spec: `create` of section 4.1, the function
`tevent_req_create` of the tevent library, which is not part of the
repository: a new request in state `TEVENT_REQ_IN_PROGRESS` with a zeroed
payload, or `NULL` when memory cannot be obtained. -/
def tevent_req_create (env : Env) (mem_ctx : Ptr) (ty : PayloadType) (w : World) :
    Ptr × World :=
  if env.alloc w.nalloc then
    let r : tevent_req :=
      { state := TEVENT_REQ_IN_PROGRESS, error := 0, fn := none, data := ty.zero,
        parent := mem_ctx, freed := false }
    (some w.next,
      emit (.tevent_req_create ty (some w.next))
        { store w.next r w with next := w.next + 1, nalloc := w.nalloc + 1 })
  else
    (none, emit (.tevent_req_create ty none) { w with nalloc := w.nalloc + 1 })

/-- Modelled from the spec: a transition to a terminal state, whose side
effect is the invocation of the registered callback (section 3); the functions
`tevent_req_finish` and `_tevent_req_notify_callback` of the tevent library,
which are not part of the repository: set the state, then call the callback
if one is registered. -/
def tevent_req_finish (call : Call) (req : Ptr) (st : tevent_req_state) (w : World) :
    Run World := do
  let (i, r) ← deref req w
  let w := store i { r with state := st } w
  match r.fn with
  | none => pure w
  | some cb => call cb i (emit (.callback i cb) w)

/-- Modelled from the spec: `markDone` of section 4.1, the function
`tevent_req_done` of the tevent library, which is not part of the
repository. -/
def tevent_req_done (call : Call) (req : Ptr) (w : World) : Run World :=
  tevent_req_finish call req TEVENT_REQ_DONE (emit (.tevent_req_done req) w)

/-- Modelled from the spec: `markError` of section 4.1, the function
`tevent_req_error` of the tevent library, which is not part of the
repository: the error is stored and the request finishes as
`TEVENT_REQ_USER_ERROR`.  For the error `0`, which the spec disallows, the
library does nothing.  The boolean result is ignored by every caller. -/
def tevent_req_error (call : Call) (req : Ptr) (error : Nat) (w : World) :
    Run World := do
  let w := emit (.tevent_req_error req error) w
  if error = 0 then
    pure w
  else
    let (i, r) ← deref req w
    tevent_req_finish call req TEVENT_REQ_USER_ERROR (store i { r with error := error } w)

/-- Modelled from the spec: `post` of section 4.1, the function
`tevent_req_post` of the tevent library, which is not part of the repository:
schedule the request's immediate trigger on the event context (scheduling it
again moves it to the end).  The program has one event context, whose queue
is the queue of the state. -/
def tevent_req_post (req : Ptr) (_ev : Nat) (w : World) : Run World := do
  let w := emit (.tevent_req_post req) w
  let (i, _) ← deref req w
  pure { w with queue := w.queue.filter (fun j => j ≠ i) ++ [i] }

/-- Modelled from the spec: `setCallback` of section 4.1, the function
`tevent_req_set_callback` of the tevent library, which is not part of the
repository: store the callback and its private data in the request. -/
def tevent_req_set_callback (req : Ptr) (cb : Callback) (w : World) :
    Run World := do
  let w := emit (.tevent_req_set_callback req cb) w
  let (i, r) ← deref req w
  pure (store i { r with fn := some cb } w)

/-- Modelled from the spec: the callback context of section 3, the function
`tevent_req_callback_data` of the tevent library, which is not part of the
repository, for a request whose callback is `transfer_file_done`: the private
data, read as a request pointer. -/
def tevent_req_callback_data (req : Ptr) (w : World) : Run Ptr := do
  let (_, r) ← deref req w
  match r.fn with
  | some (.transfer_file_done p) => pure p
  | _ => .error (.bad_payload, w)

/-- Modelled from the spec: `data` of section 4.1, the function
`tevent_req_data` of the tevent library, which is not part of the repository,
at type `struct curl_execute_state`. -/
def tevent_req_data_curl (req : Ptr) (w : World) :
    Run curl_execute_state := do
  let (_, r) ← deref req w
  match r.data with
  | .curl s => pure s
  | _ => .error (.bad_payload, w)

/-- Modelled from the spec: `data` of section 4.1, the function
`tevent_req_data` of the tevent library, which is not part of the repository,
at type `struct transfer_file_state`. -/
def tevent_req_data_transfer (req : Ptr) (w : World) :
    Run transfer_file_state := do
  let (_, r) ← deref req w
  match r.data with
  | .transfer s => pure s
  | _ => .error (.bad_payload, w)

/-- An assignment through the state pointer of the iterator request. -/
def transfer_state_assign (req : Ptr) (f : transfer_file_state → transfer_file_state)
    (w : World) : Run World := do
  let (i, r) ← deref req w
  match r.data with
  | .transfer s => pure (store i { r with data := .transfer (f s) } w)
  | _ => .error (.bad_payload, w)

/-- An assignment through the state pointer of a leaf subrequest. -/
def curl_state_assign (req : Ptr) (f : curl_execute_state → curl_execute_state)
    (w : World) : Run World := do
  let (i, r) ← deref req w
  match r.data with
  | .curl s => pure (store i { r with data := .curl (f s) } w)
  | _ => .error (.bad_payload, w)

/-- Whether request `j` is released when `i` is: it is `i` or a talloc child
of the state block of `i`. -/
def released_with (i j : Nat) (r : tevent_req) : Bool :=
  decide (j = i) || decide (r.parent = some i)

/-- The heap after the release of request `i`. -/
def release (i : Nat) (heap : Nat → Option tevent_req) : Nat → Option tevent_req :=
  fun j => (heap j).map (fun r => if released_with i j r then { r with freed := true } else r)

/-- Whether `j` is the address of a request that has not been released. -/
def is_live (heap : Nat → Option tevent_req) (j : Nat) : Bool :=
  match heap j with
  | some r => !r.freed
  | none => false

/-- Modelled from the spec: the release of a request (section 3), the function
`talloc_free` of the talloc library, which is not part of the repository: the
request and the requests allocated on its state block are released, and their
triggers are removed from the event context.  `talloc_free(NULL)` does
nothing. -/
def talloc_free (req : Ptr) (w : World) : Run World := do
  let w := emit (.talloc_free req) w
  match req with
  | none => pure w
  | some _ =>
    let (i, _) ← deref req w
    pure { w with
      heap := release i w.heap
      queue := w.queue.filter (is_live (release i w.heap)) }

/-- Modelled from the spec: `isError` of section 4.1, the function
`tevent_req_is_error` of the tevent library, which is not part of the
repository: `none` for a request in state `TEVENT_REQ_DONE`, otherwise the
state and the error.  The error is only meaningful in state
`TEVENT_REQ_USER_ERROR`; the macro below reads it in no other state. -/
def tevent_req_is_error (r : tevent_req) : Option (tevent_req_state × Nat) :=
  if r.state = TEVENT_REQ_DONE then none else some (r.state, r.error)

/-- The macro `TEVENT_REQ_RETURN_ON_ERROR`: `some v` when the macro returns `v`
from the enclosing function, `none` when control falls through. -/
def TEVENT_REQ_RETURN_ON_ERROR (r : tevent_req) : Option Int :=
  match tevent_req_is_error r with
  | none => none
  | some (TRROEstate, TRROEuint64) =>
    let TRROEerr := int_of_uint64 TRROEuint64
    match TRROEstate with
    | TEVENT_REQ_USER_ERROR => if TRROEerr = 0 then some EIO else some TRROEerr
    | TEVENT_REQ_TIMED_OUT => some ETIMEDOUT
    | _ => some EIO

/-! ## The external operation -/

/-- Modelled from the spec: `performOnce` of section 6, the external call of
`curl_execute_send` (`curl_easy_init`, the `curl_easy_setopt` calls,
`curl_easy_perform`, `curl_easy_cleanup` of libcurl, which is not part of the
repository): the value left in `res` is the next result of the environment. -/
def curl_easy_perform (env : Env) (w : World) : Nat × World :=
  (env.perform w.ncurl,
    emit (.curl_easy_perform w.ncurl (env.perform w.ncurl)) { w with ncurl := w.ncurl + 1 })

/-! ## The program -/

/-- The function `curl_execute_send`. -/
def curl_execute_send (env : Env) (call : Call) (mem_ctx : Ptr) (ev : Nat) (_url : Nat)
    (w : World) : Run (Ptr × World) := do
  let w := emit (.enter .curl_execute_send) w
  let (req, w) := tevent_req_create env mem_ctx .curl_execute_state w
  match req with
  | none =>
    let w := emit (.printf .create_failed) w
    pure (none, emit (.leave .curl_execute_send (.ptr none)) w)
  | some _ =>
    let (res, w) := curl_easy_perform env w
    let w ← curl_state_assign req (fun s => { s with res := res }) w
    if res ≠ CURLE_OK then
      let w ← tevent_req_error call req (uint64_of_CURLcode res) w
      let w ← tevent_req_post req ev w
      pure (req, emit (.leave .curl_execute_send (.ptr req)) w)
    else
      let w ← tevent_req_post req ev w
      let w ← tevent_req_done call req w
      pure (req, emit (.leave .curl_execute_send (.ptr req)) w)

/-- The function `curl_execute_recv`: the value written to `*_res` and the
returned status. -/
def curl_execute_recv (req : Ptr) (w : World) : Run ((Nat × Int) × World) := do
  let w := emit (.enter .curl_execute_recv) w
  let state ← tevent_req_data_curl req w
  let (_, r) ← deref req w
  match TEVENT_REQ_RETURN_ON_ERROR r with
  | some v => pure ((state.res, v), emit (.leave .curl_execute_recv (.int v)) w)
  | none => pure ((state.res, 0), emit (.leave .curl_execute_recv (.int 0)) w)

/-- The function `transfer_file_next`.  The maximum `env.maximum` stands for
the literal `3` of the exit condition. -/
def transfer_file_next (env : Env) (call : Call) (req : Ptr) (w : World) : Run (Int × World) := do
  let w := emit (.enter .transfer_file_next) w
  let state ← tevent_req_data_transfer req w
  if state.num_iter = env.maximum then
    pure (0, emit (.leave .transfer_file_next (.int 0)) w)
  else
    let w := emit (.printf (.sending state.num_iter state.url)) w
    let (subreq, w) ← curl_execute_send env call req state.ev state.url w
    if subreq = none then
      pure (ENOMEM, emit (.leave .transfer_file_next (.int ENOMEM)) w)
    else
      let w ← tevent_req_set_callback subreq (.transfer_file_done req) w
      let w ← transfer_state_assign req (fun s => { s with num_iter := s.num_iter + 1 }) w
      pure (EAGAIN, emit (.leave .transfer_file_next (.int EAGAIN)) w)

/-- The function `transfer_file_done`, the continuation of a leaf subrequest. -/
def transfer_file_done (env : Env) (call : Call) (subreq : Ptr) (w : World) :
    Run World := do
  let w := emit (.enter .transfer_file_done) w
  let req ← tevent_req_callback_data subreq w
  let _ ← tevent_req_data_transfer req w
  let w := emit (.printf .receiving) w
  let ((res, ret), w) ← curl_execute_recv subreq w
  let w ← transfer_state_assign req (fun s => { s with res := res }) w
  let w ← talloc_free subreq w
  if ret ≠ 0 then
    let w ← tevent_req_error call req (uint64_of_int ret) w
    pure (emit (.leave .transfer_file_done .void) w)
  else
    let (ret, w) ← transfer_file_next env call req w
    if ret = 0 then
      let w ← tevent_req_done call req w
      pure (emit (.leave .transfer_file_done .void) w)
    else if ret ≠ EAGAIN then
      let w ← tevent_req_error call req (uint64_of_int ret) w
      pure (emit (.leave .transfer_file_done .void) w)
    else
      pure (emit (.leave .transfer_file_done .void) w)

/-- The function `transfer_file_send`.  When `tevent_req_create` fails the
code jumps to the label `done` with `req == NULL`. -/
def transfer_file_send (env : Env) (call : Call) (ev : Nat) (url : Nat) (w : World) :
    Run (Ptr × World) := do
  let w := emit (.enter .transfer_file_send) w
  let (req, w) := tevent_req_create env none .transfer_file_state w
  let done (ret : Int) (w : World) : Run (Ptr × World) := do
    let w ← (if ret = 0 then tevent_req_done call req w
      else tevent_req_error call req (uint64_of_int ret) w)
    let w ← tevent_req_post req ev w
    pure (req, emit (.leave .transfer_file_send (.ptr req)) w)
  match req with
  | none =>
    let w := emit (.printf .create_failed) w
    done ENOMEM w
  | some _ =>
    let w ← transfer_state_assign req (fun s => { s with ev := ev }) w
    let w ← transfer_state_assign req (fun s => { s with url := url }) w
    let w ← transfer_state_assign req (fun s => { s with num_iter := 0 }) w
    let (ret, w) ← transfer_file_next env call req w
    if ret = EAGAIN then
      pure (req, emit (.leave .transfer_file_send (.ptr req)) w)
    else
      done ret w

/-- The function `transfer_file_recv`: the value written to `*_res` and the
returned status. -/
def transfer_file_recv (req : Ptr) (w : World) : Run ((Nat × Int) × World) := do
  let w := emit (.enter .transfer_file_recv) w
  let state ← tevent_req_data_transfer req w
  let (_, r) ← deref req w
  match TEVENT_REQ_RETURN_ON_ERROR r with
  | some v => pure ((state.res, v), emit (.leave .transfer_file_recv (.int v)) w)
  | none => pure ((state.res, 0), emit (.leave .transfer_file_recv (.int 0)) w)

/-- The function `caller`. -/
def caller (env : Env) (call : Call) (ev : Nat) (url : Nat) (w : World) : Run (Int × World) := do
  let w := emit (.enter .caller) w
  let (req, w) ← transfer_file_send env call ev url w
  if req = none then
    pure (1, emit (.leave .caller (.int 1)) w)
  else
    let w ← tevent_req_set_callback req .caller_done w
    pure (0, emit (.leave .caller (.int 0)) w)

/-- The function `caller_done`, the terminal callback of the iterator
request. -/
def caller_done (req : Ptr) (w : World) : Run World := do
  let w := emit (.enter .caller_done) w
  let _ ← deref req w
  let ((_, ret), w) ← transfer_file_recv req w
  let w ← talloc_free req w
  if ret ≠ 0 then
    let w := emit (.printf .transfer_failure) w
    let w := if ret = EIO then emit (.printf .request_eio) w
      else if ret = ETIMEDOUT then emit (.printf .request_etimedout) w
      else w
    let w := if ret ≠ (CURLE_OK : Int) then emit (.printf (.curl_failed ret)) w else w
    pure (emit (.leave .caller_done .void) w)
  else
    let w := emit (.printf .transfer_successful) w
    pure (emit (.leave .caller_done .void) w)

/-- A call through a function pointer with `depth` nested callback frames
left on the stack. -/
def call_fn (env : Env) : Nat → Call
  | 0, _, _, w => .error (.stack_exhausted, w)
  | _ + 1, .caller_done, req, w => caller_done (some req) w
  | depth + 1, .transfer_file_done _, req, w =>
    transfer_file_done env (call_fn env depth) (some req) w

/-- Modelled from the spec: the scheduled callback of `post` (section 4.1), the
function `tevent_req_trigger` of the tevent library, which is not part of the
repository: finish the request in the state it has, which calls the registered
callback. -/
def tevent_req_trigger (env : Env) (stack : Nat) (req : Ptr) (w : World) :
    Run World := do
  let (_, r) ← deref req w
  tevent_req_finish (call_fn env stack) req r.state w

/-- Modelled from the spec: one iteration of the event loop (section 6), the
function `tevent_loop_once` of the tevent library, which is not part of the
repository: run the first scheduled trigger. -/
def tevent_loop_once (env : Env) (stack : Nat) (w : World) : Run World :=
  match w.queue with
  | [] => pure w
  | i :: rest => tevent_req_trigger env stack (some i) { w with queue := rest }

/-- Modelled from the spec: `wait` of section 6, the function
`tevent_loop_wait` of the tevent library, which is not part of the repository:
run triggers until none is scheduled.  The loop is bounded by `fuel`
iterations. -/
def tevent_loop_wait_fuel (env : Env) (stack : Nat) : Nat → World → Run World
  | 0, w => if w.queue = [] then pure w else .error (.loop_exhausted, w)
  | fuel + 1, w =>
    if w.queue = [] then pure w
    else do
      let w ← tevent_loop_once env stack w
      tevent_loop_wait_fuel env stack fuel w

/-- Modelled from the spec: the release of everything owned by the main
context, the final `talloc_free(mctx)` of `main` (talloc is not part of the
repository): every request hangs off the main context. -/
def talloc_free_mctx (w : World) : World :=
  { w with
    heap := fun j => (w.heap j).map (fun r => { r with freed := true })
    queue := [] }

/-- The function `main`, with `stack` callback frames available and the event
loop bounded by `fuel`.  The addresses of the event context and of the url are
`0` and `1`. -/
def main (env : Env) (stack fuel : Nat) : Run (Int × World) := do
  let w := World.init
  if !env.ev_ok then
    pure (1, emit (.printf .context_init_failure) w)
  else if !env.mctx_ok then
    -- the check after `talloc_zero` tests `ev` again; `mctx->url = url` follows
    .error (.null_deref, w)
  else
    let (ret, w) ← caller env (call_fn env stack) 0 1 w
    if ret ≠ 0 then
      pure (ret, emit (.printf .caller_unsuccessful) w)
    else
      let w ← tevent_loop_wait_fuel env stack fuel (emit .tevent_loop_wait w)
      pure (0, talloc_free_mctx w)

/-! ## Closed forms of the requests and operations of a call -/

/-- The request left by `curl_execute_send` for the external result `r`,
before a callback is registered. -/
def leaf_req (mem_ctx : Ptr) (r : Nat) : tevent_req :=
  { state := if r = CURLE_OK then TEVENT_REQ_DONE
      else if uint64_of_CURLcode r = 0 then TEVENT_REQ_IN_PROGRESS else TEVENT_REQ_USER_ERROR
    error := if r = CURLE_OK then 0 else uint64_of_CURLcode r
    fn := none
    data := .curl { res := r }
    parent := mem_ctx
    freed := false }

/-- The operations of a call of `curl_execute_send` that creates request `s`
and whose external call, the `k`-th, returns `r`. -/
def leaf_events (s : Nat) (k r : Nat) : List Event :=
  [.enter .curl_execute_send, .tevent_req_create .curl_execute_state (some s),
    .curl_easy_perform k r] ++
  (if r = CURLE_OK then [.tevent_req_post (some s), .tevent_req_done (some s)]
    else [.tevent_req_error (some s) (uint64_of_CURLcode r), .tevent_req_post (some s)]) ++
  [.leave .curl_execute_send (.ptr (some s))]

/-- The operations of a call of `transfer_file_next` that issues an
operation. -/
def issue_events (it s : Nat) (num_iter url : Nat) (k r : Nat) : List Event :=
  [.enter .transfer_file_next, .printf (.sending num_iter url)] ++ leaf_events s k r ++
  [.tevent_req_set_callback (some s) (.transfer_file_done (some it)),
    .leave .transfer_file_next (.int EAGAIN)]

/-- The status returned by `curl_execute_recv` and `transfer_file_recv` for a
request. -/
def recv_status (r : tevent_req) : Int :=
  match TEVENT_REQ_RETURN_ON_ERROR r with
  | some v => v
  | none => 0

/-- The messages of `caller_done` for the status `ret`. -/
def report_events (ret : Int) : List Event :=
  if ret ≠ 0 then
    [.printf .transfer_failure] ++
    (if ret = EIO then [.printf .request_eio]
      else if ret = ETIMEDOUT then [.printf .request_etimedout] else []) ++
    [.printf (.curl_failed ret)]
  else [.printf .transfer_successful]

/-- The operations of a call of `caller_done` on request `it` with status
`ret`. -/
def caller_done_events (it : Nat) (ret : Int) : List Event :=
  [.enter .caller_done, .enter .transfer_file_recv, .leave .transfer_file_recv (.int ret),
    .talloc_free (some it)] ++ report_events ret ++ [.leave .caller_done .void]

/-- The operations of `transfer_file_done` up to the release of subrequest
`s` with status `ret`. -/
def consume_events (s : Nat) (ret : Int) : List Event :=
  [.enter .transfer_file_done, .printf .receiving, .enter .curl_execute_recv,
    .leave .curl_execute_recv (.int ret), .talloc_free (some s)]

/-- The iterator request after the continuation has stored the outcome `res`
of a subrequest. -/
def seen (I : tevent_req) (st : transfer_file_state) (res : Nat) : tevent_req :=
  { I with data := .transfer { st with res := res } }

/-- A request finished as a user error. -/
def failed (I : tevent_req) (error : Nat) : tevent_req :=
  { I with state := TEVENT_REQ_USER_ERROR, error := error }

/-- A request finished as done. -/
def finished (I : tevent_req) : tevent_req :=
  { I with state := TEVENT_REQ_DONE }

/-! ## The run of `main` -/

/-- The iterator request while the chain is in progress, with `n` operations
issued and last seen outcome `res`. -/
def iter_req (n res : Nat) : tevent_req :=
  { state := TEVENT_REQ_IN_PROGRESS, error := 0, fn := some .caller_done,
    data := .transfer { ev := 0, num_iter := n, res := res, url := 1 },
    parent := none, freed := false }

/-- The subrequest of the operation with counter `k`, once its continuation is
registered. -/
def sub_req (env : Env) (k : Nat) : tevent_req :=
  { leaf_req (some 0) (env.perform k) with fn := some (.transfer_file_done (some 0)) }

/-- The status `curl_execute_recv` returns for the operation with counter
`k`. -/
def leaf_status (env : Env) (k : Nat) : Int :=
  recv_status (leaf_req (some 0) (env.perform k))

/-- The state between two iterations of the event loop while the chain is in
progress: `n` operations have been issued, the iterator is request `0`, the
subrequest of the last operation is request `n` and its trigger is the only
scheduled one. -/
structure Async (env : Env) (n : Nat) (w : World) : Prop where
  pos : 1 ≤ n
  le : n ≤ env.maximum
  iter : ∃ res, w.heap 0 = some (iter_req n res)
  leaf : w.heap n = some (sub_req env (n - 1))
  next : w.next = n + 1
  nalloc : w.nalloc = n + 1
  ncurl : w.ncurl = n
  queue : w.queue = [n]

/-- Whether the chain goes on after the continuation of the operation with
counter `n - 1`: the operation succeeded, the maximum is not reached and the
next subrequest can be created. -/
def continues (env : Env) (n : Nat) : Bool :=
  decide (leaf_status env (n - 1) = 0) && decide (n ≠ env.maximum) && env.alloc (n + 1)

/-- The operations of the event-loop iteration that runs the continuation of
the operation with counter `n - 1`. -/
def dispatch_events (env : Env) (n : Nat) : List Event :=
  [.callback n (.transfer_file_done (some 0))] ++
  consume_events n (leaf_status env (n - 1)) ++
  (if leaf_status env (n - 1) ≠ 0 then
    [.tevent_req_error (some 0) (uint64_of_int (leaf_status env (n - 1))),
      .callback 0 .caller_done] ++ caller_done_events 0 (leaf_status env (n - 1))
  else if n = env.maximum then
    [.enter .transfer_file_next, .leave .transfer_file_next (.int 0),
      .tevent_req_done (some 0), .callback 0 .caller_done] ++ caller_done_events 0 0
  else if env.alloc (n + 1) then
    issue_events 0 (n + 1) n 1 n (env.perform n)
  else
    [.enter .transfer_file_next, .printf (.sending n 1),
      .enter .curl_execute_send, .tevent_req_create .curl_execute_state none,
      .printf .create_failed, .leave .curl_execute_send (.ptr none),
      .leave .transfer_file_next (.int ENOMEM),
      .tevent_req_error (some 0) (uint64_of_int ENOMEM), .callback 0 .caller_done] ++
    caller_done_events 0 ENOMEM) ++
  [.leave .transfer_file_done .void]

/-- The iterator request at the end of a run whose last continuation is that
of the operation with counter `n - 1`. -/
def final_iter (env : Env) (n : Nat) : tevent_req :=
  if leaf_status env (n - 1) ≠ 0 then
    { failed (iter_req n (env.perform (n - 1))) (uint64_of_int (leaf_status env (n - 1))) with
      freed := true }
  else if n = env.maximum then
    { finished (iter_req n (env.perform (n - 1))) with freed := true }
  else
    { failed (iter_req n (env.perform (n - 1))) (uint64_of_int ENOMEM) with freed := true }

/-- The state after the run: no trigger is scheduled and the iterator request
`0` has been released with the contents `I`. -/
structure Ended (I : tevent_req) (w : World) : Prop where
  iter : w.heap 0 = some I
  queue : w.queue = []

/-- The operations from the continuation of the operation with counter `n - 1`
to the end of the run, when `k` more operations may still be issued. -/
def tail_events (env : Env) : Nat → Nat → List Event
  | 0, n => dispatch_events env n
  | k + 1, n => dispatch_events env n ++ (if continues env n then tail_events env k (n + 1) else [])

/-- The number of operations issued in the whole run, given that `n` have been
issued and `k` more may still be. -/
def stop_index (env : Env) : Nat → Nat → Nat
  | 0, n => n
  | k + 1, n => if continues env n then stop_index env k (n + 1) else n

/-- The iterator request right after `transfer_file_send` has initialised its
state. -/
def fresh_iter : tevent_req :=
  { state := TEVENT_REQ_IN_PROGRESS, error := 0, fn := none,
    data := .transfer { ev := 0, num_iter := 0, res := 0, url := 1 },
    parent := none, freed := false }

/-- The operations of `caller` when the first operation is issued. -/
def start_events (env : Env) : List Event :=
  [.enter .caller, .enter .transfer_file_send,
    .tevent_req_create .transfer_file_state (some 0)] ++
  issue_events 0 1 0 1 0 (env.perform 0) ++
  [.leave .transfer_file_send (.ptr (some 0)),
    .tevent_req_set_callback (some 0) .caller_done, .leave .caller (.int 0)]

/-- The operations of `caller` when the maximum is zero. -/
def start_events_zero : List Event :=
  [.enter .caller, .enter .transfer_file_send,
    .tevent_req_create .transfer_file_state (some 0),
    .enter .transfer_file_next, .leave .transfer_file_next (.int 0),
    .tevent_req_done (some 0), .tevent_req_post (some 0),
    .leave .transfer_file_send (.ptr (some 0)),
    .tevent_req_set_callback (some 0) .caller_done, .leave .caller (.int 0)]

/-- The operations of `caller` when the first subrequest cannot be created. -/
def start_events_nomem : List Event :=
  [.enter .caller, .enter .transfer_file_send,
    .tevent_req_create .transfer_file_state (some 0),
    .enter .transfer_file_next, .printf (.sending 0 1),
    .enter .curl_execute_send, .tevent_req_create .curl_execute_state none,
    .printf .create_failed, .leave .curl_execute_send (.ptr none),
    .leave .transfer_file_next (.int ENOMEM),
    .tevent_req_error (some 0) (uint64_of_int ENOMEM), .tevent_req_post (some 0),
    .leave .transfer_file_send (.ptr (some 0)),
    .tevent_req_set_callback (some 0) .caller_done, .leave .caller (.int 0)]

/-- The operations of a whole run of `main` in which the event context, the
main context and the iterator request are allocated. -/
def run_events (env : Env) : List Event :=
  if env.maximum = 0 then
    start_events_zero ++ [.tevent_loop_wait, .callback 0 .caller_done] ++
      caller_done_events 0 0
  else if env.alloc 1 then
    start_events env ++ [.tevent_loop_wait] ++ tail_events env (env.maximum - 1) 1
  else
    start_events_nomem ++ [.tevent_loop_wait, .callback 0 .caller_done] ++
      caller_done_events 0 ENOMEM

/-- The iterator request at the end of such a run. -/
def run_iter (env : Env) : tevent_req :=
  if env.maximum = 0 then { finished (iter_req 0 0) with freed := true }
  else if env.alloc 1 then final_iter env (stop_index env (env.maximum - 1) 1)
  else { failed (iter_req 0 0) (uint64_of_int ENOMEM) with freed := true }

/-- An environment in which every allocation succeeds and the external calls
return the results `rs` in turn, then `CURLE_OK`. -/
def env_of (maximum : Nat) (rs : List Nat) : Env :=
  { maximum := maximum, perform := fun k => rs.getD k 0, alloc := fun _ => true,
    ev_ok := true, mctx_ok := true }

/-! ## The shape of a run -/

/-- The status the top-level callback observes when the last continuation is
that of the operation with counter `n - 1`. -/
def final_status (env : Env) (n : Nat) : Int :=
  if leaf_status env (n - 1) ≠ 0 then leaf_status env (n - 1)
  else if n = env.maximum then 0
  else ENOMEM

/-- The operations by which the last continuation finishes the iterator,
before the top-level callback runs. -/
def finish_events (env : Env) (n : Nat) : List Event :=
  if leaf_status env (n - 1) ≠ 0 then
    [.tevent_req_error (some 0) (uint64_of_int (leaf_status env (n - 1)))]
  else if n = env.maximum then
    [.enter .transfer_file_next, .leave .transfer_file_next (.int 0),
      .tevent_req_done (some 0)]
  else
    [.enter .transfer_file_next, .printf (.sending n 1),
      .enter .curl_execute_send, .tevent_req_create .curl_execute_state none,
      .printf .create_failed, .leave .curl_execute_send (.ptr none),
      .leave .transfer_file_next (.int ENOMEM),
      .tevent_req_error (some 0) (uint64_of_int ENOMEM)]

/-! ## Observations on a trace -/

/-- The external call recorded by an operation: its index and its result. -/
def performed_of : Event → Option (Nat × Nat)
  | .curl_easy_perform k r => some (k, r)
  | _ => none

/-- The external calls recorded in a trace. -/
def performed (t : List Event) : List (Nat × Nat) :=
  t.filterMap performed_of

/-- The status recorded by a return of `transfer_file_recv`. -/
def reported_of : Event → Option Int
  | .leave .transfer_file_recv (.int v) => some v
  | _ => none

/-- The statuses `transfer_file_recv` returned to the top-level callback, as
recorded in a trace. -/
def reported (t : List Event) : List Int :=
  t.filterMap reported_of

/-- The counter printed by an operation that announces an issue. -/
def counters_of : Event → Option Nat
  | .printf (.sending n _) => some n
  | _ => none

/-- The counters printed when an operation is issued. -/
def counters (t : List Event) : List Nat :=
  t.filterMap counters_of

/-- The number of calls of `curl_execute_send`. -/
def sends (t : List Event) : Nat :=
  t.count (.enter .curl_execute_send)

/-- Whether the last continuation tries to issue one more operation and
fails to create its subrequest (`1`) or not (`0`). -/
def failed_attempt (env : Env) (n : Nat) : Nat :=
  if leaf_status env (n - 1) ≠ 0 then 0 else if n = env.maximum then 0 else 1

/-- The number of operations issued in a whole run. -/
def issued (env : Env) : Nat :=
  if env.maximum = 0 then 0
  else if env.alloc 1 then stop_index env (env.maximum - 1) 1
  else 0

/-- The status the top-level callback observes in a whole run. -/
def run_status (env : Env) : Int :=
  if env.maximum = 0 then 0
  else if env.alloc 1 then final_status env (stop_index env (env.maximum - 1) 1)
  else ENOMEM

/-- The number of calls of `curl_execute_send` in a whole run: one per
operation issued, and one more when a subrequest could not be created. -/
def attempted (env : Env) : Nat :=
  if env.maximum = 0 then 0
  else if env.alloc 1 then
    stop_index env (env.maximum - 1) 1 +
      failed_attempt env (stop_index env (env.maximum - 1) 1)
  else 1

/-- The verdict printed by an operation of `caller_done`. -/
def verdicts_of : Event → Option Msg
  | .printf .transfer_successful => some .transfer_successful
  | .printf .transfer_failure => some .transfer_failure
  | _ => none

/-- The verdicts (`Transfer successful!` or `Transfer_file failure`) printed by
the top-level callback, as recorded in a trace. -/
def verdicts (t : List Event) : List Msg :=
  t.filterMap verdicts_of

/-- The verdict for a status. -/
def verdict (ret : Int) : Msg :=
  if ret ≠ 0 then .transfer_failure else .transfer_successful

/-- The request produced by an operation. -/
def created_of : Event → Option Nat
  | .tevent_req_create _ (some i) => some i
  | _ => none

/-- The requests produced in a trace, in order of creation. -/
def created (t : List Event) : List Nat :=
  t.filterMap created_of

/-- The callback an operation registers on request `i`. -/
def registered_of (i : Nat) : Event → Option Callback
  | .tevent_req_set_callback (some j) cb => if j = i then some cb else none
  | _ => none

/-- The callbacks registered on request `i` in a trace. -/
def registered (i : Nat) (t : List Event) : List Callback :=
  t.filterMap (registered_of i)

/-- The callback of request `i` that an operation invokes. -/
def invoked_of (i : Nat) : Event → Option Callback
  | .callback j cb => if j = i then some cb else none
  | _ => none

/-- The callback invocations on request `i` in a trace. -/
def invoked (i : Nat) (t : List Event) : List Callback :=
  t.filterMap (invoked_of i)

/-- The callback registered on request `i` in a whole run: `caller_done` on the
iterator request `0`, `transfer_file_done` on the subrequests `1`, ...,
`issued env`. -/
def callback_of (env : Env) (i : Nat) : List Callback :=
  if i = 0 then [.caller_done]
  else if i ≤ issued env then [.transfer_file_done (some 0)]
  else []

/-! ## The ledger of leaf subrequests -/

/-- The bookkeeping of leaf subrequests along a trace: the subrequests created
and not yet released, and the numbers of subrequests created, consumed by
`curl_execute_recv` and released. -/
structure Ledger where
  live : List Nat
  created : Nat
  consumed : Nat
  released : Nat

/-- The effect of one operation on the ledger. -/
def Ledger.step (l : Ledger) : Event → Ledger
  | .tevent_req_create .curl_execute_state (some s) =>
    { l with live := l.live ++ [s], created := l.created + 1 }
  | .leave .curl_execute_recv _ => { l with consumed := l.consumed + 1 }
  | .talloc_free (some s) =>
    if s ∈ l.live then { l with live := l.live.erase s, released := l.released + 1 } else l
  | _ => l

/-- The ledger after a trace. -/
def ledger (t : List Event) : Ledger :=
  t.foldl Ledger.step { live := [], created := 0, consumed := 0, released := 0 }

/-- At most one leaf subrequest is outstanding, and the subrequests are
created, consumed and released in turn: no release before the consumption, no
consumption before the creation, no creation before the release of the
previous subrequest. -/
def Ledger.sequential (l : Ledger) : Prop :=
  l.live.length ≤ 1 ∧ l.live.length + l.released = l.created ∧
  l.released ≤ l.consumed ∧ l.consumed ≤ l.created

/-- Every subrequest created so far has been consumed and released. -/
def Ledger.settled (l : Ledger) : Prop :=
  l.live = [] ∧ l.consumed = l.created ∧ l.released = l.created

/-- The condition checked in front of the operation `e`: the ledger is
sequential, and settled if `e` is a call of `curl_execute_send`. -/
def Ledger.admits (l : Ledger) (e : Event) : Prop :=
  l.sequential ∧ (e = .enter .curl_execute_send → l.settled)

/-- The condition `admits` holds in front of every operation of `t`, started
from the ledger `l`. -/
def Before : Ledger → List Event → Prop
  | _, [] => True
  | l, e :: es => l.admits e ∧ Before (l.step e) es

/-- The ledger when every one of `n` subrequests has been created, consumed
and released. -/
def settled_ledger (n : Nat) : Ledger :=
  { live := [], created := n, consumed := n, released := n }

/-- The ledger while the subrequest `j + 1` is outstanding and not yet
consumed. -/
def pending_ledger (j : Nat) : Ledger :=
  { live := [j + 1], created := j + 1, consumed := j, released := j }

/-! ## Inputs and specifications of the claims -/

/-- The status the claim C4 prescribes for a request in state `st` with the
64-bit error code `code`. -/
def classified (st : tevent_req_state) (code : Nat) : Int :=
  match st with
  | TEVENT_REQ_DONE => 0
  | TEVENT_REQ_USER_ERROR => if int_of_uint64 code = 0 then EIO else int_of_uint64 code
  | TEVENT_REQ_TIMED_OUT => ETIMEDOUT
  | _ => EIO

/-- A state with one live request at address `0`. -/
def world_with (r : tevent_req) : World :=
  { World.init with heap := fun j => if j = 0 then some r else none, next := 1, nalloc := 1 }

/-- A request in state `TEVENT_REQ_USER_ERROR` whose code `2^32` converts to
the `int` value `0`. -/
def truncated_req : tevent_req :=
  { state := TEVENT_REQ_USER_ERROR, error := 2 ^ 32, fn := none, data := .curl { res := 0 },
    parent := none, freed := false }

/-- An environment in which no request can be allocated. -/
def env_no_memory : Env :=
  { maximum := 3, perform := fun _ => 0, alloc := fun _ => false, ev_ok := true,
    mctx_ok := true }

/-- The fault of a computation and the trace at the fault. -/
def fault_of {α : Type} (r : Run α) : Option (Fault × List Event) :=
  match r with
  | .error (f, w) => some (f, w.trace)
  | .ok _ => none

/-- A subrequest that the scheduling layer has timed out, with its
continuation registered. -/
def timed_out_req : tevent_req :=
  { state := TEVENT_REQ_TIMED_OUT, error := 0, fn := some (.transfer_file_done (some 0)),
    data := .curl { res := 0 }, parent := some 0, freed := false }

/-- A state in which the iterator `0` has issued one operation and its
subrequest `1` has timed out. -/
def world_timed_out : World :=
  { heap := fun j => if j = 0 then some (iter_req 1 0)
      else if j = 1 then some timed_out_req else none
    next := 2, nalloc := 2, ncurl := 1, queue := [], trace := [] }

/-! ## The states of the event loop -/

/-- The states of the event loop bounded by `fuel` iterations and started in
`w`: the state before each iteration, then the state in which the loop
stops. -/
def loop_states (env : Env) (stack : Nat) : Nat → World → List World
  | 0, w => [w]
  | fuel + 1, w =>
    if w.queue = [] then [w]
    else
      match tevent_loop_once env stack w with
      | .ok w1 => w :: loop_states env stack fuel w1
      | .error (_, w1) => [w, w1]

/-- The states of a run of `main` at the event loop: the state in which
`caller` leaves the program, then the state after each iteration of
`tevent_loop_wait`. -/
def run_states (env : Env) (stack fuel : Nat) : List World :=
  if !env.ev_ok then []
  else if !env.mctx_ok then []
  else
    match caller env (call_fn env stack) 0 1 World.init with
    | .ok (ret, w) =>
      if ret ≠ 0 then [] else loop_states env stack fuel (emit .tevent_loop_wait w)
    | .error _ => []

/-- The operations of a run in which the first operation is issued, up to the
end of the `k`-th iteration of the event loop (`k = 0`: up to the start of the
loop).  While the chain is in progress `k + 1` operations have been issued by
then. -/
def head_events (env : Env) : Nat → List Event
  | 0 => start_events env ++ [.tevent_loop_wait]
  | k + 1 => head_events env k ++ dispatch_events env (k + 1)

/-- What is known of a state of the event loop while the chain is in progress
with `n` operations issued: the loop invariant `Async`, every earlier
continuation went on, the operations so far, the released subrequests
`1`, ..., `n - 1` keep the state and the error they finished with, and no
further request exists. -/
structure Progress (env : Env) (n : Nat) (w : World) : Prop where
  async : Async env n w
  went : ∀ i, 1 ≤ i → i < n → continues env i = true
  trace : w.trace = head_events env (n - 1)
  dead : ∀ i, 1 ≤ i → i < n → w.heap i = some { sub_req env (i - 1) with freed := true }
  fresh : ∀ i, n < i → w.heap i = none

/-- What is known of the state in which the event loop stops after the
continuation of the operation with counter `n - 1` has finished the
iterator. -/
structure Stopped (env : Env) (n : Nat) (w : World) : Prop where
  pos : 1 ≤ n
  le : n ≤ env.maximum
  iter : w.heap 0 = some (final_iter env n)
  queue : w.queue = []
  went : ∀ i, 1 ≤ i → i < n → continues env i = true
  stop : continues env n = false
  trace : w.trace = head_events env n
  dead : ∀ i, 1 ≤ i → i ≤ n → w.heap i = some { sub_req env (i - 1) with freed := true }
  fresh : ∀ i, n < i → w.heap i = none

/-- The iterator request that `transfer_file_send` has already finished: done
when the maximum is zero, failed with `ENOMEM` when the first subrequest could
not be created. -/
def immediate_iter (env : Env) : tevent_req :=
  if env.maximum = 0 then finished (iter_req 0 0)
  else failed (iter_req 0 0) (uint64_of_int ENOMEM)

/-- What is known of a state of the event loop when `transfer_file_send` has
finished the iterator itself: before the top-level callback has run
(`released = false`) and after it (`released = true`). -/
structure Immediate (env : Env) (released : Bool) (w : World) : Prop where
  cond : env.maximum = 0 ∨ env.alloc 1 = false
  iter : w.heap 0 = some { immediate_iter env with freed := released }
  queue : w.queue = if released then [] else [0]
  trace : w.trace =
    (if env.maximum = 0 then start_events_zero else start_events_nomem) ++ [.tevent_loop_wait] ++
    (if released then .callback 0 .caller_done ::
        caller_done_events 0 (if env.maximum = 0 then 0 else ENOMEM)
      else [])
  fresh : ∀ i, 0 < i → w.heap i = none

/-- The states of a run at the event loop. -/
inductive AtLoop (env : Env) (w : World) : Prop
  | progress (n : Nat) (h : Progress env n w)
  | stopped (n : Nat) (h : Stopped env n w)
  | immediate (released : Bool) (h : Immediate env released w)

/-! ## Terminal states and the calls that finish a request -/

/-- Whether a request state is terminal: `TEVENT_REQ_DONE`,
`TEVENT_REQ_USER_ERROR` or `TEVENT_REQ_TIMED_OUT`. -/
def terminal : tevent_req_state → Bool
  | .TEVENT_REQ_DONE => true
  | .TEVENT_REQ_USER_ERROR => true
  | .TEVENT_REQ_TIMED_OUT => true
  | _ => false

/-- The state, the error code and the counter `num_iter` of the iterator
request `0` of a state. -/
def iterator_of (w : World) : Option (tevent_req_state × Nat × Nat) :=
  match w.heap 0 with
  | some I =>
    match I.data with
    | .transfer st => some (I.state, I.error, st.num_iter)
    | .curl _ => none
  | none => none

/-- The request an operation finishes: the argument of a call of
`tevent_req_done` or `tevent_req_error`. -/
def finished_of : Event → Option Nat
  | .tevent_req_done (some i) => some i
  | .tevent_req_error (some i) _ => some i
  | _ => none

/-- The requests on which `tevent_req_done` or `tevent_req_error` is called in
a trace, one entry per call, in the order of the calls. -/
def finishes (t : List Event) : List Nat :=
  t.filterMap finished_of

/-- Every request that is terminal in `w1` has the same state and the same
error in `w2`. -/
def stable (w1 w2 : World) : Prop :=
  ∀ i r1, w1.heap i = some r1 → terminal r1.state = true →
    ∃ r2, w2.heap i = some r2 ∧ r2.state = r1.state ∧ r2.error = r1.error

/-! ## Inputs of the claims on the continuation -/

/-- The request an operation posts: the argument of a call of
`tevent_req_post`. -/
def posted_of : Event → Option Ptr
  | .tevent_req_post p => some p
  | _ => none

/-- The arguments of the calls of `tevent_req_post` in a trace. -/
def posts (t : List Event) : List Ptr :=
  t.filterMap posted_of

/-- A state in which the iterator `0` has issued `n` operations, the
subrequest of the last one is the request `S` at address `1`, and the event
loop has just taken its trigger. -/
def world_of (n : Nat) (S : tevent_req) : World :=
  { heap := fun j => if j = 0 then some (iter_req n 0) else if j = 1 then some S else none
    next := 2, nalloc := 2, ncurl := n, queue := [], trace := [] }

/-- The operations recorded by a computation, up to its return or its
fault. -/
def trace_of (r : Run World) : List Event :=
  match r with
  | .ok w => w.trace
  | .error (_, w) => w.trace

/-! ## The call stack along a run -/

/-- The condition `ok` holds in front of every operation of a trace, for the
monitor with the transition `step` started in the state `s`. -/
def Guarded {σ : Type} (step : σ → Event → σ) (ok : σ → Event → Prop) : σ → List Event → Prop
  | _, [] => True
  | s, e :: es => ok s e ∧ Guarded step ok (step s e) es

/-- The effect of one operation on the stack of active functions of the
program, innermost first. -/
def active_step (s : List Fn) : Event → List Fn
  | .enter f => f :: s
  | .leave _ _ => s.tail
  | _ => s

/-- The functions of the program that are active after a trace, innermost
first. -/
def active (t : List Event) : List Fn :=
  t.foldl active_step []

/-- The condition checked in front of an operation, given the stack `s` of
active functions: at most four functions are active; `transfer_file_done` is
invoked and entered with no function active; `caller_done` is invoked and
entered with no function active but `transfer_file_done`. -/
def dispatched (s : List Fn) (e : Event) : Prop :=
  s.length ≤ 4 ∧
  match e with
  | .callback _ (.transfer_file_done _) => s = []
  | .enter .transfer_file_done => s = []
  | .callback _ .caller_done => ∀ f, f ∈ s → f = .transfer_file_done
  | .enter .caller_done => ∀ f, f ∈ s → f = .transfer_file_done
  | _ => True

/-! ## Inputs of the claims on allocation failures -/

/-- The program's maximum `3` with successful external calls, in which the
second subrequest (the third request) cannot be created. -/
def env_second_create_fails : Env :=
  { maximum := 3, perform := fun _ => 0, alloc := fun k => decide (k ≠ 2), ev_ok := true,
    mctx_ok := true }

/-! ## The error codes of a run -/

/-- The condition on an operation: a call of `tevent_req_error` passes a
code that is not zero, also when it is converted to `int`. -/
def coded : Event → Prop
  | .tevent_req_error _ c => c ≠ 0 ∧ int_of_uint64 c ≠ 0
  | _ => True

/-- No request of the state is in state `TEVENT_REQ_USER_ERROR` with the code
zero, or with a code that converts to the `int` zero. -/
def well_coded (w : World) : Prop :=
  ∀ i r, w.heap i = some r → r.state = TEVENT_REQ_USER_ERROR →
    r.error ≠ 0 ∧ int_of_uint64 r.error ≠ 0

/-! ## The progress of a run -/

/-- The subrequest whose continuation an operation invokes. -/
def continued_of : Event → Option Nat
  | .callback i (.transfer_file_done _) => some i
  | _ => none

/-- The subrequests whose continuation `transfer_file_done` is invoked in a
trace, one entry per invocation. -/
def continued (t : List Event) : List Nat :=
  t.filterMap continued_of

/-- The measure of a state: the number of operations that may still be
issued, `maximum - num_iter`. -/
def remaining (env : Env) (w : World) : Nat :=
  match w.heap 0 with
  | some I =>
    match I.data with
    | .transfer st => env.maximum - st.num_iter
    | .curl _ => 0
  | none => 0

/-- The iterator request of the state is in progress. -/
def in_progress (w : World) : Prop :=
  ∃ I, w.heap 0 = some I ∧ I.state = TEVENT_REQ_IN_PROGRESS

/-- From the state `a` to the state `b` the measure decreases, if the iterator
is still in progress in `b`. -/
def decreases (env : Env) (a b : World) : Prop :=
  in_progress b → remaining env b < remaining env a

/-! # Theorems -/

/-! ## Symbolic execution of the functions -/

theorem curl_execute_send_ok (env : Env) (call : Call) (mem_ctx : Ptr) (ev url : Nat)
    (w : World)
    (h : env.alloc w.nalloc = true) :
    curl_execute_send env call mem_ctx ev url w = .ok (some w.next,
      { heap := Function.update w.heap w.next (some (leaf_req mem_ctx (env.perform w.ncurl)))
        next := w.next + 1
        nalloc := w.nalloc + 1
        ncurl := w.ncurl + 1
        queue := w.queue.filter (fun j => j ≠ w.next) ++ [w.next]
        trace := w.trace ++ leaf_events w.next w.ncurl (env.perform w.ncurl) }) := by
  by_cases h0 : env.perform w.ncurl = CURLE_OK
  · simp [curl_execute_send, tevent_req_create, h, emit, store, curl_easy_perform,
      curl_state_assign, deref, PayloadType.zero, bind, Except.bind, pure, Except.pure,
      tevent_req_error, tevent_req_post, tevent_req_done, tevent_req_finish, h0, leaf_req,
      leaf_events]
  · by_cases h1 : uint64_of_CURLcode (env.perform w.ncurl) = 0 <;>
    simp [curl_execute_send, tevent_req_create, h, emit, store, curl_easy_perform,
      curl_state_assign, deref, PayloadType.zero, bind, Except.bind, pure, Except.pure,
      tevent_req_error, tevent_req_post, tevent_req_done, tevent_req_finish, h0, h1, leaf_req,
      leaf_events]

theorem curl_execute_send_null (env : Env) (call : Call) (mem_ctx : Ptr) (ev url : Nat)
    (w : World)
    (h : env.alloc w.nalloc = false) :
    curl_execute_send env call mem_ctx ev url w = .ok (none,
      { w with
        nalloc := w.nalloc + 1
        trace := w.trace ++ [.enter .curl_execute_send,
          .tevent_req_create .curl_execute_state none, .printf .create_failed,
          .leave .curl_execute_send (.ptr none)] }) := by
  simp [curl_execute_send, tevent_req_create, h, emit, pure, Except.pure]

theorem transfer_file_next_finished (env : Env) (call : Call) (it : Nat) (w : World)
    (I : tevent_req) (st : transfer_file_state) (hI : w.heap it = some I)
    (hf : I.freed = false) (hd : I.data = .transfer st) (hmax : st.num_iter = env.maximum) :
    transfer_file_next env call (some it) w = .ok (0,
      { w with trace := w.trace ++ [.enter .transfer_file_next,
          .leave .transfer_file_next (.int 0)] }) := by
  simp [transfer_file_next, tevent_req_data_transfer, deref, emit, hI, hf, hd, hmax, bind,
    Except.bind, pure, Except.pure]

theorem transfer_file_next_more (env : Env) (call : Call) (it : Nat) (w : World)
    (I : tevent_req) (st : transfer_file_state) (hI : w.heap it = some I)
    (hf : I.freed = false) (hd : I.data = .transfer st) (hmax : st.num_iter ≠ env.maximum)
    (ha : env.alloc w.nalloc = true) (hne : it ≠ w.next) :
    transfer_file_next env call (some it) w = .ok (EAGAIN,
      { heap := Function.update
          (Function.update w.heap w.next
            (some { leaf_req (some it) (env.perform w.ncurl) with
              fn := some (.transfer_file_done (some it)) }))
          it (some { I with data := .transfer { st with num_iter := st.num_iter + 1 } })
        next := w.next + 1
        nalloc := w.nalloc + 1
        ncurl := w.ncurl + 1
        queue := w.queue.filter (fun j => j ≠ w.next) ++ [w.next]
        trace := w.trace ++
          issue_events it w.next st.num_iter st.url w.ncurl (env.perform w.ncurl) }) := by
  simp [transfer_file_next, tevent_req_data_transfer, deref, emit, hI, hf, hd, hmax, bind,
    Except.bind, pure, Except.pure, curl_execute_send_ok, ha, tevent_req_set_callback, store,
    transfer_state_assign, leaf_req, Function.update_apply, hne, issue_events]

theorem transfer_file_next_nomem (env : Env) (call : Call) (it : Nat) (w : World)
    (I : tevent_req) (st : transfer_file_state) (hI : w.heap it = some I)
    (hf : I.freed = false) (hd : I.data = .transfer st) (hmax : st.num_iter ≠ env.maximum)
    (ha : env.alloc w.nalloc = false) :
    transfer_file_next env call (some it) w = .ok (ENOMEM,
      { w with
        nalloc := w.nalloc + 1
        trace := w.trace ++ [.enter .transfer_file_next,
          .printf (.sending st.num_iter st.url), .enter .curl_execute_send,
          .tevent_req_create .curl_execute_state none, .printf .create_failed,
          .leave .curl_execute_send (.ptr none), .leave .transfer_file_next (.int ENOMEM)] }) := by
  simp [transfer_file_next, tevent_req_data_transfer, deref, emit, hI, hf, hd, hmax, bind,
    Except.bind, pure, Except.pure, curl_execute_send_null, ha]

theorem caller_done_ok (it : Nat) (w : World) (I : tevent_req) (st : transfer_file_state)
    (hI : w.heap it = some I) (hf : I.freed = false) (hd : I.data = .transfer st) :
    caller_done (some it) w = .ok
      { w with
        heap := release it w.heap
        queue := w.queue.filter (is_live (release it w.heap))
        trace := w.trace ++ caller_done_events it (recv_status I) } := by
  have e1 : ¬ EIO = 0 := by decide
  have e2 : ¬ (ETIMEDOUT = 0) := by decide
  have e3 : ¬ (ETIMEDOUT = EIO) := by decide
  cases hr : TEVENT_REQ_RETURN_ON_ERROR I with
  | none =>
    simp [caller_done, transfer_file_recv, tevent_req_data_transfer, talloc_free, deref, emit,
      hI, hf, hd, hr, bind, Except.bind, pure, Except.pure, recv_status, caller_done_events,
      report_events]
  | some v =>
    by_cases h0 : v = 0
    · simp [caller_done, transfer_file_recv, tevent_req_data_transfer, talloc_free, deref, emit,
        hI, hf, hd, hr, bind, Except.bind, pure, Except.pure, recv_status, caller_done_events,
        report_events, h0]
    · by_cases h1 : v = EIO
      · subst h1
        simp [caller_done, transfer_file_recv, tevent_req_data_transfer, talloc_free, deref,
          emit, hI, hf, hd, hr, bind, Except.bind, pure, Except.pure, recv_status,
          caller_done_events, report_events, e1, CURLE_OK]
      · by_cases h2 : v = ETIMEDOUT
        · subst h2
          simp [caller_done, transfer_file_recv, tevent_req_data_transfer, talloc_free, deref,
            emit, hI, hf, hd, hr, bind, Except.bind, pure, Except.pure, recv_status,
            caller_done_events, report_events, e2, e3, CURLE_OK]
        · simp [caller_done, transfer_file_recv, tevent_req_data_transfer, talloc_free, deref,
            emit, hI, hf, hd, hr, bind, Except.bind, pure, Except.pure, recv_status,
            caller_done_events, report_events, h0, h1, h2, CURLE_OK]

theorem int_of_uint64_range (x : Nat) :
    -2 ^ 31 ≤ int_of_uint64 x ∧ int_of_uint64 x < 2 ^ 31 := by
  unfold int_of_uint64
  split <;> omega

theorem int_of_uint64_of_lt (x : Nat) (h : x < 2 ^ 31) : int_of_uint64 x = x := by
  unfold int_of_uint64
  have : x % 2 ^ 32 = x := Nat.mod_eq_of_lt (by omega)
  rw [this, if_pos h]

theorem uint64_of_int_ne_zero (v : Int) (h0 : v ≠ 0) (hlo : -2 ^ 31 ≤ v) (hhi : v < 2 ^ 31) :
    uint64_of_int v ≠ 0 := by
  unfold uint64_of_int
  omega

theorem int_of_uint64_of_int (v : Int) (hlo : -2 ^ 31 ≤ v) (hhi : v < 2 ^ 31) :
    int_of_uint64 (uint64_of_int v) = v := by
  unfold int_of_uint64 uint64_of_int
  split <;> omega

theorem recv_status_range (r : tevent_req) :
    -2 ^ 31 ≤ recv_status r ∧ recv_status r < 2 ^ 31 := by
  have h := int_of_uint64_range r.error
  cases hs : r.state
  case TEVENT_REQ_USER_ERROR =>
    by_cases h0 : int_of_uint64 r.error = 0
    · simp [recv_status, TEVENT_REQ_RETURN_ON_ERROR, tevent_req_is_error, hs, h0, EIO]
    · have e : recv_status r = int_of_uint64 r.error := by
        simp [recv_status, TEVENT_REQ_RETURN_ON_ERROR, tevent_req_is_error, hs, h0]
      rw [e]
      exact h
  all_goals simp [recv_status, TEVENT_REQ_RETURN_ON_ERROR, tevent_req_is_error, hs, EIO, ETIMEDOUT]

theorem recv_status_user_error (r : tevent_req) (v : Int) (h0 : v ≠ 0) (hlo : -2 ^ 31 ≤ v)
    (hhi : v < 2 ^ 31) (hs : r.state = TEVENT_REQ_USER_ERROR) (he : r.error = uint64_of_int v) :
    recv_status r = v := by
  simp [recv_status, TEVENT_REQ_RETURN_ON_ERROR, tevent_req_is_error, hs, he,
    int_of_uint64_of_int v hlo hhi, h0]

theorem curl_execute_recv_ok (s : Nat) (w : World) (S : tevent_req) (c : curl_execute_state)
    (hS : w.heap s = some S) (hf : S.freed = false) (hd : S.data = .curl c) :
    curl_execute_recv (some s) w = .ok ((c.res, recv_status S),
      { w with trace := w.trace ++ [.enter .curl_execute_recv,
          .leave .curl_execute_recv (.int (recv_status S))] }) := by
  cases hr : TEVENT_REQ_RETURN_ON_ERROR S <;>
  simp [curl_execute_recv, tevent_req_data_curl, deref, emit, hS, hf, hd, hr, bind,
    Except.bind, pure, Except.pure, recv_status]

theorem transfer_file_done_failed (env : Env) (d s it : Nat) (w : World)
    (S I : tevent_req) (c : curl_execute_state) (st : transfer_file_state)
    (hS : w.heap s = some S) (hSf : S.freed = false)
    (hSfn : S.fn = some (.transfer_file_done (some it))) (hSd : S.data = .curl c)
    (hI : w.heap it = some I) (hIf : I.freed = false) (hIfn : I.fn = some .caller_done)
    (hId : I.data = .transfer st) (hIp : I.parent ≠ some s) (hne : s ≠ it)
    (hq : w.queue = []) (hret : recv_status S ≠ 0) :
    transfer_file_done env (call_fn env (d + 1)) (some s) w = .ok
      { w with
        heap := release it (Function.update
          (release s (Function.update w.heap it (some (seen I st c.res))))
          it (some (failed (seen I st c.res) (uint64_of_int (recv_status S)))))
        queue := []
        trace := w.trace ++ consume_events s (recv_status S) ++
          [.tevent_req_error (some it) (uint64_of_int (recv_status S)),
            .callback it .caller_done] ++
          caller_done_events it (recv_status S) ++ [.leave .transfer_file_done .void] } := by
  have hr := recv_status_range S
  have hu := uint64_of_int_ne_zero _ hret hr.1 hr.2
  have hne2 : it ≠ s := fun h => hne h.symm
  simp [transfer_file_done, tevent_req_callback_data, tevent_req_data_transfer, deref, emit,
    hS, hSf, hSfn, hSd, hI, hIf, hIfn, hId, bind, Except.bind, pure, Except.pure,
    curl_execute_recv_ok s _ S c, transfer_state_assign, store, Function.update_apply, hne,
    hne2, talloc_free, release, released_with, hIp, hret, tevent_req_error, hu,
    tevent_req_finish, call_fn, hq, seen, failed]
  rw [caller_done_ok it _ (failed (seen I st c.res) (uint64_of_int (recv_status S)))
    { st with res := c.res } (by simp [seen, failed, hIfn, hIf]) (by simp [seen, failed, hIf])
    (by simp [seen, failed])]
  simp [consume_events, seen, failed, hIfn, hIf]
  rw [recv_status_user_error _ _ hret hr.1 hr.2 rfl rfl]

theorem recv_status_done (r : tevent_req) (hs : r.state = TEVENT_REQ_DONE) :
    recv_status r = 0 := by
  simp [recv_status, TEVENT_REQ_RETURN_ON_ERROR, tevent_req_is_error, hs]

theorem transfer_file_done_finished (env : Env) (d s it : Nat) (w : World)
    (S I : tevent_req) (c : curl_execute_state) (st : transfer_file_state)
    (hS : w.heap s = some S) (hSf : S.freed = false)
    (hSfn : S.fn = some (.transfer_file_done (some it))) (hSd : S.data = .curl c)
    (hI : w.heap it = some I) (hIf : I.freed = false) (hIfn : I.fn = some .caller_done)
    (hId : I.data = .transfer st) (hIp : I.parent ≠ some s) (hne : s ≠ it)
    (hq : w.queue = []) (hret : recv_status S = 0) (hmax : st.num_iter = env.maximum) :
    transfer_file_done env (call_fn env (d + 1)) (some s) w = .ok
      { w with
        heap := release it (Function.update
          (release s (Function.update w.heap it (some (seen I st c.res))))
          it (some (finished (seen I st c.res))))
        queue := []
        trace := w.trace ++ consume_events s 0 ++
          [.enter .transfer_file_next, .leave .transfer_file_next (.int 0),
            .tevent_req_done (some it), .callback it .caller_done] ++
          caller_done_events it 0 ++ [.leave .transfer_file_done .void] } := by
  have hne2 : it ≠ s := fun h => hne h.symm
  simp [transfer_file_done, tevent_req_callback_data, tevent_req_data_transfer, deref, emit,
    hS, hSf, hSfn, hSd, hI, hIf, hIfn, hId, bind, Except.bind, pure, Except.pure,
    curl_execute_recv_ok s _ S c, transfer_state_assign, store, Function.update_apply, hne,
    hne2, talloc_free, release, released_with, hIp, hret, tevent_req_done,
    tevent_req_finish, call_fn, hq, seen, finished,
    fun w => transfer_file_next_finished env (call_fn env (d + 1)) it w (seen I st c.res)
      { st with res := c.res }, hmax]
  rw [caller_done_ok it _ (finished (seen I st c.res)) { st with res := c.res }
    (by simp [seen, finished, hIfn, hIf, hmax]) (by simp [seen, finished, hIf])
    (by simp [seen, finished])]
  simp [consume_events, seen, finished, hIfn, hIf, hmax]
  rw [recv_status_done _ rfl]

theorem transfer_file_done_nomem (env : Env) (d s it : Nat) (w : World)
    (S I : tevent_req) (c : curl_execute_state) (st : transfer_file_state)
    (hS : w.heap s = some S) (hSf : S.freed = false)
    (hSfn : S.fn = some (.transfer_file_done (some it))) (hSd : S.data = .curl c)
    (hI : w.heap it = some I) (hIf : I.freed = false) (hIfn : I.fn = some .caller_done)
    (hId : I.data = .transfer st) (hIp : I.parent ≠ some s) (hne : s ≠ it)
    (hq : w.queue = []) (hret : recv_status S = 0) (hmax : st.num_iter ≠ env.maximum)
    (ha : env.alloc w.nalloc = false) :
    transfer_file_done env (call_fn env (d + 1)) (some s) w = .ok
      { w with
        heap := release it (Function.update
          (release s (Function.update w.heap it (some (seen I st c.res))))
          it (some (failed (seen I st c.res) (uint64_of_int ENOMEM))))
        nalloc := w.nalloc + 1
        queue := []
        trace := w.trace ++ consume_events s 0 ++
          [.enter .transfer_file_next, .printf (.sending st.num_iter st.url),
            .enter .curl_execute_send, .tevent_req_create .curl_execute_state none,
            .printf .create_failed, .leave .curl_execute_send (.ptr none),
            .leave .transfer_file_next (.int ENOMEM),
            .tevent_req_error (some it) (uint64_of_int ENOMEM), .callback it .caller_done] ++
          caller_done_events it ENOMEM ++ [.leave .transfer_file_done .void] } := by
  have hne2 : it ≠ s := fun h => hne h.symm
  have e1 : ¬ (ENOMEM = 0) := by decide
  have e2 : ¬ (ENOMEM = EAGAIN) := by decide
  have e3 : ¬ (uint64_of_int ENOMEM = 0) := by decide
  simp [transfer_file_done, tevent_req_callback_data, tevent_req_data_transfer, deref, emit,
    hS, hSf, hSfn, hSd, hI, hIf, hIfn, hId, bind, Except.bind, pure, Except.pure,
    curl_execute_recv_ok s _ S c, transfer_state_assign, store, Function.update_apply, hne,
    hne2, talloc_free, release, released_with, hIp, hret, tevent_req_error,
    tevent_req_finish, call_fn, hq, seen, failed, e1, e2, e3,
    fun w => transfer_file_next_nomem env (call_fn env (d + 1)) it w (seen I st c.res)
      { st with res := c.res }, hmax, ha]
  rw [caller_done_ok it _ (failed (seen I st c.res) (uint64_of_int ENOMEM))
    { st with res := c.res }
    (by simp [seen, failed, hIfn, hIf]) (by simp [seen, failed, hIf])
    (by simp [seen, failed])]
  simp [consume_events, seen, failed, hIfn, hIf]
  rw [recv_status_user_error _ ENOMEM (by decide) (by decide) (by decide) rfl rfl]

theorem transfer_file_done_more (env : Env) (d s it : Nat) (w : World)
    (S I : tevent_req) (c : curl_execute_state) (st : transfer_file_state)
    (hS : w.heap s = some S) (hSf : S.freed = false)
    (hSfn : S.fn = some (.transfer_file_done (some it))) (hSd : S.data = .curl c)
    (hI : w.heap it = some I) (hIf : I.freed = false) (hIfn : I.fn = some .caller_done)
    (hId : I.data = .transfer st) (hIp : I.parent ≠ some s) (hne : s ≠ it)
    (hq : w.queue = []) (hret : recv_status S = 0) (hmax : st.num_iter ≠ env.maximum)
    (ha : env.alloc w.nalloc = true) (hnext : it ≠ w.next) :
    transfer_file_done env (call_fn env (d + 1)) (some s) w = .ok
      { heap := Function.update
          (Function.update (release s (Function.update w.heap it (some (seen I st c.res))))
            w.next
            (some { leaf_req (some it) (env.perform w.ncurl) with
              fn := some (.transfer_file_done (some it)) }))
          it (some { I with
            data := .transfer { st with res := c.res, num_iter := st.num_iter + 1 } })
        next := w.next + 1
        nalloc := w.nalloc + 1
        ncurl := w.ncurl + 1
        queue := [w.next]
        trace := w.trace ++ consume_events s 0 ++
          issue_events it w.next st.num_iter st.url w.ncurl (env.perform w.ncurl) ++
          [.leave .transfer_file_done .void] } := by
  have hne2 : it ≠ s := fun h => hne h.symm
  have e1 : ¬ (EAGAIN = 0) := by decide
  simp [transfer_file_done, tevent_req_callback_data, tevent_req_data_transfer, deref, emit,
    hS, hSf, hSfn, hSd, hI, hIf, hIfn, hId, bind, Except.bind, pure, Except.pure,
    curl_execute_recv_ok s _ S c, transfer_state_assign, store, Function.update_apply, hne,
    hne2, talloc_free, release, released_with, hIp, hret,
    call_fn, hq, seen, e1,
    fun w => transfer_file_next_more env (call_fn env (d + 1)) it w (seen I st c.res)
      { st with res := c.res }, hmax, ha, hnext, consume_events]

/-! ## The event loop and the run of `main` -/

theorem loop_once_leaf (env : Env) (d s : Nat) (w : World) (S : tevent_req) (p : Ptr)
    (hq : w.queue = [s]) (hS : w.heap s = some S) (hSf : S.freed = false)
    (hSfn : S.fn = some (.transfer_file_done p)) :
    tevent_loop_once env (d + 2) w =
      transfer_file_done env (call_fn env (d + 1)) (some s)
        { w with queue := [], trace := w.trace ++ [.callback s (.transfer_file_done p)] } := by
  have hu : Function.update w.heap s (some S) = w.heap := by
    rw [← hS]; exact Function.update_eq_self _ _
  have hu2 : Function.update w.heap s
      (some { state := S.state, error := S.error, fn := some (.transfer_file_done p),
              data := S.data, parent := S.parent, freed := false }) = w.heap := by
    rw [← hSf, ← hSfn]; exact hu
  simp [tevent_loop_once, hq, tevent_req_trigger, deref, hS, hSf, hSfn, tevent_req_finish,
    store, emit, bind, Except.bind, call_fn, hu2]

theorem async_step (env : Env) (d n : Nat) (w : World) (h : Async env n w) :
    ∃ w', tevent_loop_once env (d + 2) w = .ok w' ∧
      w'.trace = w.trace ++ dispatch_events env n ∧
      (if continues env n then Async env (n + 1) w'
        else Ended (final_iter env n) w') := by
  obtain ⟨hpos, hle, ⟨res, hI⟩, hS, hnext, hna, hnc, hq⟩ := h
  have hn0 : n ≠ 0 := by omega
  rw [loop_once_leaf env d n w (sub_req env (n - 1)) (some 0) hq hS rfl rfl]
  have hst : recv_status (sub_req env (n - 1)) = leaf_status env (n - 1) := rfl
  by_cases hret : leaf_status env (n - 1) = 0
  · by_cases hmax : n = env.maximum
    · refine ⟨_, transfer_file_done_finished env d n 0 _ (sub_req env (n - 1)) (iter_req n res)
        { res := env.perform (n - 1) } { ev := 0, num_iter := n, res := res, url := 1 }
        hS rfl rfl rfl hI rfl rfl rfl (by simp [iter_req]) hn0 rfl (hst.trans hret) hmax, ?_, ?_⟩
      · simp [dispatch_events, hret, if_pos hmax]
      · rw [if_neg (by simp [continues, hmax])]
        refine ⟨?_, rfl⟩
        simp [hret, if_pos hmax, final_iter, release, released_with, seen, finished, iter_req]
    · cases ha : env.alloc (n + 1)
      · refine ⟨_, transfer_file_done_nomem env d n 0 _ (sub_req env (n - 1)) (iter_req n res)
          { res := env.perform (n - 1) } { ev := 0, num_iter := n, res := res, url := 1 }
          hS rfl rfl rfl hI rfl rfl rfl (by simp [iter_req]) hn0 rfl (hst.trans hret) hmax
          (by simpa [hna] using ha), ?_, ?_⟩
        · simp [dispatch_events, hret, if_neg hmax, ha]
        · rw [if_neg (by simp [continues, ha])]
          refine ⟨?_, rfl⟩
          simp [hret, if_neg hmax, final_iter, release, released_with, seen, failed, iter_req]
      · refine ⟨_, transfer_file_done_more env d n 0 _ (sub_req env (n - 1)) (iter_req n res)
          { res := env.perform (n - 1) } { ev := 0, num_iter := n, res := res, url := 1 }
          hS rfl rfl rfl hI rfl rfl rfl (by simp [iter_req]) hn0 rfl (hst.trans hret) hmax
          (by simpa [hna] using ha) (by simp [hnext]), ?_, ?_⟩
        · simp [dispatch_events, hret, if_neg hmax, ha, hnext, hnc]
        · rw [if_pos (by simp [continues, hret, hmax, ha])]
          refine ⟨by omega, by omega, ⟨env.perform (n - 1), ?_⟩, ?_, ?_, ?_, ?_, ?_⟩
          · simp [iter_req]
          · simp [hnext, sub_req, hnc, Function.update_apply]
          · simp [hnext]
          · simp [hna]
          · simp [hnc]
          · simp [hnext]
  · refine ⟨_, transfer_file_done_failed env d n 0 _ (sub_req env (n - 1)) (iter_req n res)
      { res := env.perform (n - 1) } { ev := 0, num_iter := n, res := res, url := 1 }
      hS rfl rfl rfl hI rfl rfl rfl (by simp [iter_req]) hn0 rfl
      (by rw [hst]; exact hret), ?_, ?_⟩
    · simp [dispatch_events, hret, hst]
    · rw [if_neg (by simp [continues, hret])]
      refine ⟨?_, rfl⟩
      simp [hret, hst, final_iter, release, released_with, seen, failed, iter_req]

theorem loop_wait_idle (env : Env) (stack fuel : Nat) (w : World) (hq : w.queue = []) :
    tevent_loop_wait_fuel env stack fuel w = .ok w := by
  cases fuel <;> simp [tevent_loop_wait_fuel, hq, pure, Except.pure]

theorem continues_lt (env : Env) (n : Nat) (hle : n ≤ env.maximum) (h : continues env n = true) :
    n < env.maximum := by
  have : n ≠ env.maximum := by
    simp [continues] at h
    exact h.1.2
  omega

theorem loop_async (env : Env) (d : Nat) :
    ∀ (k n : Nat) (w : World) (fuel : Nat), Async env n w → env.maximum - n = k → k < fuel →
      ∃ w', tevent_loop_wait_fuel env (d + 2) fuel w = .ok w' ∧
        w'.trace = w.trace ++ tail_events env k n ∧
        Ended (final_iter env (stop_index env k n)) w' := by
  intro k
  induction k with
  | zero =>
    intro n w fuel h hk hf
    obtain ⟨w1, h1, ht, hc⟩ := async_step env d n w h
    have hnc : continues env n = false := by
      cases hcn : continues env n
      · rfl
      · have := continues_lt env n h.le hcn
        omega
    rw [hnc] at hc
    simp only [Bool.false_eq_true, if_false] at hc
    obtain ⟨f, rfl⟩ : ∃ f, fuel = f + 1 := ⟨fuel - 1, by omega⟩
    refine ⟨w1, ?_, ?_, ?_⟩
    · simp [tevent_loop_wait_fuel, h.queue, h1, bind, Except.bind, loop_wait_idle _ _ _ _ hc.queue]
    · simpa [tail_events] using ht
    · simpa [stop_index] using hc
  | succ k ih =>
    intro n w fuel h hk hf
    obtain ⟨w1, h1, ht, hc⟩ := async_step env d n w h
    obtain ⟨f, rfl⟩ : ∃ f, fuel = f + 1 := ⟨fuel - 1, by omega⟩
    cases hcn : continues env n
    · rw [hcn] at hc
      simp only [Bool.false_eq_true, if_false] at hc
      refine ⟨w1, ?_, ?_, ?_⟩
      · simp [tevent_loop_wait_fuel, h.queue, h1, bind, Except.bind,
          loop_wait_idle _ _ _ _ hc.queue]
      · simpa [tail_events, hcn] using ht
      · simpa [stop_index, hcn] using hc
    · rw [hcn] at hc
      simp only [if_true] at hc
      obtain ⟨w2, h2, ht2, hc2⟩ := ih (n + 1) w1 f hc (by omega) (by omega)
      refine ⟨w2, ?_, ?_, ?_⟩
      · simp [tevent_loop_wait_fuel, h.queue, h1, bind, Except.bind, h2]
      · simp [tail_events, hcn, ht2, ht]
      · simpa [stop_index, hcn] using hc2

theorem caller_async (env : Env) (call : Call) (h0 : env.alloc 0 = true)
    (h1 : env.alloc 1 = true) (hm : env.maximum ≠ 0) :
    ∃ w, caller env call 0 1 World.init = .ok (0, w) ∧ w.trace = start_events env ∧
      Async env 1 w := by
  have e1 : ¬ (EAGAIN = 0) := by decide
  have hm2 : ¬ (0 = env.maximum) := fun h => hm h.symm
  have h : match caller env call 0 1 World.init with
      | .ok (r, w) => r = 0 ∧ w.trace = start_events env ∧ Async env 1 w
      | .error _ => False := by
    simp [caller, transfer_file_send, World.init, tevent_req_create, h0, emit, store,
      PayloadType.zero, transfer_state_assign, deref, bind, Except.bind, pure, Except.pure,
      fun w => transfer_file_next_more env call 0 w fresh_iter
        { ev := 0, num_iter := 0, res := 0, url := 1 }, fresh_iter, hm2, h1, e1,
      tevent_req_set_callback, Function.update_apply, start_events]
    refine ⟨le_refl 1, by omega, ⟨0, ?_⟩, ?_, rfl, rfl, rfl, rfl⟩
    · simp [iter_req]
    · simp [sub_req]
  cases hc : caller env call 0 1 World.init with
  | error e => rw [hc] at h; exact h.elim
  | ok v =>
    obtain ⟨r, w⟩ := v
    rw [hc] at h
    obtain ⟨rfl, ht, ha⟩ := h
    exact ⟨w, rfl, ht, ha⟩

theorem loop_sync (env : Env) (d f : Nat) (w : World) (I : tevent_req)
    (st : transfer_file_state) (hq : w.queue = [0]) (hI : w.heap 0 = some I)
    (hIf : I.freed = false) (hIfn : I.fn = some .caller_done) (hId : I.data = .transfer st) :
    tevent_loop_wait_fuel env (d + 1) (f + 1) w = .ok
      { w with
        heap := release 0 w.heap
        queue := []
        trace := w.trace ++ [.callback 0 .caller_done] ++
          caller_done_events 0 (recv_status I) } := by
  have hu : Function.update w.heap 0 (some I) = w.heap := by
    rw [← hI]; exact Function.update_eq_self _ _
  have hu2 : Function.update w.heap 0
      (some { state := I.state, error := I.error, fn := some .caller_done,
              data := .transfer st, parent := I.parent, freed := false }) = w.heap := by
    rw [← hIf, ← hIfn, ← hId]; exact hu
  simp [tevent_loop_wait_fuel, tevent_loop_once, hq, tevent_req_trigger, deref, hI, hIf, hIfn,
    hId, tevent_req_finish, store, emit, bind, Except.bind, call_fn, hu2]
  rw [caller_done_ok 0 { w with queue := [], trace := w.trace ++ [.callback 0 .caller_done] }
    I st hI hIf hId]
  simp [loop_wait_idle]

theorem caller_zero (env : Env) (call : Call) (h0 : env.alloc 0 = true)
    (hm : env.maximum = 0) :
    ∃ w, caller env call 0 1 World.init = .ok (0, w) ∧ w.trace = start_events_zero ∧
      w.queue = [0] ∧ w.heap 0 = some (finished (iter_req 0 0)) := by
  have e0 : ¬ ((0 : Int) = EAGAIN) := by decide
  have h : match caller env call 0 1 World.init with
      | .ok (r, w) => r = 0 ∧ w.trace = start_events_zero ∧
          w.queue = [0] ∧ w.heap 0 = some (finished (iter_req 0 0))
      | .error _ => False := by
    simp [caller, transfer_file_send, World.init, tevent_req_create, h0, emit, store,
      PayloadType.zero, transfer_state_assign, deref, bind, Except.bind, pure, Except.pure,
      fun w => transfer_file_next_finished env call 0 w fresh_iter
        { ev := 0, num_iter := 0, res := 0, url := 1 }, fresh_iter, hm, e0,
      tevent_req_set_callback, Function.update_apply, start_events_zero, tevent_req_done,
      tevent_req_finish, tevent_req_post, finished, iter_req]
  cases hc : caller env call 0 1 World.init with
  | error e => rw [hc] at h; exact h.elim
  | ok v =>
    obtain ⟨r, w⟩ := v
    rw [hc] at h
    obtain ⟨rfl, ht, ha⟩ := h
    exact ⟨w, rfl, ht, ha⟩

theorem caller_nomem (env : Env) (call : Call) (h0 : env.alloc 0 = true)
    (h1 : env.alloc 1 = false) (hm : env.maximum ≠ 0) :
    ∃ w, caller env call 0 1 World.init = .ok (0, w) ∧ w.trace = start_events_nomem ∧
      w.queue = [0] ∧ w.heap 0 = some (failed (iter_req 0 0) (uint64_of_int ENOMEM)) := by
  have e1 : ¬ (ENOMEM = 0) := by decide
  have e2 : ¬ (ENOMEM = EAGAIN) := by decide
  have e3 : ¬ (uint64_of_int ENOMEM = 0) := by decide
  have hm2 : ¬ (0 = env.maximum) := fun h => hm h.symm
  have h : match caller env call 0 1 World.init with
      | .ok (r, w) => r = 0 ∧ w.trace = start_events_nomem ∧
          w.queue = [0] ∧ w.heap 0 = some (failed (iter_req 0 0) (uint64_of_int ENOMEM))
      | .error _ => False := by
    simp [caller, transfer_file_send, World.init, tevent_req_create, h0, emit, store,
      PayloadType.zero, transfer_state_assign, deref, bind, Except.bind, pure, Except.pure,
      fun w => transfer_file_next_nomem env call 0 w fresh_iter
        { ev := 0, num_iter := 0, res := 0, url := 1 }, fresh_iter, hm2, h1, e1, e2, e3,
      tevent_req_set_callback, Function.update_apply, start_events_nomem, tevent_req_error,
      tevent_req_finish, tevent_req_post, failed, iter_req]
  cases hc : caller env call 0 1 World.init with
  | error e => rw [hc] at h; exact h.elim
  | ok v =>
    obtain ⟨r, w⟩ := v
    rw [hc] at h
    obtain ⟨rfl, ht, ha⟩ := h
    exact ⟨w, rfl, ht, ha⟩

theorem final_iter_freed (env : Env) (n : Nat) : (final_iter env n).freed = true := by
  unfold final_iter
  split
  · rfl
  · split <;> rfl

theorem run_iter_freed (env : Env) : (run_iter env).freed = true := by
  unfold run_iter
  split
  · rfl
  · split
    · exact final_iter_freed _ _
    · rfl

theorem set_freed_of_freed (r : tevent_req) (h : r.freed = true) :
    { r with freed := true } = r := by
  cases r
  simp at h
  simp [h]

theorem main_run (env : Env) (stack fuel : Nat) (hstack : 2 ≤ stack)
    (hfuel : env.maximum < fuel) (hev : env.ev_ok = true) (hmctx : env.mctx_ok = true)
    (h0 : env.alloc 0 = true) :
    ∃ w, main env stack fuel = .ok (0, w) ∧ w.trace = run_events env ∧
      w.heap 0 = some (run_iter env) ∧ w.queue = [] := by
  obtain ⟨d, rfl⟩ : ∃ d, stack = d + 2 := ⟨stack - 2, by omega⟩
  obtain ⟨f, rfl⟩ : ∃ f, fuel = f + 1 := ⟨fuel - 1, by omega⟩
  have hmain : ∀ w w2, caller env (call_fn env (d + 2)) 0 1 World.init = .ok (0, w) →
      tevent_loop_wait_fuel env (d + 2) (f + 1) (emit .tevent_loop_wait w) = .ok w2 →
      main env (d + 2) (f + 1) = .ok (0, talloc_free_mctx w2) := by
    intro w w2 hc hl
    simp [main, hev, hmctx, hc, hl, bind, Except.bind, pure, Except.pure]
  by_cases hm : env.maximum = 0
  · obtain ⟨w, hc, ht, hq, hI⟩ := caller_zero env (call_fn env (d + 2)) h0 hm
    have hl := loop_sync env (d + 1) f (emit .tevent_loop_wait w) (finished (iter_req 0 0))
      { ev := 0, num_iter := 0, res := 0, url := 1 } hq hI rfl rfl rfl
    have hs : recv_status (finished (iter_req 0 0)) = 0 := recv_status_done _ rfl
    refine ⟨_, hmain w _ hc hl, ?_, ?_, ?_⟩
    · simp [talloc_free_mctx, emit, ht, run_events, hm, hs]
    · simp [talloc_free_mctx, emit, release, hI, released_with, run_iter, hm]
    · rfl
  · cases h1 : env.alloc 1
    · obtain ⟨w, hc, ht, hq, hI⟩ := caller_nomem env (call_fn env (d + 2)) h0 h1 hm
      have hl := loop_sync env (d + 1) f (emit .tevent_loop_wait w)
        (failed (iter_req 0 0) (uint64_of_int ENOMEM))
        { ev := 0, num_iter := 0, res := 0, url := 1 } hq hI rfl rfl rfl
      have hs : recv_status (failed (iter_req 0 0) (uint64_of_int ENOMEM)) = ENOMEM :=
        recv_status_user_error _ ENOMEM (by decide) (by decide) (by decide) rfl rfl
      refine ⟨_, hmain w _ hc hl, ?_, ?_, ?_⟩
      · simp [talloc_free_mctx, emit, ht, run_events, hm, h1, hs]
      · simp [talloc_free_mctx, emit, release, hI, released_with, run_iter, hm, h1]
      · rfl
    · obtain ⟨w, hc, ht, ha⟩ := caller_async env (call_fn env (d + 2)) h0 h1 hm
      have ha2 : Async env 1 (emit .tevent_loop_wait w) :=
        ⟨ha.pos, ha.le, ha.iter, ha.leaf, ha.next, ha.nalloc, ha.ncurl, ha.queue⟩
      obtain ⟨w2, hl, ht2, he⟩ := loop_async env d (env.maximum - 1) 1
        (emit .tevent_loop_wait w) (f + 1) ha2 rfl (by omega)
      refine ⟨_, hmain w _ hc hl, ?_, ?_, ?_⟩
      · simp [talloc_free_mctx, emit, ht, ht2, run_events, hm, h1]
      · have hfr := final_iter_freed env (stop_index env (env.maximum - 1) 1)
        simp only [talloc_free_mctx, he.iter, run_iter, hm, h1, if_true, if_false,
          Option.map_some']
        rw [set_freed_of_freed _ hfr]
      · rfl

/-! ## The shape of a run -/

theorem dispatch_events_of_continues (env : Env) (n : Nat) (h : continues env n = true) :
    dispatch_events env n =
      .callback n (.transfer_file_done (some 0)) ::
        (consume_events n 0 ++ issue_events 0 (n + 1) n 1 n (env.perform n) ++
          [.leave .transfer_file_done .void]) := by
  simp only [continues, Bool.and_eq_true, decide_eq_true_eq] at h
  obtain ⟨⟨h1, h2⟩, h3⟩ := h
  simp [dispatch_events, h1, h2, h3]

theorem dispatch_events_of_stop (env : Env) (n : Nat) (h : continues env n = false) :
    dispatch_events env n =
      .callback n (.transfer_file_done (some 0)) ::
        (consume_events n (leaf_status env (n - 1)) ++ finish_events env n ++
          .callback 0 .caller_done ::
            (caller_done_events 0 (final_status env n) ++
              [.leave .transfer_file_done .void])) := by
  by_cases h1 : leaf_status env (n - 1) = 0
  · by_cases h2 : n = env.maximum
    · simp [dispatch_events, finish_events, final_status, h1, if_pos h2]
    · have h3 : env.alloc (n + 1) = false := by
        simpa [continues, h1, h2] using h
      simp [dispatch_events, finish_events, final_status, h1, if_neg h2, h3]
  · simp [dispatch_events, finish_events, final_status, h1]

theorem tail_events_of_stop (env : Env) (k n : Nat) (h : continues env n = false) :
    tail_events env k n = dispatch_events env n := by
  cases k <;> simp [tail_events, h]

theorem stop_index_of_stop (env : Env) (k n : Nat) (h : continues env n = false) :
    stop_index env k n = n := by
  cases k <;> simp [stop_index, h]

theorem continues_false_of_max (env : Env) (h : n = env.maximum) : continues env n = false := by
  simp [continues, h]

theorem stop_index_bounds (env : Env) :
    ∀ k n, n ≤ stop_index env k n ∧ stop_index env k n ≤ n + k := by
  intro k
  induction k with
  | zero => intro n; simp [stop_index]
  | succ k ih =>
    intro n
    cases h : continues env n
    · simp [stop_index, h]
    · have := ih (n + 1)
      simp only [stop_index, h, if_true]
      omega

theorem stop_index_stops (env : Env) :
    ∀ k n, n + k = env.maximum → continues env (stop_index env k n) = false := by
  intro k
  induction k with
  | zero => intro n hk; exact continues_false_of_max env (by simpa [stop_index] using hk)
  | succ k ih =>
    intro n hk
    cases h : continues env n
    · simp [stop_index, h]
    · simpa [stop_index, h] using ih (n + 1) (by omega)

/-- A statement about the operations up to the end of a run and the number
`N` of operations issued in it, proved by induction along the chain: it holds
at the last continuation, and is carried over a continuation that issues a
further operation. -/
theorem tail_events_induction (env : Env) (P : Nat → Nat → List Event → Prop)
    (hstop : ∀ n, continues env n = false → P n n (dispatch_events env n))
    (hmore : ∀ n N t, continues env n = true → n < N → P (n + 1) N t →
      P n N (dispatch_events env n ++ t)) :
    ∀ k n, n + k = env.maximum → P n (stop_index env k n) (tail_events env k n) := by
  intro k
  induction k with
  | zero =>
    intro n hk
    exact hstop n (continues_false_of_max env (by simpa using hk))
  | succ k ih =>
    intro n hk
    cases h : continues env n
    · rw [tail_events_of_stop env _ n h, stop_index_of_stop env _ n h]; exact hstop n h
    · simp only [tail_events, stop_index, h, if_true]
      have hb := (stop_index_bounds env k (n + 1)).1
      exact hmore n _ _ h (by omega) (ih (n + 1) (by omega))

/-! ## Observations on a run -/

theorem performed_append (a b : List Event) : performed (a ++ b) = performed a ++ performed b := by
  simp [performed]

theorem reported_append (a b : List Event) : reported (a ++ b) = reported a ++ reported b := by
  simp [reported]

theorem counters_append (a b : List Event) : counters (a ++ b) = counters a ++ counters b := by
  simp [counters]

theorem sends_append (a b : List Event) : sends (a ++ b) = sends a + sends b := by
  simp [sends]

theorem performed_cons (e : Event) (t : List Event) :
    performed (e :: t) = (performed_of e).toList ++ performed t := by
  unfold performed
  rw [List.filterMap_cons]
  cases performed_of e <;> simp

theorem reported_cons (e : Event) (t : List Event) :
    reported (e :: t) = (reported_of e).toList ++ reported t := by
  unfold reported
  rw [List.filterMap_cons]
  cases reported_of e <;> simp

theorem counters_cons (e : Event) (t : List Event) :
    counters (e :: t) = (counters_of e).toList ++ counters t := by
  unfold counters
  rw [List.filterMap_cons]
  cases counters_of e <;> simp

theorem sends_cons (e : Event) (t : List Event) :
    sends (e :: t) = (if e = .enter .curl_execute_send then 1 else 0) + sends t := by
  unfold sends
  rw [List.count_cons]
  by_cases h : e = .enter .curl_execute_send
  · simp [h]; omega
  · simp [h]

theorem obs_report_events (ret : Int) :
    performed (report_events ret) = [] ∧ reported (report_events ret) = [] ∧
    counters (report_events ret) = [] ∧ sends (report_events ret) = 0 := by
  unfold report_events
  split_ifs <;>
    simp [performed, reported, counters, sends, performed_of, reported_of, counters_of]

theorem obs_caller_done_events (it : Nat) (ret : Int) :
    performed (caller_done_events it ret) = [] ∧ reported (caller_done_events it ret) = [ret] ∧
    counters (caller_done_events it ret) = [] ∧ sends (caller_done_events it ret) = 0 := by
  obtain ⟨h1, h2, h3, h4⟩ := obs_report_events ret
  simp only [caller_done_events, performed_append, reported_append, counters_append,
    sends_append, h1, h2, h3, h4]
  simp [performed, reported, counters, sends, performed_of, reported_of, counters_of]

theorem obs_consume_events (s : Nat) (ret : Int) :
    performed (consume_events s ret) = [] ∧ reported (consume_events s ret) = [] ∧
    counters (consume_events s ret) = [] ∧ sends (consume_events s ret) = 0 := by
  simp [consume_events, performed, reported, counters, sends, performed_of, reported_of,
    counters_of]

theorem obs_issue_events (it s n url k r : Nat) :
    performed (issue_events it s n url k r) = [(k, r)] ∧
    reported (issue_events it s n url k r) = [] ∧
    counters (issue_events it s n url k r) = [n] ∧ sends (issue_events it s n url k r) = 1 := by
  unfold issue_events leaf_events
  split_ifs <;>
    simp [performed, reported, counters, sends, List.count_cons, performed_of, reported_of,
      counters_of]

theorem obs_finish_events (env : Env) (n : Nat) :
    performed (finish_events env n) = [] ∧ reported (finish_events env n) = [] ∧
    counters (finish_events env n) = List.range' n (failed_attempt env n) ∧
    sends (finish_events env n) = failed_attempt env n := by
  unfold finish_events failed_attempt
  split_ifs <;>
    simp [performed, reported, counters, sends, performed_of, reported_of, counters_of,
      List.count_cons]

theorem obs_dispatch_more (env : Env) (n : Nat) (h : continues env n = true) :
    performed (dispatch_events env n) = [(n, env.perform n)] ∧
    reported (dispatch_events env n) = [] ∧
    counters (dispatch_events env n) = [n] ∧ sends (dispatch_events env n) = 1 := by
  obtain ⟨a1, a2, a3, a4⟩ := obs_consume_events n 0
  obtain ⟨b1, b2, b3, b4⟩ := obs_issue_events 0 (n + 1) n 1 n (env.perform n)
  rw [dispatch_events_of_continues env n h]
  refine ⟨?_, ?_, ?_, ?_⟩
  · simp only [performed_cons, performed_append, a1, b1]
    simp [performed, performed_of]
  · simp only [reported_cons, reported_append, a2, b2]
    simp [reported, reported_of]
  · simp only [counters_cons, counters_append, a3, b3]
    simp [counters, counters_of]
  · simp only [sends_cons, sends_append, a4, b4]
    simp [sends]

theorem obs_dispatch_stop (env : Env) (n : Nat) (h : continues env n = false) :
    performed (dispatch_events env n) = [] ∧
    reported (dispatch_events env n) = [final_status env n] ∧
    counters (dispatch_events env n) = List.range' n (failed_attempt env n) ∧
    sends (dispatch_events env n) = failed_attempt env n := by
  obtain ⟨a1, a2, a3, a4⟩ := obs_consume_events n (leaf_status env (n - 1))
  obtain ⟨b1, b2, b3, b4⟩ := obs_finish_events env n
  obtain ⟨c1, c2, c3, c4⟩ := obs_caller_done_events 0 (final_status env n)
  rw [dispatch_events_of_stop env n h]
  refine ⟨?_, ?_, ?_, ?_⟩
  · simp only [performed_cons, performed_append, a1, b1, c1]
    simp [performed, performed_of]
  · simp only [reported_cons, reported_append, a2, b2, c2]
    simp [reported, reported_of]
  · simp only [counters_cons, counters_append, a3, b3, c3]
    simp [counters, counters_of]
  · simp only [sends_cons, sends_append, a4, b4, c4]
    simp [sends]

/-- The external calls, the reported status, the printed counters and the
number of calls of `curl_execute_send` from the continuation of the operation
with counter `n - 1` to the end of the run, where `N` is the number of
operations issued in the whole run. -/
theorem obs_tail_events (env : Env) (k n : Nat) (hk : n + k = env.maximum) :
    performed (tail_events env k n) =
      (List.range' n (stop_index env k n - n)).map (fun i => (i, env.perform i)) ∧
    reported (tail_events env k n) = [final_status env (stop_index env k n)] ∧
    counters (tail_events env k n) =
      List.range' n (stop_index env k n - n + failed_attempt env (stop_index env k n)) ∧
    sends (tail_events env k n) =
      stop_index env k n - n + failed_attempt env (stop_index env k n) := by
  refine tail_events_induction env
    (fun n N t => performed t = (List.range' n (N - n)).map (fun i => (i, env.perform i)) ∧
      reported t = [final_status env N] ∧
      counters t = List.range' n (N - n + failed_attempt env N) ∧
      sends t = N - n + failed_attempt env N) ?_ ?_ k n hk
  · intro n h
    obtain ⟨h1, h2, h3, h4⟩ := obs_dispatch_stop env n h
    simp [h1, h2, h3, h4]
  · intro n N t h hlt ⟨ih1, ih2, ih3, ih4⟩
    obtain ⟨h1, h2, h3, h4⟩ := obs_dispatch_more env n h
    obtain ⟨j, rfl⟩ : ∃ j, N = n + 1 + j := ⟨N - (n + 1), by omega⟩
    have e1 : n + 1 + j - (n + 1) = j := by omega
    have e2 : n + 1 + j - n = j + 1 := by omega
    rw [e1] at ih1 ih3 ih4
    rw [e2]
    refine ⟨?_, ?_, ?_, ?_⟩
    · rw [performed_append, h1, ih1, List.range'_succ]
      simp
    · rw [reported_append, h2, ih2]
      simp
    · rw [counters_append, h3, ih3]
      have e3 : j + 1 + failed_attempt env (n + 1 + j) =
          (j + failed_attempt env (n + 1 + j)) + 1 := by omega
      rw [e3, List.range'_succ]
      simp
    · rw [sends_append, h4, ih4]
      omega

theorem issued_pos (env : Env) (hm : env.maximum ≠ 0) (h1 : env.alloc 1 = true) :
    1 ≤ issued env ∧ issued env ≤ env.maximum := by
  have h := stop_index_bounds env (env.maximum - 1) 1
  simp only [issued, hm, h1, if_true, if_false]
  omega

/-- The observations on a whole run. -/
theorem obs_run_events (env : Env) :
    performed (run_events env) = (List.range (issued env)).map (fun i => (i, env.perform i)) ∧
    reported (run_events env) = [run_status env] ∧
    counters (run_events env) = List.range (attempted env) ∧
    sends (run_events env) = attempted env := by
  by_cases hm : env.maximum = 0
  · simp [run_events, issued, run_status, attempted, hm, start_events_zero, caller_done_events,
      report_events, performed, reported, counters, sends, performed_of, reported_of,
      counters_of, List.count_cons]
  · cases h1 : env.alloc 1
    · have e1 : ¬ ENOMEM = 0 := by decide
      have e2 : ¬ ENOMEM = EIO := by decide
      have e3 : ¬ ENOMEM = ETIMEDOUT := by decide
      simp [run_events, issued, run_status, attempted, hm, h1, start_events_nomem,
        caller_done_events, report_events, performed, reported, counters, sends, performed_of,
        reported_of, counters_of, List.count_cons, e1, e2, e3, List.range_succ]
    · obtain ⟨t1, t2, t3, t4⟩ := obs_tail_events env (env.maximum - 1) 1 (by omega)
      obtain ⟨b1, b2, b3, b4⟩ := obs_issue_events 0 1 0 1 0 (env.perform 0)
      have hb := stop_index_bounds env (env.maximum - 1) 1
      obtain ⟨j, hj⟩ : ∃ j, stop_index env (env.maximum - 1) 1 = j + 1 :=
        ⟨stop_index env (env.maximum - 1) 1 - 1, by omega⟩
      simp only [run_events, issued, run_status, attempted, hm, h1, if_true, if_false,
        start_events]
      rw [hj] at t1 t2 t3 t4 ⊢
      refine ⟨?_, ?_, ?_, ?_⟩
      · simp only [performed_cons, performed_append, b1, t1]
        have e : j + 1 - 1 = j := by omega
        rw [e, List.range_eq_range', List.range'_succ]
        simp [performed, performed_of]
      · simp only [reported_cons, reported_append, b2, t2]
        simp [reported, reported_of]
      · simp only [counters_cons, counters_append, b3, t3]
        have e : j + 1 - 1 + failed_attempt env (j + 1) = j + failed_attempt env (j + 1) := by
          omega
        have e2 : j + 1 + failed_attempt env (j + 1) = (j + failed_attempt env (j + 1)) + 1 := by
          omega
        rw [e, e2, List.range_eq_range', List.range'_succ]
        simp [counters, counters_of]
      · simp only [sends_cons, sends_append, b4, t4]
        simp [sends]
        omega

theorem verdicts_append (a b : List Event) : verdicts (a ++ b) = verdicts a ++ verdicts b := by
  simp [verdicts]

theorem verdicts_cons (e : Event) (t : List Event) :
    verdicts (e :: t) = (verdicts_of e).toList ++ verdicts t := by
  unfold verdicts
  rw [List.filterMap_cons]
  cases verdicts_of e <;> simp

theorem verdicts_caller_done_events (it : Nat) (ret : Int) :
    verdicts (caller_done_events it ret) = [verdict ret] := by
  unfold caller_done_events report_events verdict
  split_ifs <;> simp [verdicts, verdicts_of]

theorem verdicts_issue_events (it s n url k r : Nat) :
    verdicts (issue_events it s n url k r) = [] := by
  unfold issue_events leaf_events
  split_ifs <;> simp [verdicts, verdicts_of]

theorem verdicts_finish_events (env : Env) (n : Nat) : verdicts (finish_events env n) = [] := by
  unfold finish_events
  split_ifs <;> simp [verdicts, verdicts_of]

theorem verdicts_tail_events (env : Env) (k n : Nat) (hk : n + k = env.maximum) :
    verdicts (tail_events env k n) = [verdict (final_status env (stop_index env k n))] := by
  refine tail_events_induction env (fun _ N t => verdicts t = [verdict (final_status env N)])
    ?_ ?_ k n hk
  · intro n h
    rw [dispatch_events_of_stop env n h]
    simp only [verdicts_cons, verdicts_append, verdicts_finish_events,
      verdicts_caller_done_events]
    simp [verdicts, verdicts_of, consume_events]
  · intro n N t h _ ih
    rw [dispatch_events_of_continues env n h]
    simp only [verdicts_cons, verdicts_append, verdicts_issue_events, ih]
    simp [verdicts, verdicts_of, consume_events]

theorem verdicts_run_events (env : Env) :
    verdicts (run_events env) = [verdict (run_status env)] := by
  by_cases hm : env.maximum = 0
  · simp only [run_events, run_status, hm, if_true, verdicts_append,
      verdicts_caller_done_events]
    simp [verdicts, verdicts_of, start_events_zero]
  · cases h1 : env.alloc 1
    · simp only [run_events, run_status, hm, h1, if_false, verdicts_append,
        verdicts_caller_done_events, Bool.false_eq_true]
      simp [verdicts, verdicts_of, start_events_nomem]
    · simp only [run_events, run_status, hm, h1, if_false, if_true, verdicts_append,
        verdicts_tail_events env (env.maximum - 1) 1 (by omega), start_events,
        verdicts_issue_events]
      simp [verdicts, verdicts_of]

theorem leaf_status_of_ok (env : Env) (k : Nat) (h : env.perform k = CURLE_OK) :
    leaf_status env k = 0 := by
  simp [leaf_status, leaf_req, h, recv_status, TEVENT_REQ_RETURN_ON_ERROR, tevent_req_is_error]

theorem leaf_status_of_failure (env : Env) (k E : Nat) (h : env.perform k = E) (h0 : E ≠ 0)
    (hE : E < 2 ^ 31) : leaf_status env k = E := by
  have h1 : ¬ E = CURLE_OK := h0
  have h2 : E % 2 ^ 64 = E := Nat.mod_eq_of_lt (by omega)
  have h3 : int_of_uint64 E = E := int_of_uint64_of_lt E hE
  have h4 : ¬ (E : Int) = 0 := by exact_mod_cast h0
  simp only [leaf_status, leaf_req, h, recv_status, TEVENT_REQ_RETURN_ON_ERROR,
    tevent_req_is_error, if_neg h1, uint64_of_CURLcode, h2, if_neg h0]
  simp [h3, h4]

theorem stop_index_eq (env : Env) (K : Nat) :
    ∀ k n, (∀ i, n ≤ i → i < K → continues env i = true) → continues env K = false →
      n ≤ K → K ≤ n + k → stop_index env k n = K := by
  intro k
  induction k with
  | zero =>
    intro n _ _ h1 h2
    simp only [stop_index]
    omega
  | succ k ih =>
    intro n hc hs h1 h2
    by_cases hn : n = K
    · subst hn
      rw [stop_index_of_stop env _ n hs]
    · have hcn := hc n (le_refl n) (by omega)
      simp only [stop_index, hcn, if_true]
      exact ih (n + 1) (fun i hi hiK => hc i (by omega) hiK) hs (by omega) (by omega)

theorem created_append (a b : List Event) : created (a ++ b) = created a ++ created b := by
  simp [created]

theorem registered_append (i : Nat) (a b : List Event) :
    registered i (a ++ b) = registered i a ++ registered i b := by
  simp [registered]

theorem invoked_append (i : Nat) (a b : List Event) :
    invoked i (a ++ b) = invoked i a ++ invoked i b := by
  simp [invoked]

theorem created_cons (e : Event) (t : List Event) :
    created (e :: t) = (created_of e).toList ++ created t := by
  unfold created
  rw [List.filterMap_cons]
  cases created_of e <;> simp

theorem registered_cons (i : Nat) (e : Event) (t : List Event) :
    registered i (e :: t) = (registered_of i e).toList ++ registered i t := by
  unfold registered
  rw [List.filterMap_cons]
  cases registered_of i e <;> simp

theorem invoked_cons (i : Nat) (e : Event) (t : List Event) :
    invoked i (e :: t) = (invoked_of i e).toList ++ invoked i t := by
  unfold invoked
  rw [List.filterMap_cons]
  cases invoked_of i e <;> simp

theorem cb_report_events (i : Nat) (ret : Int) :
    created (report_events ret) = [] ∧ registered i (report_events ret) = [] ∧
    invoked i (report_events ret) = [] := by
  unfold report_events
  split_ifs <;> simp [created, registered, invoked, created_of, registered_of, invoked_of]

theorem cb_caller_done_events (i it : Nat) (ret : Int) :
    created (caller_done_events it ret) = [] ∧ registered i (caller_done_events it ret) = [] ∧
    invoked i (caller_done_events it ret) = [] := by
  obtain ⟨h1, h2, h3⟩ := cb_report_events i ret
  simp only [caller_done_events, created_append, registered_append, invoked_append, h1, h2, h3]
  simp [created, registered, invoked, created_of, registered_of, invoked_of]

theorem cb_consume_events (i s : Nat) (ret : Int) :
    created (consume_events s ret) = [] ∧ registered i (consume_events s ret) = [] ∧
    invoked i (consume_events s ret) = [] := by
  simp [consume_events, created, registered, invoked, created_of, registered_of, invoked_of]

theorem cb_issue_events (i it s n url k r : Nat) :
    created (issue_events it s n url k r) = [s] ∧
    registered i (issue_events it s n url k r) =
      (if s = i then [.transfer_file_done (some it)] else []) ∧
    invoked i (issue_events it s n url k r) = [] := by
  unfold issue_events leaf_events
  split_ifs <;> simp_all [created, registered, invoked, created_of, registered_of, invoked_of]

theorem cb_finish_events (env : Env) (i n : Nat) :
    created (finish_events env n) = [] ∧ registered i (finish_events env n) = [] ∧
    invoked i (finish_events env n) = [] := by
  unfold finish_events
  split_ifs <;> simp [created, registered, invoked, created_of, registered_of, invoked_of]

theorem cb_dispatch_more (env : Env) (i n : Nat) (h : continues env n = true) :
    created (dispatch_events env n) = [n + 1] ∧
    registered i (dispatch_events env n) =
      (if n + 1 = i then [.transfer_file_done (some 0)] else []) ∧
    invoked i (dispatch_events env n) =
      (if n = i then [.transfer_file_done (some 0)] else []) := by
  obtain ⟨a1, a2, a3⟩ := cb_consume_events i n 0
  obtain ⟨b1, b2, b3⟩ := cb_issue_events i 0 (n + 1) n 1 n (env.perform n)
  rw [dispatch_events_of_continues env n h]
  refine ⟨?_, ?_, ?_⟩
  · simp only [created_cons, created_append, a1, b1]
    simp [created, created_of]
  · simp only [registered_cons, registered_append, a2, b2]
    simp [registered, registered_of]
  · simp only [invoked_cons, invoked_append, a3, b3]
    by_cases hi : n = i <;> simp [invoked, invoked_of, hi]

theorem cb_dispatch_stop (env : Env) (i n : Nat) (h : continues env n = false) :
    created (dispatch_events env n) = [] ∧
    registered i (dispatch_events env n) = [] ∧
    invoked i (dispatch_events env n) =
      (if n = i then [.transfer_file_done (some 0)] else []) ++
        (if i = 0 then [.caller_done] else []) := by
  obtain ⟨a1, a2, a3⟩ := cb_consume_events i n (leaf_status env (n - 1))
  obtain ⟨b1, b2, b3⟩ := cb_finish_events env i n
  obtain ⟨c1, c2, c3⟩ := cb_caller_done_events i 0 (final_status env n)
  rw [dispatch_events_of_stop env n h]
  refine ⟨?_, ?_, ?_⟩
  · simp only [created_cons, created_append, a1, b1, c1]
    simp [created, created_of]
  · simp only [registered_cons, registered_append, a2, b2, c2]
    simp [registered, registered_of]
  · simp only [invoked_cons, invoked_append, a3, b3, c3]
    by_cases h0 : i = 0
    · subst h0
      by_cases hi : n = 0 <;> simp [invoked, invoked_of, hi]
    · have h1 : ¬ 0 = i := fun h => h0 h.symm
      by_cases hi : n = i <;> simp [invoked, invoked_of, hi, h0, h1]

theorem cb_tail_events (env : Env) (i k n : Nat) (hk : n + k = env.maximum) :
    created (tail_events env k n) = List.range' (n + 1) (stop_index env k n - n) ∧
    registered i (tail_events env k n) =
      (if n < i ∧ i ≤ stop_index env k n then [.transfer_file_done (some 0)] else []) ∧
    invoked i (tail_events env k n) =
      (if n ≤ i ∧ i ≤ stop_index env k n then [.transfer_file_done (some 0)] else []) ++
        (if i = 0 then [.caller_done] else []) := by
  refine tail_events_induction env
    (fun n N t => created t = List.range' (n + 1) (N - n) ∧
      registered i t = (if n < i ∧ i ≤ N then [.transfer_file_done (some 0)] else []) ∧
      invoked i t = (if n ≤ i ∧ i ≤ N then [.transfer_file_done (some 0)] else []) ++
        (if i = 0 then [.caller_done] else [])) ?_ ?_ k n hk
  · intro n h
    obtain ⟨h1, h2, h3⟩ := cb_dispatch_stop env i n h
    refine ⟨by simp [h1], ?_, ?_⟩
    · rw [h2, if_neg (by omega)]
    · rw [h3]
      split_ifs <;> first | rfl | (exfalso; omega)
  · intro n N t h hlt ⟨ih1, ih2, ih3⟩
    obtain ⟨h1, h2, h3⟩ := cb_dispatch_more env i n h
    obtain ⟨j, rfl⟩ : ∃ j, N = n + 1 + j := ⟨N - (n + 1), by omega⟩
    have e1 : n + 1 + j - (n + 1) = j := by omega
    have e2 : n + 1 + j - n = j + 1 := by omega
    rw [e1] at ih1
    refine ⟨?_, ?_, ?_⟩
    · rw [created_append, h1, ih1, e2, List.range'_succ]
      simp
    · rw [registered_append, h2, ih2]
      split_ifs <;> first | rfl | (exfalso; omega)
    · rw [invoked_append, h3, ih3]
      split_ifs <;> first | rfl | (exfalso; omega)

/-- The requests produced in a whole run, the callbacks registered on them and
the callback invocations. -/
theorem cb_run_events (env : Env) (i : Nat) :
    created (run_events env) = List.range (issued env + 1) ∧
    registered i (run_events env) = callback_of env i ∧
    invoked i (run_events env) = callback_of env i := by
  by_cases hm : env.maximum = 0
  · by_cases h0 : i = 0
    · subst h0
      simp [run_events, issued, callback_of, hm, start_events_zero, caller_done_events,
        report_events, created, registered, invoked, created_of, registered_of, invoked_of,
        List.range_succ]
    · have h1 : ¬ 0 = i := fun h => h0 h.symm
      simp [run_events, issued, callback_of, hm, start_events_zero, caller_done_events,
        report_events, created, registered, invoked, created_of, registered_of, invoked_of,
        List.range_succ, h0, h1]
  · cases h1 : env.alloc 1
    · have e1 : ¬ ENOMEM = 0 := by decide
      have e2 : ¬ ENOMEM = EIO := by decide
      have e3 : ¬ ENOMEM = ETIMEDOUT := by decide
      by_cases h0 : i = 0
      · subst h0
        simp [run_events, issued, callback_of, hm, h1, start_events_nomem, caller_done_events,
          report_events, created, registered, invoked, created_of, registered_of, invoked_of,
          List.range_succ, e1, e2, e3]
      · have h2 : ¬ 0 = i := fun h => h0 h.symm
        simp [run_events, issued, callback_of, hm, h1, start_events_nomem, caller_done_events,
          report_events, created, registered, invoked, created_of, registered_of, invoked_of,
          List.range_succ, e1, e2, e3, h0, h2]
    · obtain ⟨t1, t2, t3⟩ := cb_tail_events env i (env.maximum - 1) 1 (by omega)
      obtain ⟨b1, b2, b3⟩ := cb_issue_events i 0 1 0 1 0 (env.perform 0)
      have hb := stop_index_bounds env (env.maximum - 1) 1
      obtain ⟨j, hj⟩ : ∃ j, stop_index env (env.maximum - 1) 1 = j + 1 :=
        ⟨stop_index env (env.maximum - 1) 1 - 1, by omega⟩
      simp only [run_events, issued, callback_of, hm, h1, if_true, if_false, start_events]
      rw [hj] at t1 t2 t3 ⊢
      have e : j + 1 - 1 = j := by omega
      rw [e] at t1
      refine ⟨?_, ?_, ?_⟩
      · simp only [created_cons, created_append, b1, t1]
        rw [List.range_eq_range', List.range'_succ, List.range'_succ]
        simp [created, created_of]
      · simp only [registered_cons, registered_append, b2, t2]
        by_cases h0 : i = 0
        · subst h0
          simp [registered, registered_of]
        · have h2 : ¬ 0 = i := fun h => h0 h.symm
          by_cases h3 : i = 1
          · subst h3
            simp [registered, registered_of]
          · have h4 : ¬ 1 = i := fun h => h3 h.symm
            by_cases h5 : i ≤ j + 1
            · simp [registered, registered_of, h0, h2, h4, h5]
              omega
            · simp [registered, registered_of, h0, h2, h4, h5]
      · simp only [invoked_cons, invoked_append, b3, t3]
        by_cases h0 : i = 0
        · subst h0
          simp [invoked, invoked_of]
        · by_cases h5 : i ≤ j + 1
          · have h6 : 1 ≤ i := by omega
            simp [invoked, invoked_of, h0, h5, h6]
          · simp [invoked, invoked_of, h0, h5]

/-! ## The ledger along a run -/

theorem before_append (l : Ledger) (a b : List Event) :
    Before l (a ++ b) ↔ Before l a ∧ Before (a.foldl Ledger.step l) b := by
  induction a generalizing l with
  | nil => simp [Before]
  | cons e es ih => simp [Before, ih, and_assoc]

theorem before_spec (l : Ledger) (t : List Event) (h : Before l t) :
    ∀ p e, p ++ [e] <+: t → (p.foldl Ledger.step l).admits e := by
  induction t generalizing l with
  | nil =>
    intro p e hp
    have := List.eq_nil_of_prefix_nil hp
    simp at this
  | cons x xs ih =>
    intro p e hp
    obtain ⟨hx, hxs⟩ := h
    cases p with
    | nil =>
      have hh : x = e := by
        obtain ⟨r, hr⟩ := hp
        simp at hr
        exact hr.1.symm
      simpa [hh] using hx
    | cons y ys =>
      have hp2 : y = x ∧ ys ++ [e] <+: xs := by
        obtain ⟨r, hr⟩ := hp
        simp at hr
        exact ⟨hr.1, ⟨r, by simpa using hr.2⟩⟩
      obtain ⟨rfl, hp3⟩ := hp2
      simpa using ih (l.step y) hxs ys e hp3

theorem proper_prefix_extends (p t : List Event) (h : p <+: t) (hne : p ≠ t) :
    ∃ e, p ++ [e] <+: t := by
  obtain ⟨r, rfl⟩ := h
  cases r with
  | nil => simp at hne
  | cons e es => exact ⟨e, ⟨es, by simp⟩⟩

theorem seg_report_events (n : Nat) (ret : Int) :
    Before (settled_ledger n) (report_events ret) ∧
    (report_events ret).foldl Ledger.step (settled_ledger n) = settled_ledger n := by
  unfold report_events
  split_ifs <;>
    simp [Before, Ledger.admits, Ledger.step, Ledger.sequential, settled_ledger]

theorem seg_caller_done_events (n it : Nat) (ret : Int) :
    Before (settled_ledger n) (caller_done_events it ret) ∧
    (caller_done_events it ret).foldl Ledger.step (settled_ledger n) = settled_ledger n := by
  obtain ⟨h1, h2⟩ := seg_report_events n ret
  have h3 : List.foldl Ledger.step (settled_ledger n)
      [.enter .caller_done, .enter .transfer_file_recv, .leave .transfer_file_recv (.int ret),
        .talloc_free (some it)] = settled_ledger n := by
    simp [Ledger.step, settled_ledger]
  refine ⟨?_, ?_⟩
  · rw [caller_done_events, before_append, before_append, List.foldl_append, h3, h2]
    refine ⟨⟨?_, h1⟩, ?_⟩
    · simp [Before, Ledger.admits, Ledger.step, Ledger.sequential, settled_ledger]
    · simp [Before, Ledger.admits, Ledger.step, Ledger.sequential, settled_ledger]
  · rw [caller_done_events, List.foldl_append, List.foldl_append, h3, h2]
    simp [Ledger.step]

theorem seg_finish_events (env : Env) (n : Nat) :
    Before (settled_ledger n) (finish_events env n) ∧
    (finish_events env n).foldl Ledger.step (settled_ledger n) = settled_ledger n := by
  unfold finish_events
  split_ifs <;>
    simp [Before, Ledger.admits, Ledger.step, Ledger.sequential, Ledger.settled, settled_ledger]

theorem seg_consume_events (j : Nat) (ret : Int) :
    Before (pending_ledger j) (consume_events (j + 1) ret) ∧
    (consume_events (j + 1) ret).foldl Ledger.step (pending_ledger j) =
      settled_ledger (j + 1) := by
  simp [consume_events, Before, Ledger.admits, Ledger.step, Ledger.sequential, pending_ledger,
    settled_ledger]
  omega

theorem seg_issue_events (it n url k r : Nat) :
    Before (settled_ledger n) (issue_events it (n + 1) n url k r) ∧
    (issue_events it (n + 1) n url k r).foldl Ledger.step (settled_ledger n) =
      pending_ledger n := by
  unfold issue_events leaf_events
  split_ifs <;>
    simp [Before, Ledger.admits, Ledger.step, Ledger.sequential, Ledger.settled, pending_ledger,
      settled_ledger] <;> omega

theorem settled_ledger_sequential (n : Nat) : (settled_ledger n).sequential := by
  simp [Ledger.sequential, settled_ledger]

theorem pending_ledger_sequential (j : Nat) : (pending_ledger j).sequential := by
  simp [Ledger.sequential, pending_ledger]
  omega

theorem seg_dispatch_more (env : Env) (j : Nat) (h : continues env (j + 1) = true) :
    Before (pending_ledger j) (dispatch_events env (j + 1)) ∧
    (dispatch_events env (j + 1)).foldl Ledger.step (pending_ledger j) =
      pending_ledger (j + 1) := by
  obtain ⟨a1, a2⟩ := seg_consume_events j 0
  obtain ⟨b1, b2⟩ := seg_issue_events 0 (j + 1) 1 (j + 1) (env.perform (j + 1))
  have hp := pending_ledger_sequential (j + 1)
  rw [dispatch_events_of_continues env (j + 1) h]
  refine ⟨?_, ?_⟩
  · refine ⟨⟨pending_ledger_sequential j, by simp⟩, ?_⟩
    have e : (pending_ledger j).step (.callback (j + 1) (.transfer_file_done (some 0))) =
        pending_ledger j := rfl
    rw [e, before_append, before_append, a2, List.foldl_append, a2, b2]
    exact ⟨⟨a1, b1⟩, ⟨hp, by simp⟩, trivial⟩
  · rw [List.foldl_cons]
    have e : (pending_ledger j).step (.callback (j + 1) (.transfer_file_done (some 0))) =
        pending_ledger j := rfl
    rw [e, List.foldl_append, List.foldl_append, a2, b2]
    rfl

theorem seg_dispatch_stop (env : Env) (j : Nat) (h : continues env (j + 1) = false) :
    Before (pending_ledger j) (dispatch_events env (j + 1)) ∧
    (dispatch_events env (j + 1)).foldl Ledger.step (pending_ledger j) =
      settled_ledger (j + 1) := by
  obtain ⟨a1, a2⟩ := seg_consume_events j (leaf_status env (j + 1 - 1))
  obtain ⟨b1, b2⟩ := seg_finish_events env (j + 1)
  obtain ⟨c1, c2⟩ := seg_caller_done_events (j + 1) 0 (final_status env (j + 1))
  have hs := settled_ledger_sequential (j + 1)
  have e : (pending_ledger j).step (.callback (j + 1) (.transfer_file_done (some 0))) =
      pending_ledger j := rfl
  have e2 : (settled_ledger (j + 1)).step (.callback 0 .caller_done) =
      settled_ledger (j + 1) := rfl
  rw [dispatch_events_of_stop env (j + 1) h]
  refine ⟨?_, ?_⟩
  · refine ⟨⟨pending_ledger_sequential j, by simp⟩, ?_⟩
    rw [e, before_append, before_append, a2, List.foldl_append, a2, b2]
    refine ⟨⟨a1, b1⟩, ⟨hs, by simp⟩, ?_⟩
    rw [e2, before_append, c2]
    exact ⟨c1, ⟨hs, by simp⟩, trivial⟩
  · rw [List.foldl_cons, e, List.foldl_append, List.foldl_append, a2, b2, List.foldl_cons, e2,
      List.foldl_append, c2]
    rfl

theorem seg_tail_events (env : Env) (k n : Nat) (hk : n + k = env.maximum) :
    ∀ j, n = j + 1 → Before (pending_ledger j) (tail_events env k n) ∧
      (tail_events env k n).foldl Ledger.step (pending_ledger j) =
        settled_ledger (stop_index env k n) := by
  refine tail_events_induction env
    (fun n N t => ∀ j, n = j + 1 → Before (pending_ledger j) t ∧
      t.foldl Ledger.step (pending_ledger j) = settled_ledger N) ?_ ?_ k n hk
  · intro n h j hj
    subst hj
    exact seg_dispatch_stop env j h
  · intro n N t h _ ih j hj
    subst hj
    obtain ⟨h1, h2⟩ := seg_dispatch_more env j h
    obtain ⟨i1, i2⟩ := ih (j + 1) rfl
    rw [before_append, List.foldl_append, h2]
    exact ⟨⟨h1, i1⟩, i2⟩

/-- The ledger along a whole run: the condition `admits` holds in front of
every operation, and at the end every subrequest issued is settled. -/
theorem seg_run_events (env : Env) :
    Before (settled_ledger 0) (run_events env) ∧
    ledger (run_events env) = settled_ledger (issued env) := by
  have hinit : ledger (run_events env) =
      (run_events env).foldl Ledger.step (settled_ledger 0) := rfl
  rw [hinit]
  by_cases hm : env.maximum = 0
  · obtain ⟨c1, c2⟩ := seg_caller_done_events 0 0 0
    have e : List.foldl Ledger.step (settled_ledger 0) start_events_zero = settled_ledger 0 := by
      simp [start_events_zero, Ledger.step, settled_ledger]
    have e2 : List.foldl Ledger.step (settled_ledger 0)
        [.tevent_loop_wait, .callback 0 .caller_done] = settled_ledger 0 := rfl
    simp only [run_events, issued, hm, if_true, before_append, List.foldl_append, e, e2, c2]
    refine ⟨⟨⟨?_, ?_⟩, c1⟩, trivial⟩
    · simp [start_events_zero, Before, Ledger.admits, Ledger.step, Ledger.sequential,
        settled_ledger]
    · simp [Before, Ledger.admits, Ledger.step, Ledger.sequential, settled_ledger]
  · cases h1 : env.alloc 1
    · obtain ⟨c1, c2⟩ := seg_caller_done_events 0 0 ENOMEM
      have e : List.foldl Ledger.step (settled_ledger 0) start_events_nomem =
          settled_ledger 0 := by
        simp [start_events_nomem, Ledger.step, settled_ledger]
      have e2 : List.foldl Ledger.step (settled_ledger 0)
          [.tevent_loop_wait, .callback 0 .caller_done] = settled_ledger 0 := rfl
      simp only [run_events, issued, hm, h1, if_false, Bool.false_eq_true, before_append,
        List.foldl_append, e, e2, c2]
      refine ⟨⟨⟨?_, ?_⟩, c1⟩, trivial⟩
      · simp [start_events_nomem, Before, Ledger.admits, Ledger.step, Ledger.sequential,
          Ledger.settled, settled_ledger]
      · simp [Before, Ledger.admits, Ledger.step, Ledger.sequential, settled_ledger]
    · obtain ⟨t1, t2⟩ := seg_tail_events env (env.maximum - 1) 1 (by omega) 0 rfl
      obtain ⟨b1, b2⟩ := seg_issue_events 0 0 1 0 (env.perform 0)
      simp only [Nat.zero_add] at b1 b2
      have e0 : List.foldl Ledger.step (settled_ledger 0)
          [.enter .caller, .enter .transfer_file_send,
            .tevent_req_create .transfer_file_state (some 0)] = settled_ledger 0 := rfl
      have e1 : List.foldl Ledger.step (pending_ledger 0)
          [.leave .transfer_file_send (.ptr (some 0)),
            .tevent_req_set_callback (some 0) .caller_done, .leave .caller (.int 0)] =
          pending_ledger 0 := rfl
      have e2 : List.foldl Ledger.step (pending_ledger 0) [.tevent_loop_wait] =
          pending_ledger 0 := rfl
      have hp := pending_ledger_sequential 0
      have hs := settled_ledger_sequential 0
      simp only [run_events, issued, hm, h1, if_false, if_true, start_events, before_append,
        List.foldl_append, e0, b2, e1, e2, t2]
      refine ⟨⟨⟨⟨⟨?_, b1⟩, ?_⟩, ?_⟩, t1⟩, trivial⟩
      · simp [Before, Ledger.admits, Ledger.step, hs]
      · simp [Before, Ledger.admits, Ledger.step, hp]
      · simp [Before, Ledger.admits, hp]

/-! ## The claims -/

theorem continues_of_ok (env : Env) (i : Nat) (h2 : i < env.maximum)
    (hok : env.perform (i - 1) = CURLE_OK) (ha : env.alloc (i + 1) = true) :
    continues env i = true := by
  have h3 : i ≠ env.maximum := by omega
  simp [continues, leaf_status_of_ok env (i - 1) hok, h3, ha]

theorem run_facts_of_success (env : Env) (halloc : ∀ k, k ≤ env.maximum → env.alloc k = true)
    (hok : ∀ k, k < env.maximum → env.perform k = CURLE_OK) :
    issued env = env.maximum ∧ attempted env = env.maximum ∧ run_status env = 0 ∧
    (run_iter env).state = TEVENT_REQ_DONE := by
  by_cases hm : env.maximum = 0
  · simp [issued, attempted, run_status, run_iter, hm, finished]
  · have h1 : env.alloc 1 = true := halloc 1 (by omega)
    have hl : leaf_status env (env.maximum - 1) = 0 :=
      leaf_status_of_ok env _ (hok _ (by omega))
    have hs : stop_index env (env.maximum - 1) 1 = env.maximum :=
      stop_index_eq env env.maximum (env.maximum - 1) 1
        (fun i hi hlt => continues_of_ok env i hlt (hok _ (by omega)) (halloc _ (by omega)))
        (continues_false_of_max env rfl) (by omega) (by omega)
    simp [issued, attempted, run_status, run_iter, hm, h1, hs, failed_attempt, final_status,
      final_iter, hl, finished]

/-- C1: for every maximum `m` (the program's constant is `3`), when every
allocation succeeds and every external call returns `CURLE_OK`, the run of
`main` calls `curl_execute_send` exactly `m` times, the counters printed at
issue time are `0, 1, ..., m-1` in that order (and the external calls are the
calls `0, ..., m-1`), the iterator request ends in state `TEVENT_REQ_DONE`,
and `transfer_file_recv` returns `0` to `caller_done`, which reports
success. -/
theorem successful_run_issues_all (env : Env) (stack fuel : Nat) (hstack : 2 ≤ stack)
    (hfuel : env.maximum < fuel) (hev : env.ev_ok = true) (hmctx : env.mctx_ok = true)
    (halloc : ∀ k, k ≤ env.maximum → env.alloc k = true)
    (hok : ∀ k, k < env.maximum → env.perform k = CURLE_OK) :
    ∃ w r, main env stack fuel = .ok (0, w) ∧
      sends w.trace = env.maximum ∧
      counters w.trace = List.range env.maximum ∧
      performed w.trace = (List.range env.maximum).map (fun k => (k, CURLE_OK)) ∧
      w.heap 0 = some r ∧ r.state = TEVENT_REQ_DONE ∧
      reported w.trace = [0] ∧ verdicts w.trace = [.transfer_successful] := by
  obtain ⟨w, hmain, ht, hI, -⟩ :=
    main_run env stack fuel hstack hfuel hev hmctx (halloc 0 (Nat.zero_le _))
  obtain ⟨f1, f2, f3, f4⟩ := run_facts_of_success env halloc hok
  obtain ⟨o1, o2, o3, o4⟩ := obs_run_events env
  refine ⟨w, run_iter env, hmain, ?_, ?_, ?_, hI, f4, ?_, ?_⟩
  · rw [ht, o4, f2]
  · rw [ht, o3, f2]
  · rw [ht, o1, f1]
    apply List.map_congr_left
    intro k hk
    rw [hok k (by simpa using hk)]
  · rw [ht, o2, f3]
  · rw [ht, verdicts_run_events, f3]
    rfl

/-- Witness of C1 at the program's maximum `3`. -/
theorem successful_run_issues_all_witness :
    ∃ w r, main (env_of 3 []) 2 4 = .ok (0, w) ∧
      sends w.trace = (env_of 3 []).maximum ∧
      counters w.trace = List.range (env_of 3 []).maximum ∧
      performed w.trace = (List.range (env_of 3 []).maximum).map (fun k => (k, CURLE_OK)) ∧
      w.heap 0 = some r ∧ r.state = TEVENT_REQ_DONE ∧
      reported w.trace = [0] ∧ verdicts w.trace = [.transfer_successful] :=
  successful_run_issues_all (env_of 3 []) 2 4 (by decide) (by decide) rfl rfl
    (fun _ _ => rfl) (fun _ _ => rfl)

theorem run_facts_of_failure (env : Env) (K E : Nat) (hK1 : 1 ≤ K) (hKm : K ≤ env.maximum)
    (hE0 : E ≠ 0) (hE : E < 2 ^ 31)
    (hok : ∀ i, i + 1 < K → env.perform i = CURLE_OK) (hfail : env.perform (K - 1) = E)
    (halloc : ∀ i, i ≤ K → env.alloc i = true) :
    issued env = K ∧ attempted env = K ∧ run_status env = E ∧
    (run_iter env).state = TEVENT_REQ_USER_ERROR ∧ (run_iter env).error = E := by
  have hm : env.maximum ≠ 0 := by omega
  have h1 : env.alloc 1 = true := halloc 1 hK1
  have hl : leaf_status env (K - 1) = E := leaf_status_of_failure env _ E hfail hE0 hE
  have hl0 : ¬ (E : Int) = 0 := by exact_mod_cast hE0
  have hstop : continues env K = false := by
    simp [continues, hl, hl0]
  have hs : stop_index env (env.maximum - 1) 1 = K :=
    stop_index_eq env K (env.maximum - 1) 1
      (fun i hi hlt => continues_of_ok env i (by omega)
        (hok _ (by omega)) (halloc _ (by omega)))
      hstop hK1 (by omega)
  have hu : uint64_of_int (E : Int) = E := by
    unfold uint64_of_int
    omega
  simp [issued, attempted, run_status, run_iter, hm, h1, hs, failed_attempt, final_status,
    final_iter, hl, hl0, failed, hu]

/-- C2: for every `k` with `1 ≤ k ≤ maximum` and every non-zero failure code
`E` (a `CURLcode` enumerator, below `2^31`), when the first `k-1` external calls
succeed and the `k`-th returns `E` (allocations succeeding), the run of `main`
calls `curl_execute_send` exactly `k` times and makes exactly the external
calls `0, ..., k-1`, the iterator request ends in state
`TEVENT_REQ_USER_ERROR` with error code `E`, and `transfer_file_recv` returns
`E` to `caller_done`, which reports a failure. -/
theorem failing_run_stops_at_failure (env : Env) (stack fuel k E : Nat) (hstack : 2 ≤ stack)
    (hfuel : env.maximum < fuel) (hev : env.ev_ok = true) (hmctx : env.mctx_ok = true)
    (hk1 : 1 ≤ k) (hkm : k ≤ env.maximum) (hE0 : E ≠ CURLE_OK) (hE : E < 2 ^ 31)
    (hok : ∀ i, i + 1 < k → env.perform i = CURLE_OK) (hfail : env.perform (k - 1) = E)
    (halloc : ∀ i, i ≤ k → env.alloc i = true) :
    ∃ w r, main env stack fuel = .ok (0, w) ∧
      sends w.trace = k ∧
      counters w.trace = List.range k ∧
      performed w.trace = (List.range k).map (fun i => (i, env.perform i)) ∧
      w.heap 0 = some r ∧ r.state = TEVENT_REQ_USER_ERROR ∧ r.error = E ∧
      reported w.trace = [(E : Int)] ∧ verdicts w.trace = [.transfer_failure] := by
  obtain ⟨w, hmain, ht, hI, -⟩ :=
    main_run env stack fuel hstack hfuel hev hmctx (halloc 0 (Nat.zero_le _))
  obtain ⟨f1, f2, f3, f4, f5⟩ := run_facts_of_failure env k E hk1 hkm hE0 hE hok hfail halloc
  obtain ⟨o1, o2, o3, o4⟩ := obs_run_events env
  have hl0 : ¬ (E : Int) = 0 := by
    have : E ≠ 0 := hE0
    exact_mod_cast this
  refine ⟨w, run_iter env, hmain, ?_, ?_, ?_, hI, f4, f5, ?_, ?_⟩
  · rw [ht, o4, f2]
  · rw [ht, o3, f2]
  · rw [ht, o1, f1]
  · rw [ht, o2, f3]
  · rw [ht, verdicts_run_events, f3]
    simp [verdict, hl0]

/-- Witness of C2: maximum `3`, the second external call fails with code `7`
(`CURLE_COULDNT_CONNECT`). -/
theorem failing_run_stops_at_failure_witness :
    ∃ w r, main (env_of 3 [0, 7]) 2 4 = .ok (0, w) ∧
      sends w.trace = 2 ∧
      counters w.trace = List.range 2 ∧
      performed w.trace = (List.range 2).map (fun i => (i, (env_of 3 [0, 7]).perform i)) ∧
      w.heap 0 = some r ∧ r.state = TEVENT_REQ_USER_ERROR ∧ r.error = 7 ∧
      reported w.trace = [((7 : Nat) : Int)] ∧ verdicts w.trace = [.transfer_failure] :=
  failing_run_stops_at_failure (env_of 3 [0, 7]) 2 4 2 7 (by decide) (by decide) rfl rfl
    (by decide) (by decide) (by decide) (by decide)
    (fun i hi => by
      have h0 : i = 0 := by omega
      subst h0
      rfl)
    rfl (fun _ _ => rfl)

theorem callback_of_created (env : Env) (i : Nat) (h : i ∈ List.range (issued env + 1)) :
    ∃ cb, callback_of env i = [cb] := by
  have hi : i ≤ issued env := by
    have := List.mem_range.mp h
    omega
  by_cases h0 : i = 0
  · exact ⟨.caller_done, by simp [callback_of, h0]⟩
  · exact ⟨.transfer_file_done (some 0), by simp [callback_of, h0, hi]⟩

/-- C3: for every sequence of external results (and of subrequest
allocations), on every request produced during the run of `main` (the iterator
request and each leaf subrequest) exactly one callback is registered and that
callback is invoked exactly once in the whole run: never zero times, never
twice. -/
theorem callback_invoked_exactly_once (env : Env) (stack fuel : Nat) (hstack : 2 ≤ stack)
    (hfuel : env.maximum < fuel) (hev : env.ev_ok = true) (hmctx : env.mctx_ok = true)
    (h0 : env.alloc 0 = true) :
    ∃ w, main env stack fuel = .ok (0, w) ∧
      ∀ i, i ∈ created w.trace →
        ∃ cb, registered i w.trace = [cb] ∧ invoked i w.trace = [cb] := by
  obtain ⟨w, hmain, ht, -, -⟩ := main_run env stack fuel hstack hfuel hev hmctx h0
  refine ⟨w, hmain, ?_⟩
  intro i hi
  obtain ⟨c1, c2, c3⟩ := cb_run_events env i
  rw [ht, c1] at hi
  obtain ⟨cb, hcb⟩ := callback_of_created env i hi
  exact ⟨cb, by rw [ht, c2, hcb], by rw [ht, c3, hcb]⟩

/-- Witness of C3 at a run whose second external call fails: the first
subrequest is finished after `tevent_req_post`, the second before it, and the
iterator is finished from the continuation without being posted. -/
theorem callback_invoked_exactly_once_witness :
    ∃ w, main (env_of 3 [0, 7]) 2 4 = .ok (0, w) ∧
      ∀ i, i ∈ created w.trace →
        ∃ cb, registered i w.trace = [cb] ∧ invoked i w.trace = [cb] :=
  callback_invoked_exactly_once (env_of 3 [0, 7]) 2 4 (by decide) (by decide) rfl rfl rfl

theorem recv_status_eq_classified (r : tevent_req) :
    recv_status r = classified r.state r.error := by
  cases hs : r.state
  case TEVENT_REQ_USER_ERROR =>
    by_cases h0 : int_of_uint64 r.error = 0 <;>
    simp [recv_status, TEVENT_REQ_RETURN_ON_ERROR, tevent_req_is_error, hs, classified, h0]
  all_goals
    simp [recv_status, TEVENT_REQ_RETURN_ON_ERROR, tevent_req_is_error, hs, classified]

theorem classified_eq_zero_iff (st : tevent_req_state) (code : Nat) :
    classified st code = 0 ↔ st = TEVENT_REQ_DONE := by
  cases st <;> simp [classified, EIO, ETIMEDOUT]
  split <;> simp_all

theorem transfer_file_recv_ok (i : Nat) (w : World) (I : tevent_req) (st : transfer_file_state)
    (hI : w.heap i = some I) (hf : I.freed = false) (hd : I.data = .transfer st) :
    transfer_file_recv (some i) w = .ok ((st.res, recv_status I),
      { w with trace := w.trace ++ [.enter .transfer_file_recv,
          .leave .transfer_file_recv (.int (recv_status I))] }) := by
  cases hr : TEVENT_REQ_RETURN_ON_ERROR I <;>
  simp [transfer_file_recv, tevent_req_data_transfer, deref, emit, hI, hf, hd, hr, bind,
    Except.bind, pure, Except.pure, recv_status]

/-- C4: for every live request, whatever its state and its 64-bit error code,
`curl_execute_recv` and `transfer_file_recv` return the classified status: `0`
for `TEVENT_REQ_DONE`; for `TEVENT_REQ_USER_ERROR` the code converted to `int`,
or `EIO` when the converted value is `0`; `ETIMEDOUT` for
`TEVENT_REQ_TIMED_OUT`; `EIO` for every other state.  The status is `0` exactly
when the state is `TEVENT_REQ_DONE`. -/
theorem recv_returns_classified (w : World) (i : Nat) (r : tevent_req)
    (hr : w.heap i = some r) (hf : r.freed = false) :
    (∀ c, r.data = .curl c → ∃ w',
      curl_execute_recv (some i) w = .ok ((c.res, classified r.state r.error), w')) ∧
    (∀ st, r.data = .transfer st → ∃ w',
      transfer_file_recv (some i) w = .ok ((st.res, classified r.state r.error), w')) ∧
    (classified r.state r.error = 0 ↔ r.state = TEVENT_REQ_DONE) := by
  refine ⟨?_, ?_, classified_eq_zero_iff _ _⟩
  · intro c hc
    exact ⟨_, by rw [curl_execute_recv_ok i w r c hr hf hc, recv_status_eq_classified]⟩
  · intro st hst
    exact ⟨_, by rw [transfer_file_recv_ok i w r st hr hf hst, recv_status_eq_classified]⟩

/-- Witness of C4 at a request whose error code loses its high bits in the
conversion: the status is `EIO`, not `0`. -/
theorem recv_returns_classified_witness :
    ((∀ c, truncated_req.data = .curl c → ∃ w',
      curl_execute_recv (some 0) (world_with truncated_req) =
        .ok ((c.res, classified truncated_req.state truncated_req.error), w')) ∧
    (∀ st, truncated_req.data = .transfer st → ∃ w',
      transfer_file_recv (some 0) (world_with truncated_req) =
        .ok ((st.res, classified truncated_req.state truncated_req.error), w')) ∧
    (classified truncated_req.state truncated_req.error = 0 ↔
      truncated_req.state = TEVENT_REQ_DONE)) ∧
    classified truncated_req.state truncated_req.error = EIO :=
  ⟨recv_returns_classified (world_with truncated_req) 0 truncated_req rfl rfl, by decide⟩

/-- C5, the code at the failing input: when the first `tevent_req_create`
yields `NULL`, `transfer_file_send` calls `tevent_req_error` on the absent
request, which dereferences `NULL`; the fault propagates through `caller` and
`main`, so neither returns a status. -/
theorem create_failure_null_deref :
    fault_of (transfer_file_send env_no_memory (call_fn env_no_memory 2) 0 1 World.init) =
      some (.null_deref,
        [.enter .transfer_file_send, .tevent_req_create .transfer_file_state none,
          .printf .create_failed, .tevent_req_error none 12]) ∧
    fault_of (caller env_no_memory (call_fn env_no_memory 2) 0 1 World.init) =
      some (.null_deref,
        [.enter .caller, .enter .transfer_file_send,
          .tevent_req_create .transfer_file_state none,
          .printf .create_failed, .tevent_req_error none 12]) ∧
    fault_of (main env_no_memory 2 4) =
      some (.null_deref,
        [.enter .caller, .enter .transfer_file_send,
          .tevent_req_create .transfer_file_state none,
          .printf .create_failed, .tevent_req_error none 12]) := by
  refine ⟨?_, ?_, ?_⟩ <;> rfl

/-- C6, counterexample: with maximum `3` and a first external call that fails
with code `7`, `caller_done` observes the failure `7` while `main` returns the
exit status `0`; so the exit status is not the status the top-level callback
observed. -/
theorem exit_status_not_outcome :
    ¬ (∀ status w v, main (env_of 3 [7]) 2 4 = .ok (status, w) →
        reported w.trace = [v] → status = v) := by
  intro h
  obtain ⟨w, hmain, ht, -, -⟩ :=
    main_run (env_of 3 [7]) 2 4 (by decide) (by decide) rfl rfl rfl
  obtain ⟨-, -, f3, -, -⟩ := run_facts_of_failure (env_of 3 [7]) 1 7 (by decide) (by decide)
    (by decide) (by decide) (fun i hi => absurd hi (by omega)) rfl (fun _ _ => rfl)
  obtain ⟨-, o2, -, -⟩ := obs_run_events (env_of 3 [7])
  have hv := h 0 w 7 hmain (by rw [ht, o2, f3]; rfl)
  exact absurd hv (by decide)

/-- C6, amended: for every sequence of external results, once the event
context, the main context and the iterator request are allocated, `main`
returns the exit status `0`, whatever the single status `v` that `caller_done`
observed: `caller_done` only prints the verdict for `v`. -/
theorem exit_status_zero_once_started (env : Env) (stack fuel : Nat) (hstack : 2 ≤ stack)
    (hfuel : env.maximum < fuel) (hev : env.ev_ok = true) (hmctx : env.mctx_ok = true)
    (h0 : env.alloc 0 = true) :
    ∃ w v, main env stack fuel = .ok (0, w) ∧ reported w.trace = [v] ∧
      verdicts w.trace = [verdict v] := by
  obtain ⟨w, hmain, ht, -, -⟩ := main_run env stack fuel hstack hfuel hev hmctx h0
  obtain ⟨-, o2, -, -⟩ := obs_run_events env
  refine ⟨w, run_status env, hmain, ?_, ?_⟩
  · rw [ht, o2]
  · rw [ht, verdicts_run_events]

/-- Witness of the amended C6 at a run whose first external call fails. -/
theorem exit_status_zero_once_started_witness :
    ∃ w v, main (env_of 3 [7]) 2 4 = .ok (0, w) ∧ reported w.trace = [v] ∧
      verdicts w.trace = [verdict v] :=
  exit_status_zero_once_started (env_of 3 [7]) 2 4 (by decide) (by decide) rfl rfl rfl

theorem transfer_file_done_failed_general (env : Env) (d s it : Nat) (w : World)
    (S I : tevent_req) (c : curl_execute_state) (st : transfer_file_state)
    (hS : w.heap s = some S) (hSf : S.freed = false)
    (hSfn : S.fn = some (.transfer_file_done (some it))) (hSd : S.data = .curl c)
    (hI : w.heap it = some I) (hIf : I.freed = false) (hIfn : I.fn = some .caller_done)
    (hId : I.data = .transfer st) (hIp : I.parent ≠ some s) (hne : s ≠ it)
    (hret : recv_status S ≠ 0) :
    ∃ q, transfer_file_done env (call_fn env (d + 1)) (some s) w = .ok
      { w with
        heap := release it (Function.update
          (release s (Function.update w.heap it (some (seen I st c.res))))
          it (some (failed (seen I st c.res) (uint64_of_int (recv_status S)))))
        queue := q
        trace := w.trace ++ consume_events s (recv_status S) ++
          [.tevent_req_error (some it) (uint64_of_int (recv_status S)),
            .callback it .caller_done] ++
          caller_done_events it (recv_status S) ++ [.leave .transfer_file_done .void] } := by
  have hr := recv_status_range S
  have hu := uint64_of_int_ne_zero _ hret hr.1 hr.2
  have hne2 : it ≠ s := fun h => hne h.symm
  simp [transfer_file_done, tevent_req_callback_data, tevent_req_data_transfer, deref, emit,
    hS, hSf, hSfn, hSd, hI, hIf, hIfn, hId, bind, Except.bind, pure, Except.pure,
    curl_execute_recv_ok s _ S c, transfer_state_assign, store, Function.update_apply, hne,
    hne2, talloc_free, release, released_with, hIp, hret, tevent_req_error, hu,
    tevent_req_finish, call_fn, seen, failed]
  rw [caller_done_ok it _ (failed (seen I st c.res) (uint64_of_int (recv_status S)))
    { st with res := c.res } (by simp [seen, failed, hIfn, hIf]) (by simp [seen, failed, hIf])
    (by simp [seen, failed])]
  simp [consume_events, seen, failed, hIfn, hIf]
  rw [recv_status_user_error _ _ hret hr.1 hr.2 rfl rfl]

theorem recv_status_timed_out (r : tevent_req) (hs : r.state = TEVENT_REQ_TIMED_OUT) :
    recv_status r = ETIMEDOUT := by
  simp [recv_status, TEVENT_REQ_RETURN_ON_ERROR, tevent_req_is_error, hs]

/-- C7: when the continuation `transfer_file_done` runs on a subrequest `s` in
state `TEVENT_REQ_TIMED_OUT` (the iterator `it` being in progress with
`caller_done` registered), `curl_execute_recv` returns `ETIMEDOUT`, the
subrequest is released, no further operation is issued (no call of
`curl_execute_send`, no external call, no new request), the iterator ends as
`TEVENT_REQ_USER_ERROR` with code `ETIMEDOUT`, and `transfer_file_recv` returns
`ETIMEDOUT` to `caller_done`, which reports the failure. -/
theorem timed_out_subrequest_propagates (env : Env) (d s it : Nat) (w : World)
    (S I : tevent_req) (c : curl_execute_state) (st : transfer_file_state)
    (hS : w.heap s = some S) (hSf : S.freed = false)
    (hSfn : S.fn = some (.transfer_file_done (some it))) (hSd : S.data = .curl c)
    (hSs : S.state = TEVENT_REQ_TIMED_OUT)
    (hI : w.heap it = some I) (hIf : I.freed = false) (hIfn : I.fn = some .caller_done)
    (hId : I.data = .transfer st) (hIp : I.parent ≠ some s) (hne : s ≠ it) :
    ∃ w' es S' I', transfer_file_done env (call_fn env (d + 1)) (some s) w = .ok w' ∧
      w'.trace = w.trace ++ es ∧
      Event.leave .curl_execute_recv (.int ETIMEDOUT) ∈ es ∧
      w'.heap s = some S' ∧ S'.freed = true ∧
      Event.enter .curl_execute_send ∉ es ∧ performed es = [] ∧
      w'.ncurl = w.ncurl ∧ w'.next = w.next ∧
      w'.heap it = some I' ∧ I'.state = TEVENT_REQ_USER_ERROR ∧
      I'.error = uint64_of_int ETIMEDOUT ∧ I'.freed = true ∧
      reported es = [ETIMEDOUT] ∧
      es.count (.callback it .caller_done) = 1 ∧
      Event.printf .request_etimedout ∈ es := by
  have hst := recv_status_timed_out S hSs
  have he : ¬ ETIMEDOUT = 0 := by decide
  have he2 : ¬ ETIMEDOUT = EIO := by decide
  have hne2 : it ≠ s := fun h => hne h.symm
  obtain ⟨q, hq⟩ := transfer_file_done_failed_general env d s it w S I c st hS hSf hSfn hSd hI
    hIf hIfn hId hIp hne (by rw [hst]; exact he)
  rw [hst] at hq
  refine ⟨_, consume_events s ETIMEDOUT ++
      [.tevent_req_error (some it) (uint64_of_int ETIMEDOUT), .callback it .caller_done] ++
      caller_done_events it ETIMEDOUT ++ [.leave .transfer_file_done .void],
    { S with freed := true },
    { failed (seen I st c.res) (uint64_of_int ETIMEDOUT) with freed := true }, hq, ?_, ?_, ?_, rfl,
    ?_, ?_, rfl, rfl, ?_, rfl, rfl, rfl, ?_, ?_, ?_⟩
  · simp only [List.append_assoc]
  · simp [consume_events]
  · simp [release, released_with, Function.update_apply, hne, hS]
  · simp [consume_events, caller_done_events, report_events, he, he2]
  · simp [consume_events, caller_done_events, report_events, he, he2, performed, performed_of]
  · simp [release, released_with, Function.update_apply]
  · simp [consume_events, caller_done_events, report_events, he, he2, reported, reported_of]
  · simp [consume_events, caller_done_events, report_events, he, he2, List.count_cons]
  · simp [consume_events, caller_done_events, report_events, he, he2]

/-- Witness of C7 at `world_timed_out`. -/
theorem timed_out_subrequest_propagates_witness :
    ∃ w' es S' I',
      transfer_file_done (env_of 3 []) (call_fn (env_of 3 []) (0 + 1)) (some 1) world_timed_out =
        .ok w' ∧
      w'.trace = world_timed_out.trace ++ es ∧
      Event.leave .curl_execute_recv (.int ETIMEDOUT) ∈ es ∧
      w'.heap 1 = some S' ∧ S'.freed = true ∧
      Event.enter .curl_execute_send ∉ es ∧ performed es = [] ∧
      w'.ncurl = world_timed_out.ncurl ∧ w'.next = world_timed_out.next ∧
      w'.heap 0 = some I' ∧ I'.state = TEVENT_REQ_USER_ERROR ∧
      I'.error = uint64_of_int ETIMEDOUT ∧ I'.freed = true ∧
      reported es = [ETIMEDOUT] ∧
      es.count (.callback 0 .caller_done) = 1 ∧
      Event.printf .request_etimedout ∈ es :=
  timed_out_subrequest_propagates (env_of 3 []) 0 1 0 world_timed_out timed_out_req
    (iter_req 1 0) { res := 0 } { ev := 0, num_iter := 1, res := 0, url := 1 }
    rfl rfl rfl rfl rfl rfl rfl rfl rfl (by decide) (by decide)

theorem leaf_req_state (mem_ctx : Ptr) (r : Nat) (hr : r < 2 ^ 32) :
    (leaf_req mem_ctx r).state =
      (if r = CURLE_OK then TEVENT_REQ_DONE else TEVENT_REQ_USER_ERROR) ∧
    (leaf_req mem_ctx r).error = r := by
  have h64 : r % 2 ^ 64 = r := Nat.mod_eq_of_lt (by omega)
  by_cases h0 : r = CURLE_OK
  · simp [leaf_req, h0, CURLE_OK]
  · have h1 : ¬ r = 0 := h0
    have h2 : ¬ r % 2 ^ 64 = 0 := by omega
    simp only [leaf_req, uint64_of_CURLcode, if_neg h0, if_neg h2, h64, if_neg h1, and_self]

/-- C8: when request creation succeeds, for every result `r` of the external
call (a `CURLcode`, below `2^32`), `curl_execute_send` returns a request that
is not in progress: it is `TEVENT_REQ_DONE` exactly when `r` is `CURLE_OK` and
otherwise `TEVENT_REQ_USER_ERROR` with code `r`; its payload holds `r`, which
`curl_execute_recv` writes to its output; and `tevent_req_post` has been called
on it exactly once, its trigger being scheduled once. -/
theorem curl_execute_send_terminal (env : Env) (call : Call) (mem_ctx : Ptr) (ev url : Nat)
    (w : World)
    (ha : env.alloc w.nalloc = true) (hr : env.perform w.ncurl < 2 ^ 32) :
    ∃ w' q es, curl_execute_send env call mem_ctx ev url w = .ok (some w.next, w') ∧
      w'.heap w.next = some q ∧ q.freed = false ∧
      q.state ≠ TEVENT_REQ_IN_PROGRESS ∧
      (q.state = TEVENT_REQ_DONE ↔ env.perform w.ncurl = CURLE_OK) ∧
      (env.perform w.ncurl ≠ CURLE_OK →
        q.state = TEVENT_REQ_USER_ERROR ∧ q.error = env.perform w.ncurl) ∧
      q.data = .curl { res := env.perform w.ncurl } ∧
      (∃ v w'', curl_execute_recv (some w.next) w' = .ok ((env.perform w.ncurl, v), w'')) ∧
      w'.trace = w.trace ++ es ∧
      es.count (.tevent_req_post (some w.next)) = 1 ∧
      w'.queue.count w.next = 1 := by
  obtain ⟨hs, he⟩ := leaf_req_state mem_ctx (env.perform w.ncurl) hr
  refine ⟨_, leaf_req mem_ctx (env.perform w.ncurl), _,
    curl_execute_send_ok env call mem_ctx ev url w ha, by simp, rfl, ?_, ?_, ?_, rfl, ?_, rfl,
    ?_, ?_⟩
  · rw [hs]; split <;> simp
  · rw [hs]; split <;> simp_all
  · intro h0
    rw [hs, he]; simp [h0]
  · exact ⟨_, _, curl_execute_recv_ok _ _ (leaf_req mem_ctx (env.perform w.ncurl))
      { res := env.perform w.ncurl } (by simp) rfl rfl⟩
  · by_cases h0 : env.perform w.ncurl = CURLE_OK <;> simp [leaf_events, h0, List.count_cons]
  · simp [List.count_append, List.count_eq_zero_of_not_mem]

/-- Witness of C8 at the program start, with the external result `7`
(`CURLE_COULDNT_CONNECT`). -/
theorem curl_execute_send_terminal_witness :
    ∃ w' q es, curl_execute_send (env_of 3 [7]) (call_fn (env_of 3 [7]) 2) none 0 1 World.init =
        .ok (some World.init.next, w') ∧
      w'.heap World.init.next = some q ∧ q.freed = false ∧
      q.state ≠ TEVENT_REQ_IN_PROGRESS ∧
      (q.state = TEVENT_REQ_DONE ↔ (env_of 3 [7]).perform World.init.ncurl = CURLE_OK) ∧
      ((env_of 3 [7]).perform World.init.ncurl ≠ CURLE_OK →
        q.state = TEVENT_REQ_USER_ERROR ∧ q.error = (env_of 3 [7]).perform World.init.ncurl) ∧
      q.data = .curl { res := (env_of 3 [7]).perform World.init.ncurl } ∧
      (∃ v w'', curl_execute_recv (some World.init.next) w' =
        .ok (((env_of 3 [7]).perform World.init.ncurl, v), w'')) ∧
      w'.trace = World.init.trace ++ es ∧
      es.count (.tevent_req_post (some World.init.next)) = 1 ∧
      w'.queue.count World.init.next = 1 :=
  curl_execute_send_terminal (env_of 3 [7]) (call_fn (env_of 3 [7]) 2) none 0 1 World.init rfl
    (by decide)

/-- C9: with maximum `0`, `transfer_file_send` completes the iterator
synchronously (the request it returns is in state `TEVENT_REQ_DONE`, has been
posted once and its trigger is scheduled), the whole run of `main` issues no
external call, and the top-level callback later observes success. -/
theorem zero_maximum_completes_synchronously (env : Env) (call : Call) (stack fuel : Nat)
    (hm : env.maximum = 0) (h0 : env.alloc 0 = true) (hev : env.ev_ok = true)
    (hmctx : env.mctx_ok = true) (hstack : 2 ≤ stack) (hfuel : 1 ≤ fuel) :
    (∃ w r, transfer_file_send env call 0 1 World.init = .ok (some 0, w) ∧
      w.heap 0 = some r ∧ r.state = TEVENT_REQ_DONE ∧ r.freed = false ∧
      w.trace.count (.tevent_req_post (some 0)) = 1 ∧ w.queue = [0] ∧
      performed w.trace = []) ∧
    (∃ w, main env stack fuel = .ok (0, w) ∧ performed w.trace = [] ∧
      reported w.trace = [0] ∧
      w.trace.count (.callback 0 .caller_done) = 1 ∧
      w.trace.count (.printf .transfer_successful) = 1 ∧
      w.trace.count (.printf .transfer_failure) = 0) := by
  have e0 : ¬ ((0 : Int) = EAGAIN) := by decide
  constructor
  · have h : match transfer_file_send env call 0 1 World.init with
        | .ok (p, w) => p = some 0 ∧ ∃ r, w.heap 0 = some r ∧ r.state = TEVENT_REQ_DONE ∧
            r.freed = false ∧ w.trace.count (.tevent_req_post (some 0)) = 1 ∧ w.queue = [0] ∧
            performed w.trace = []
        | .error _ => False := by
      simp [transfer_file_send, World.init, tevent_req_create, h0, emit, store,
        PayloadType.zero, transfer_state_assign, deref, bind, Except.bind, pure, Except.pure,
        fun w => transfer_file_next_finished env call 0 w fresh_iter
          { ev := 0, num_iter := 0, res := 0, url := 1 }, fresh_iter, hm, e0,
        tevent_req_done, tevent_req_finish, tevent_req_post, performed, performed_of,
        List.count_cons]
    cases hc : transfer_file_send env call 0 1 World.init with
    | error e => rw [hc] at h; exact h.elim
    | ok v =>
      obtain ⟨p, w⟩ := v
      rw [hc] at h
      obtain ⟨rfl, r, hr⟩ := h
      exact ⟨w, r, rfl, hr⟩
  · obtain ⟨w, hmain, ht, -, -⟩ := main_run env stack fuel hstack (by omega) hev hmctx h0
    refine ⟨w, hmain, ?_, ?_, ?_, ?_, ?_⟩ <;>
    · rw [ht]
      simp [run_events, hm, start_events_zero, caller_done_events, report_events, performed,
        reported, performed_of, reported_of, List.count_cons]

/-- Witness of C9 at the environment with maximum `0`. -/
theorem zero_maximum_completes_synchronously_witness :
    (∃ w r, transfer_file_send (env_of 0 []) (call_fn (env_of 0 []) 2) 0 1 World.init =
        .ok (some 0, w) ∧
      w.heap 0 = some r ∧ r.state = TEVENT_REQ_DONE ∧ r.freed = false ∧
      w.trace.count (.tevent_req_post (some 0)) = 1 ∧ w.queue = [0] ∧
      performed w.trace = []) ∧
    (∃ w, main (env_of 0 []) 2 1 = .ok (0, w) ∧ performed w.trace = [] ∧
      reported w.trace = [0] ∧
      w.trace.count (.callback 0 .caller_done) = 1 ∧
      w.trace.count (.printf .transfer_successful) = 1 ∧
      w.trace.count (.printf .transfer_failure) = 0) :=
  zero_maximum_completes_synchronously (env_of 0 []) (call_fn (env_of 0 []) 2) 2 1 rfl rfl rfl
    rfl (by decide) (by decide)

/-- C10: for every sequence of external results (and of subrequest
allocations), at every point of the run of `main` (after every initial part
`p` of the trace) at most one leaf subrequest is outstanding (created and not
yet released) and the subrequests are created, consumed by `curl_execute_recv`
and released in turn; whenever `curl_execute_send` is called, every subrequest
created before has been consumed and released; and the counters printed at
the calls are `0, 1, 2, ...` in increasing order, one per call. -/
theorem leaf_operations_one_at_a_time (env : Env) (stack fuel : Nat) (hstack : 2 ≤ stack)
    (hfuel : env.maximum < fuel) (hev : env.ev_ok = true) (hmctx : env.mctx_ok = true)
    (h0 : env.alloc 0 = true) :
    ∃ w, main env stack fuel = .ok (0, w) ∧
      (∀ p, p <+: w.trace → (ledger p).sequential) ∧
      (∀ p, p ++ [.enter .curl_execute_send] <+: w.trace → (ledger p).settled) ∧
      counters w.trace = List.range (sends w.trace) := by
  obtain ⟨w, hmain, ht, -, -⟩ := main_run env stack fuel hstack hfuel hev hmctx h0
  obtain ⟨hB, hL⟩ := seg_run_events env
  obtain ⟨-, -, o3, o4⟩ := obs_run_events env
  refine ⟨w, hmain, ?_, ?_, ?_⟩
  · intro p hp
    rw [ht] at hp
    by_cases hpt : p = run_events env
    · rw [hpt, hL]
      exact settled_ledger_sequential _
    · obtain ⟨e, he⟩ := proper_prefix_extends p _ hp hpt
      exact (before_spec _ _ hB p e he).1
  · intro p hp
    rw [ht] at hp
    exact (before_spec _ _ hB p _ hp).2 rfl
  · rw [ht, o3, o4]

/-- Witness of C10 at the program's maximum `3` with a failing third call. -/
theorem leaf_operations_one_at_a_time_witness :
    ∃ w, main (env_of 3 [0, 0, 7]) 2 4 = .ok (0, w) ∧
      (∀ p, p <+: w.trace → (ledger p).sequential) ∧
      (∀ p, p ++ [.enter .curl_execute_send] <+: w.trace → (ledger p).settled) ∧
      counters w.trace = List.range (sends w.trace) :=
  leaf_operations_one_at_a_time (env_of 3 [0, 0, 7]) 2 4 (by decide) (by decide) rfl rfl rfl

/-! ## The continuation from any state of the event context -/

theorem transfer_file_done_finished_general (env : Env) (d s it : Nat) (w : World)
    (S I : tevent_req) (c : curl_execute_state) (st : transfer_file_state)
    (hS : w.heap s = some S) (hSf : S.freed = false)
    (hSfn : S.fn = some (.transfer_file_done (some it))) (hSd : S.data = .curl c)
    (hI : w.heap it = some I) (hIf : I.freed = false) (hIfn : I.fn = some .caller_done)
    (hId : I.data = .transfer st) (hIp : I.parent ≠ some s) (hne : s ≠ it)
    (hret : recv_status S = 0) (hmax : st.num_iter = env.maximum) :
    ∃ q, transfer_file_done env (call_fn env (d + 1)) (some s) w = .ok
      { w with
        heap := release it (Function.update
          (release s (Function.update w.heap it (some (seen I st c.res))))
          it (some (finished (seen I st c.res))))
        queue := q
        trace := w.trace ++ consume_events s 0 ++
          [.enter .transfer_file_next, .leave .transfer_file_next (.int 0),
            .tevent_req_done (some it), .callback it .caller_done] ++
          caller_done_events it 0 ++ [.leave .transfer_file_done .void] } := by
  have hne2 : it ≠ s := fun h => hne h.symm
  simp [transfer_file_done, tevent_req_callback_data, tevent_req_data_transfer, deref, emit,
    hS, hSf, hSfn, hSd, hI, hIf, hIfn, hId, bind, Except.bind, pure, Except.pure,
    curl_execute_recv_ok s _ S c, transfer_state_assign, store, Function.update_apply, hne,
    hne2, talloc_free, release, released_with, hIp, hret, tevent_req_done,
    tevent_req_finish, call_fn, seen, finished,
    fun w => transfer_file_next_finished env (call_fn env (d + 1)) it w (seen I st c.res)
      { st with res := c.res }, hmax]
  rw [caller_done_ok it _ (finished (seen I st c.res)) { st with res := c.res }
    (by simp [seen, finished, hIfn, hIf, hmax]) (by simp [seen, finished, hIf])
    (by simp [seen, finished])]
  simp [consume_events, seen, finished, hIfn, hIf, hmax]
  rw [recv_status_done _ rfl]

theorem transfer_file_done_nomem_general (env : Env) (d s it : Nat) (w : World)
    (S I : tevent_req) (c : curl_execute_state) (st : transfer_file_state)
    (hS : w.heap s = some S) (hSf : S.freed = false)
    (hSfn : S.fn = some (.transfer_file_done (some it))) (hSd : S.data = .curl c)
    (hI : w.heap it = some I) (hIf : I.freed = false) (hIfn : I.fn = some .caller_done)
    (hId : I.data = .transfer st) (hIp : I.parent ≠ some s) (hne : s ≠ it)
    (hret : recv_status S = 0) (hmax : st.num_iter ≠ env.maximum)
    (ha : env.alloc w.nalloc = false) :
    ∃ q, transfer_file_done env (call_fn env (d + 1)) (some s) w = .ok
      { w with
        heap := release it (Function.update
          (release s (Function.update w.heap it (some (seen I st c.res))))
          it (some (failed (seen I st c.res) (uint64_of_int ENOMEM))))
        nalloc := w.nalloc + 1
        queue := q
        trace := w.trace ++ consume_events s 0 ++
          [.enter .transfer_file_next, .printf (.sending st.num_iter st.url),
            .enter .curl_execute_send, .tevent_req_create .curl_execute_state none,
            .printf .create_failed, .leave .curl_execute_send (.ptr none),
            .leave .transfer_file_next (.int ENOMEM),
            .tevent_req_error (some it) (uint64_of_int ENOMEM), .callback it .caller_done] ++
          caller_done_events it ENOMEM ++ [.leave .transfer_file_done .void] } := by
  have hne2 : it ≠ s := fun h => hne h.symm
  have e1 : ¬ (ENOMEM = 0) := by decide
  have e2 : ¬ (ENOMEM = EAGAIN) := by decide
  have e3 : ¬ (uint64_of_int ENOMEM = 0) := by decide
  simp [transfer_file_done, tevent_req_callback_data, tevent_req_data_transfer, deref, emit,
    hS, hSf, hSfn, hSd, hI, hIf, hIfn, hId, bind, Except.bind, pure, Except.pure,
    curl_execute_recv_ok s _ S c, transfer_state_assign, store, Function.update_apply, hne,
    hne2, talloc_free, release, released_with, hIp, hret, tevent_req_error,
    tevent_req_finish, call_fn, seen, failed, e1, e2, e3,
    fun w => transfer_file_next_nomem env (call_fn env (d + 1)) it w (seen I st c.res)
      { st with res := c.res }, hmax, ha]
  rw [caller_done_ok it _ (failed (seen I st c.res) (uint64_of_int ENOMEM))
    { st with res := c.res }
    (by simp [seen, failed, hIfn, hIf]) (by simp [seen, failed, hIf])
    (by simp [seen, failed])]
  simp [consume_events, seen, failed, hIfn, hIf]
  rw [recv_status_user_error _ ENOMEM (by decide) (by decide) (by decide) rfl rfl]

theorem transfer_file_done_more_general (env : Env) (d s it : Nat) (w : World)
    (S I : tevent_req) (c : curl_execute_state) (st : transfer_file_state)
    (hS : w.heap s = some S) (hSf : S.freed = false)
    (hSfn : S.fn = some (.transfer_file_done (some it))) (hSd : S.data = .curl c)
    (hI : w.heap it = some I) (hIf : I.freed = false) (hIfn : I.fn = some .caller_done)
    (hId : I.data = .transfer st) (hIp : I.parent ≠ some s) (hne : s ≠ it)
    (hret : recv_status S = 0) (hmax : st.num_iter ≠ env.maximum)
    (ha : env.alloc w.nalloc = true) (hnext : it ≠ w.next) :
    ∃ q, transfer_file_done env (call_fn env (d + 1)) (some s) w = .ok
      { heap := Function.update
          (Function.update (release s (Function.update w.heap it (some (seen I st c.res))))
            w.next
            (some { leaf_req (some it) (env.perform w.ncurl) with
              fn := some (.transfer_file_done (some it)) }))
          it (some { I with
            data := .transfer { st with res := c.res, num_iter := st.num_iter + 1 } })
        next := w.next + 1
        nalloc := w.nalloc + 1
        ncurl := w.ncurl + 1
        queue := q
        trace := w.trace ++ consume_events s 0 ++
          issue_events it w.next st.num_iter st.url w.ncurl (env.perform w.ncurl) ++
          [.leave .transfer_file_done .void] } := by
  have hne2 : it ≠ s := fun h => hne h.symm
  have e1 : ¬ (EAGAIN = 0) := by decide
  simp [transfer_file_done, tevent_req_callback_data, tevent_req_data_transfer, deref, emit,
    hS, hSf, hSfn, hSd, hI, hIf, hIfn, hId, bind, Except.bind, pure, Except.pure,
    curl_execute_recv_ok s _ S c, transfer_state_assign, store, Function.update_apply, hne,
    hne2, talloc_free, release, released_with, hIp, hret,
    call_fn, seen, e1,
    fun w => transfer_file_next_more env (call_fn env (d + 1)) it w (seen I st c.res)
      { st with res := c.res }, hmax, ha, hnext, consume_events]

/-! ## The states of the event loop -/

theorem release_of_freed (i j : Nat) (heap : Nat → Option tevent_req) (r : tevent_req)
    (h : heap j = some r) (hf : r.freed = true) : release i heap j = some r := by
  cases r
  simp at hf
  simp [release, h, hf]

theorem release_of_none (i j : Nat) (heap : Nat → Option tevent_req)
    (h : heap j = none) : release i heap j = none := by
  simp [release, h]

/-- One iteration of the event loop releases the subrequest whose continuation
it runs, and changes neither a released request nor a free address, except for
the address of the subrequest it creates. -/
theorem async_step_heap (env : Env) (d n : Nat) (w : World) (h : Async env n w) :
    ∃ w', tevent_loop_once env (d + 2) w = .ok w' ∧
      w'.heap n = some { sub_req env (n - 1) with freed := true } ∧
      (∀ i r, i ≠ 0 → (i ≠ n + 1 ∨ continues env n = false) → w.heap i = some r →
        r.freed = true → w'.heap i = some r) ∧
      (∀ i, i ≠ 0 → (i ≠ n + 1 ∨ continues env n = false) → w.heap i = none →
        w'.heap i = none) := by
  obtain ⟨hpos, hle, ⟨res, hI⟩, hS, hnext, hna, hnc, hq⟩ := h
  have hn0 : n ≠ 0 := by omega
  have hn1 : ¬ n = n + 1 := by omega
  rw [loop_once_leaf env d n w (sub_req env (n - 1)) (some 0) hq hS rfl rfl]
  have hst : recv_status (sub_req env (n - 1)) = leaf_status env (n - 1) := rfl
  by_cases hret : leaf_status env (n - 1) = 0
  · by_cases hmax : n = env.maximum
    · refine ⟨_, transfer_file_done_finished env d n 0 _ (sub_req env (n - 1)) (iter_req n res)
        { res := env.perform (n - 1) } { ev := 0, num_iter := n, res := res, url := 1 }
        hS rfl rfl rfl hI rfl rfl rfl (by simp [iter_req]) hn0 rfl (hst.trans hret) hmax, ?_, ?_, ?_⟩
      · simp [release, released_with, Function.update_apply, hn0, hS, sub_req, leaf_req]
      · intro i r hi _ hr hf
        simp only [Function.update_apply, hi, if_false]
        exact release_of_freed _ _ _ _ (by
          simp only [Function.update_apply, hi, if_false]
          exact release_of_freed _ _ _ _ (by simp [Function.update_apply, hi, hr]) hf) hf
      · intro i hi _ hr
        simp [release, Function.update_apply, hi, hr]
    · cases ha : env.alloc (n + 1)
      · refine ⟨_, transfer_file_done_nomem env d n 0 _ (sub_req env (n - 1)) (iter_req n res)
          { res := env.perform (n - 1) } { ev := 0, num_iter := n, res := res, url := 1 }
          hS rfl rfl rfl hI rfl rfl rfl (by simp [iter_req]) hn0 rfl (hst.trans hret) hmax
          (by simpa [hna] using ha), ?_, ?_, ?_⟩
        · simp [release, released_with, Function.update_apply, hn0, hS, sub_req, leaf_req]
        · intro i r hi _ hr hf
          cases r
          simp at hf
          simp [release, Function.update_apply, hi, hr, hf]
        · intro i hi _ hr
          simp [release, Function.update_apply, hi, hr]
      · have hc : continues env n = true := by simp [continues, hret, hmax, ha]
        refine ⟨_, transfer_file_done_more env d n 0 _ (sub_req env (n - 1)) (iter_req n res)
          { res := env.perform (n - 1) } { ev := 0, num_iter := n, res := res, url := 1 }
          hS rfl rfl rfl hI rfl rfl rfl (by simp [iter_req]) hn0 rfl (hst.trans hret) hmax
          (by simpa [hna] using ha) (by simp [hnext]), ?_, ?_, ?_⟩
        · simp [release, released_with, Function.update_apply, hn0, hn1, hS, sub_req, leaf_req,
            hnext]
        · intro i r hi hi2 hr hf
          have hi3 : i ≠ n + 1 := by
            rcases hi2 with h | h
            · exact h
            · rw [hc] at h; cases h
          cases r
          simp at hf
          simp [release, Function.update_apply, hi, hi3, hr, hf, hnext]
        · intro i hi hi2 hr
          have hi3 : i ≠ n + 1 := by
            rcases hi2 with h | h
            · exact h
            · rw [hc] at h; cases h
          simp [release, Function.update_apply, hi, hi3, hr, hnext]
  · refine ⟨_, transfer_file_done_failed env d n 0 _ (sub_req env (n - 1)) (iter_req n res)
      { res := env.perform (n - 1) } { ev := 0, num_iter := n, res := res, url := 1 }
      hS rfl rfl rfl hI rfl rfl rfl (by simp [iter_req]) hn0 rfl
      (by rw [hst]; exact hret), ?_, ?_, ?_⟩
    · simp [release, released_with, Function.update_apply, hn0, hS, sub_req, leaf_req]
    · intro i r hi _ hr hf
      cases r
      simp at hf
      simp [release, Function.update_apply, hi, hr, hf]
    · intro i hi _ hr
      simp [release, Function.update_apply, hi, hr]

theorem progress_step (env : Env) (d n : Nat) (w : World) (h : Progress env n w) :
    ∃ w', tevent_loop_once env (d + 2) w = .ok w' ∧
      (if continues env n then Progress env (n + 1) w' else Stopped env n w') := by
  obtain ⟨w1, h1, ht, hc⟩ := async_step env d n w h.async
  obtain ⟨w2, h2, hn, hkeep, hnone⟩ := async_step_heap env d n w h.async
  have e : w2 = w1 := by
    rw [h1] at h2
    injection h2 with h2
    exact h2.symm
  subst e
  refine ⟨w2, h1, ?_⟩
  have hpos := h.async.pos
  have htr : w2.trace = head_events env n := by
    obtain ⟨j, rfl⟩ : ∃ j, n = j + 1 := ⟨n - 1, by omega⟩
    rw [ht, h.trace]
    simp [head_events]
  cases hcn : continues env n
  · rw [hcn] at hc
    simp only [Bool.false_eq_true, if_false] at hc ⊢
    refine ⟨hpos, h.async.le, hc.iter, hc.queue, h.went, hcn, htr, ?_, ?_⟩
    · intro i hi1 hi2
      by_cases hin : i = n
      · subst hin; exact hn
      · exact hkeep i _ (by omega) (Or.inr hcn) (h.dead i hi1 (by omega)) rfl
    · intro i hi
      exact hnone i (by omega) (Or.inr hcn) (h.fresh i hi)
  · rw [hcn] at hc
    simp only [if_true] at hc ⊢
    refine ⟨hc, ?_, ?_, ?_, ?_⟩
    · intro i hi1 hi2
      by_cases hin : i = n
      · subst hin; exact hcn
      · exact h.went i hi1 (by omega)
    · simpa using htr
    · intro i hi1 hi2
      by_cases hin : i = n
      · subst hin; simpa using hn
      · exact hkeep i _ (by omega) (Or.inl (by omega)) (h.dead i hi1 (by omega)) rfl
    · intro i hi
      exact hnone i (by omega) (Or.inl (by omega)) (h.fresh i (by omega))

theorem loop_states_idle (env : Env) (stack fuel : Nat) (w : World) (hq : w.queue = []) :
    loop_states env stack fuel w = [w] := by
  cases fuel <;> simp [loop_states, hq]

theorem loop_states_ne_nil (env : Env) (stack fuel : Nat) (w : World) :
    loop_states env stack fuel w ≠ [] := by
  cases fuel with
  | zero => simp [loop_states]
  | succ f =>
    simp only [loop_states]
    split
    · simp
    · split <;> simp

/-- The last state of the event loop is the state `tevent_loop_wait` returns
in. -/
theorem loop_states_last (env : Env) (stack : Nat) :
    ∀ fuel w w', tevent_loop_wait_fuel env stack fuel w = .ok w' →
      (loop_states env stack fuel w).getLast? = some w' ∧ w'.queue = [] := by
  intro fuel
  induction fuel with
  | zero =>
    intro w w' h
    by_cases hq : w.queue = []
    · simp [tevent_loop_wait_fuel, hq, pure, Except.pure] at h
      subst h
      simp [loop_states, hq]
    · simp [tevent_loop_wait_fuel, hq] at h
  | succ f ih =>
    intro w w' h
    by_cases hq : w.queue = []
    · simp [tevent_loop_wait_fuel, hq, pure, Except.pure] at h
      subst h
      simp [loop_states, hq]
    · cases h1 : tevent_loop_once env stack w with
      | error e => simp [tevent_loop_wait_fuel, hq, h1, bind, Except.bind] at h
      | ok w1 =>
        simp only [tevent_loop_wait_fuel, hq, h1, bind, Except.bind, if_false] at h
        obtain ⟨hl, hq2⟩ := ih w1 w' h
        refine ⟨?_, hq2⟩
        simp only [loop_states, hq, h1, if_false]
        simp [List.getLast?_cons, hl]

theorem loop_states_progress (env : Env) (d : Nat) :
    ∀ fuel n w, Progress env n w → ∀ w' ∈ loop_states env (d + 2) fuel w, AtLoop env w' := by
  intro fuel
  induction fuel with
  | zero =>
    intro n w h w' hw
    simp only [loop_states, List.mem_singleton] at hw
    subst hw
    exact .progress n h
  | succ f ih =>
    intro n w h w' hw
    obtain ⟨w1, h1, hc⟩ := progress_step env d n w h
    have hq : ¬ w.queue = [] := by simp [h.async.queue]
    simp only [loop_states, hq, h1, if_false, List.mem_cons] at hw
    rcases hw with hw | hw
    · subst hw
      exact .progress n h
    · cases hcn : continues env n
      · rw [hcn] at hc
        simp only [Bool.false_eq_true, if_false] at hc
        rw [loop_states_idle env _ f w1 hc.queue] at hw
        simp only [List.mem_singleton] at hw
        subst hw
        exact .stopped n hc
      · rw [hcn] at hc
        simp only [if_true] at hc
        exact ih (n + 1) w1 hc w' hw

theorem caller_async_fresh (env : Env) (call : Call) (h0 : env.alloc 0 = true)
    (h1 : env.alloc 1 = true) (hm : env.maximum ≠ 0) (w : World) (r : Int)
    (hc : caller env call 0 1 World.init = .ok (r, w)) : ∀ i, 1 < i → w.heap i = none := by
  have e1 : ¬ (EAGAIN = 0) := by decide
  have hm2 : ¬ (0 = env.maximum) := fun h => hm h.symm
  have h : match caller env call 0 1 World.init with
      | .ok (_, w) => ∀ i, 1 < i → w.heap i = none
      | .error _ => False := by
    simp [caller, transfer_file_send, World.init, tevent_req_create, h0, emit, store,
      PayloadType.zero, transfer_state_assign, deref, bind, Except.bind, pure, Except.pure,
      fun w => transfer_file_next_more env call 0 w fresh_iter
        { ev := 0, num_iter := 0, res := 0, url := 1 }, fresh_iter, hm2, h1, e1,
      tevent_req_set_callback, Function.update_apply, start_events]
    intro i hi
    have a : ¬ i = 0 := by omega
    have b : ¬ i = 1 := by omega
    simp [a, b]
  rw [hc] at h
  exact h

theorem caller_zero_fresh (env : Env) (call : Call) (h0 : env.alloc 0 = true)
    (hm : env.maximum = 0) (w : World) (r : Int)
    (hc : caller env call 0 1 World.init = .ok (r, w)) : ∀ i, 0 < i → w.heap i = none := by
  have e0 : ¬ ((0 : Int) = EAGAIN) := by decide
  have h : match caller env call 0 1 World.init with
      | .ok (_, w) => ∀ i, 0 < i → w.heap i = none
      | .error _ => False := by
    simp [caller, transfer_file_send, World.init, tevent_req_create, h0, emit, store,
      PayloadType.zero, transfer_state_assign, deref, bind, Except.bind, pure, Except.pure,
      fun w => transfer_file_next_finished env call 0 w fresh_iter
        { ev := 0, num_iter := 0, res := 0, url := 1 }, fresh_iter, hm, e0,
      tevent_req_set_callback, Function.update_apply, start_events_zero, tevent_req_done,
      tevent_req_finish, tevent_req_post, finished, iter_req]
    intro i hi
    have a : ¬ i = 0 := by omega
    simp [a]
  rw [hc] at h
  exact h

theorem caller_nomem_fresh (env : Env) (call : Call) (h0 : env.alloc 0 = true)
    (h1 : env.alloc 1 = false) (hm : env.maximum ≠ 0) (w : World) (r : Int)
    (hc : caller env call 0 1 World.init = .ok (r, w)) : ∀ i, 0 < i → w.heap i = none := by
  have e1 : ¬ (ENOMEM = 0) := by decide
  have e2 : ¬ (ENOMEM = EAGAIN) := by decide
  have e3 : ¬ (uint64_of_int ENOMEM = 0) := by decide
  have hm2 : ¬ (0 = env.maximum) := fun h => hm h.symm
  have h : match caller env call 0 1 World.init with
      | .ok (_, w) => ∀ i, 0 < i → w.heap i = none
      | .error _ => False := by
    simp [caller, transfer_file_send, World.init, tevent_req_create, h0, emit, store,
      PayloadType.zero, transfer_state_assign, deref, bind, Except.bind, pure, Except.pure,
      fun w => transfer_file_next_nomem env call 0 w fresh_iter
        { ev := 0, num_iter := 0, res := 0, url := 1 }, fresh_iter, hm2, h1, e1, e2, e3,
      tevent_req_set_callback, Function.update_apply, start_events_nomem, tevent_req_error,
      tevent_req_finish, tevent_req_post, failed, iter_req]
    intro i hi
    have a : ¬ i = 0 := by omega
    simp [a]
  rw [hc] at h
  exact h

theorem loop_states_sync (env : Env) (d f : Nat) (w : World) (I : tevent_req)
    (st : transfer_file_state) (hq : w.queue = [0]) (hI : w.heap 0 = some I)
    (hIf : I.freed = false) (hIfn : I.fn = some .caller_done) (hId : I.data = .transfer st) :
    loop_states env (d + 1) (f + 1) w =
      [w, { w with
        heap := release 0 w.heap
        queue := []
        trace := w.trace ++ [.callback 0 .caller_done] ++
          caller_done_events 0 (recv_status I) }] := by
  have hl := loop_sync env d 0 w I st hq hI hIf hIfn hId
  have hq2 : ¬ w.queue = [] := by simp [hq]
  simp only [tevent_loop_wait_fuel, hq2, if_false, bind, Except.bind] at hl
  cases h1 : tevent_loop_once env (d + 1) w with
  | error e => rw [h1] at hl; simp at hl
  | ok w1 =>
    rw [h1] at hl
    simp only at hl
    by_cases hq1 : w1.queue = []
    · simp only [hq1, if_true, pure, Except.pure] at hl
      injection hl with hl
      simp only [loop_states, hq2, h1, if_false]
      rw [loop_states_idle env _ f w1 hq1, hl]
    · simp [hq1] at hl

/-- Every state of a run at the event loop is one of the states described by
`AtLoop`. -/
theorem run_states_at_loop (env : Env) (stack fuel : Nat) (hstack : 2 ≤ stack)
    (hev : env.ev_ok = true) (hmctx : env.mctx_ok = true) (h0 : env.alloc 0 = true) :
    ∀ w ∈ run_states env stack fuel, AtLoop env w := by
  obtain ⟨d, rfl⟩ : ∃ d, stack = d + 2 := ⟨stack - 2, by omega⟩
  by_cases hm : env.maximum = 0
  · obtain ⟨w, hc, ht, hq, hI⟩ := caller_zero env (call_fn env (d + 2)) h0 hm
    have hfr := caller_zero_fresh env (call_fn env (d + 2)) h0 hm w 0 hc
    have hA : Immediate env false (emit .tevent_loop_wait w) :=
      ⟨Or.inl hm, by simp [emit, hI, immediate_iter, hm, finished, iter_req], by simp [emit, hq],
        by simp [emit, ht, hm], hfr⟩
    cases fuel with
    | zero =>
      intro w' hw
      simp only [run_states, hev, hmctx, hc, loop_states] at hw
      simp at hw
      subst hw
      exact .immediate false hA
    | succ f =>
      have hl := loop_states_sync env (d + 1) f (emit .tevent_loop_wait w) (finished (iter_req 0 0))
        { ev := 0, num_iter := 0, res := 0, url := 1 } hq hI rfl rfl rfl
      have hs : recv_status (finished (iter_req 0 0)) = 0 := recv_status_done _ rfl
      intro w' hw
      simp only [run_states, hev, hmctx, hc, hl] at hw
      simp at hw
      rcases hw with hw | hw
      · subst hw
        exact .immediate false hA
      · subst hw
        refine .immediate true ⟨Or.inl hm, ?_, rfl, ?_, ?_⟩
        · simp [emit, release, hI, released_with, immediate_iter, hm]
        · simp [emit, ht, hm, hs]
        · intro i hi
          exact release_of_none 0 i _ (hfr i hi)
  · cases h1 : env.alloc 1
    · obtain ⟨w, hc, ht, hq, hI⟩ := caller_nomem env (call_fn env (d + 2)) h0 h1 hm
      have hfr := caller_nomem_fresh env (call_fn env (d + 2)) h0 h1 hm w 0 hc
      have hA : Immediate env false (emit .tevent_loop_wait w) :=
        ⟨Or.inr h1, by simp [emit, hI, immediate_iter, hm, failed, iter_req], by simp [emit, hq],
          by simp [emit, ht, hm], hfr⟩
      cases fuel with
      | zero =>
        intro w' hw
        simp only [run_states, hev, hmctx, hc, loop_states] at hw
        simp at hw
        subst hw
        exact .immediate false hA
      | succ f =>
        have hl := loop_states_sync env (d + 1) f (emit .tevent_loop_wait w)
          (failed (iter_req 0 0) (uint64_of_int ENOMEM))
          { ev := 0, num_iter := 0, res := 0, url := 1 } hq hI rfl rfl rfl
        have hs : recv_status (failed (iter_req 0 0) (uint64_of_int ENOMEM)) = ENOMEM :=
          recv_status_user_error _ ENOMEM (by decide) (by decide) (by decide) rfl rfl
        intro w' hw
        simp only [run_states, hev, hmctx, hc, hl] at hw
        simp at hw
        rcases hw with hw | hw
        · subst hw
          exact .immediate false hA
        · subst hw
          refine .immediate true ⟨Or.inr h1, ?_, rfl, ?_, ?_⟩
          · simp [emit, release, hI, released_with, immediate_iter, hm]
          · simp [emit, ht, hm, hs]
          · intro i hi
            exact release_of_none 0 i _ (hfr i hi)
    · obtain ⟨w, hc, ht, ha⟩ := caller_async env (call_fn env (d + 2)) h0 h1 hm
      have hfr := caller_async_fresh env (call_fn env (d + 2)) h0 h1 hm w 0 hc
      have hP : Progress env 1 (emit .tevent_loop_wait w) :=
        ⟨⟨ha.pos, ha.le, ha.iter, ha.leaf, ha.next, ha.nalloc, ha.ncurl, ha.queue⟩,
          fun i hi1 hi2 => by omega, by simp [emit, ht, head_events],
          fun i hi1 hi2 => by omega, hfr⟩
      intro w' hw
      simp only [run_states, hev, hmctx, hc] at hw
      simp at hw
      exact loop_states_progress env d fuel 1 _ hP w' hw

/-- With enough fuel the last state of a run at the event loop is the idle
state in which `tevent_loop_wait` returns, and `main` returns from it. -/
theorem run_states_last (env : Env) (stack fuel : Nat) (hstack : 2 ≤ stack)
    (hfuel : env.maximum < fuel) (hev : env.ev_ok = true) (hmctx : env.mctx_ok = true)
    (h0 : env.alloc 0 = true) :
    ∃ w, main env stack fuel = .ok (0, talloc_free_mctx w) ∧
      (run_states env stack fuel).getLast? = some w ∧ w.queue = [] ∧
      w.trace = run_events env := by
  obtain ⟨w0, hmain, ht0, -, -⟩ := main_run env stack fuel hstack hfuel hev hmctx h0
  cases hc : caller env (call_fn env stack) 0 1 World.init with
  | error e => simp [main, hev, hmctx, hc, bind, Except.bind] at hmain
  | ok v =>
    obtain ⟨ret, w⟩ := v
    by_cases hr : ret = 0
    · subst hr
      cases hl : tevent_loop_wait_fuel env stack fuel (emit .tevent_loop_wait w) with
      | error e => simp [main, hev, hmctx, hc, hl, bind, Except.bind] at hmain
      | ok w2 =>
        simp [main, hev, hmctx, hc, hl, bind, Except.bind, pure, Except.pure] at hmain
        obtain ⟨h1, h2⟩ := loop_states_last env stack fuel _ w2 hl
        refine ⟨w2, ?_, ?_, h2, ?_⟩
        · simp [main, hev, hmctx, hc, hl, bind, Except.bind, pure, Except.pure]
        · simpa [run_states, hev, hmctx, hc] using h1
        · rw [← ht0, ← hmain]
          rfl
    · simp [main, hev, hmctx, hc, hr, bind, Except.bind, pure, Except.pure] at hmain

/-! ## Observations on the states of the event loop -/

theorem ledger_append (a b : List Event) :
    ledger (a ++ b) = b.foldl Ledger.step (ledger a) := by
  simp [ledger, List.foldl_append]

/-- The observations on the operations up to a state of the event loop in
which the chain is in progress. -/
theorem obs_head_events (env : Env) :
    ∀ k, (∀ i, 1 ≤ i → i ≤ k → continues env i = true) →
      performed (head_events env k) = (List.range (k + 1)).map (fun i => (i, env.perform i)) ∧
      counters (head_events env k) = List.range (k + 1) ∧
      ledger (head_events env k) = pending_ledger k := by
  intro k
  induction k with
  | zero =>
    intro _
    obtain ⟨b1, -, b3, -⟩ := obs_issue_events 0 1 0 1 0 (env.perform 0)
    obtain ⟨-, s2⟩ := seg_issue_events 0 0 1 0 (env.perform 0)
    simp only [Nat.zero_add] at s2
    refine ⟨?_, ?_, ?_⟩
    · simp only [head_events, start_events, performed_cons, performed_append, b1]
      simp [performed, performed_of, List.range_succ]
    · simp only [head_events, start_events, counters_cons, counters_append, b3]
      simp [counters, counters_of, List.range_succ]
    · have e0 : List.foldl Ledger.step (settled_ledger 0)
          [.enter .caller, .enter .transfer_file_send,
            .tevent_req_create .transfer_file_state (some 0)] = settled_ledger 0 := rfl
      have e1 : List.foldl Ledger.step (pending_ledger 0)
          [.leave .transfer_file_send (.ptr (some 0)),
            .tevent_req_set_callback (some 0) .caller_done, .leave .caller (.int 0)] =
          pending_ledger 0 := rfl
      have e2 : List.foldl Ledger.step (pending_ledger 0) [.tevent_loop_wait] =
          pending_ledger 0 := rfl
      show List.foldl Ledger.step (settled_ledger 0) (head_events env 0) = pending_ledger 0
      simp only [head_events, start_events, List.foldl_append, e0, s2, e1, e2]
  | succ k ih =>
    intro h
    obtain ⟨i1, i2, i3⟩ := ih (fun i hi1 hi2 => h i hi1 (by omega))
    have hc := h (k + 1) (by omega) (le_refl _)
    obtain ⟨o1, -, o3, -⟩ := obs_dispatch_more env (k + 1) hc
    obtain ⟨-, s2⟩ := seg_dispatch_more env k hc
    refine ⟨?_, ?_, ?_⟩
    · simp only [head_events, performed_append, i1, o1]
      rw [List.range_succ (n := k + 1)]
      simp
    · simp only [head_events, counters_append, i2, o3]
      rw [List.range_succ (n := k + 1)]
    · simp only [head_events, ledger_append, i3, s2]

/-- The observations on the operations up to the state in which the event loop
stops after the continuation of the operation with counter `n - 1`. -/
theorem obs_head_events_stop (env : Env) (n : Nat) (hn : 1 ≤ n)
    (hw : ∀ i, 1 ≤ i → i < n → continues env i = true) (hs : continues env n = false) :
    performed (head_events env n) = (List.range n).map (fun i => (i, env.perform i)) ∧
    counters (head_events env n) = List.range (n + failed_attempt env n) ∧
    ledger (head_events env n) = settled_ledger n := by
  obtain ⟨j, rfl⟩ : ∃ j, n = j + 1 := ⟨n - 1, by omega⟩
  obtain ⟨i1, i2, i3⟩ := obs_head_events env j (fun i hi1 hi2 => hw i hi1 (by omega))
  obtain ⟨o1, -, o3, -⟩ := obs_dispatch_stop env (j + 1) hs
  obtain ⟨-, s2⟩ := seg_dispatch_stop env j hs
  refine ⟨?_, ?_, ?_⟩
  · simp only [head_events, performed_append, i1, o1, List.append_nil]
  · simp only [head_events, counters_append, i2, o3]
    rw [List.range_add (j + 1) (failed_attempt env (j + 1)), List.range'_eq_map_range]
  · simp only [head_events, ledger_append, i3, s2]

theorem leaf_status_eq_zero_iff (env : Env) (k : Nat) :
    leaf_status env k = 0 ↔ env.perform k = CURLE_OK := by
  constructor
  · intro h
    by_contra hne
    have e1 : ¬ EIO = 0 := by decide
    by_cases h64 : uint64_of_CURLcode (env.perform k) = 0
    · simp [leaf_status, leaf_req, hne, h64, recv_status, TEVENT_REQ_RETURN_ON_ERROR,
        tevent_req_is_error, e1] at h
    · by_cases hz : int_of_uint64 (uint64_of_CURLcode (env.perform k)) = 0
      · simp [leaf_status, leaf_req, hne, h64, recv_status, TEVENT_REQ_RETURN_ON_ERROR,
          tevent_req_is_error, e1, hz] at h
      · simp [leaf_status, leaf_req, hne, h64, recv_status, TEVENT_REQ_RETURN_ON_ERROR,
          tevent_req_is_error, e1, hz] at h
  · exact leaf_status_of_ok env k

theorem ledger_immediate (env : Env) (b : Bool) :
    ledger ((if env.maximum = 0 then start_events_zero else start_events_nomem) ++
      [.tevent_loop_wait] ++
      (if b then .callback 0 .caller_done ::
          caller_done_events 0 (if env.maximum = 0 then 0 else ENOMEM)
        else [])) = settled_ledger 0 := by
  have e1 : ¬ ENOMEM = 0 := by decide
  have e2 : ¬ ENOMEM = EIO := by decide
  have e3 : ¬ ENOMEM = ETIMEDOUT := by decide
  by_cases hm : env.maximum = 0 <;> cases b <;>
    simp [hm, ledger, Ledger.step, start_events_zero, start_events_nomem, caller_done_events,
      report_events, settled_ledger, e1, e2, e3]

theorem performed_immediate (env : Env) (b : Bool) :
    performed ((if env.maximum = 0 then start_events_zero else start_events_nomem) ++
      [.tevent_loop_wait] ++
      (if b then .callback 0 .caller_done ::
          caller_done_events 0 (if env.maximum = 0 then 0 else ENOMEM)
        else [])) = [] := by
  have e1 : ¬ ENOMEM = 0 := by decide
  have e2 : ¬ ENOMEM = EIO := by decide
  have e3 : ¬ ENOMEM = ETIMEDOUT := by decide
  by_cases hm : env.maximum = 0 <;> cases b <;>
    simp [hm, performed, performed_of, start_events_zero, start_events_nomem,
      caller_done_events, report_events, e1, e2, e3]

/-! ## The counter of the iterator -/

theorem not_continues_of_alloc (env : Env) (n : Nat) (ha : env.alloc (n + 1) = true)
    (hs : continues env n = false) : leaf_status env (n - 1) ≠ 0 ∨ n = env.maximum := by
  by_cases h1 : leaf_status env (n - 1) = 0
  · by_cases h2 : n = env.maximum
    · exact Or.inr h2
    · simp [continues, h1, h2, ha] at hs
  · exact Or.inl h1

theorem leaf_status_of_continues (env : Env) (n : Nat) (h : continues env n = true) :
    leaf_status env (n - 1) = 0 := by
  simp only [continues, Bool.and_eq_true, decide_eq_true_eq] at h
  exact h.1.1

/-- The iterator request in the states of the run at the event loop in which
the first operation succeeds and the second subrequest cannot be created: in
progress with counter `1`, then `TEVENT_REQ_USER_ERROR` with code `ENOMEM`
and counter `1`. -/
theorem iterators_second_create_fails :
    (run_states env_second_create_fails 2 4).map iterator_of =
      [some (TEVENT_REQ_IN_PROGRESS, 0, 1), some (TEVENT_REQ_USER_ERROR, 12, 1)] := by
  rfl

/-- C11, counterexample: with maximum `3`, every external call successful and
the second subrequest not allocatable, the run of `main` reaches a state at
the event loop in which the iterator is terminal although the counter is `1`,
below the maximum, and no leaf operation has signalled an error; so the
iterator is not terminal only when the counter has reached the maximum or an
operation has failed. -/
theorem terminal_below_maximum_without_failure :
    ¬ (∀ w, w ∈ run_states env_second_create_fails 2 4 → ∀ I st, w.heap 0 = some I →
        I.data = .transfer st → terminal I.state = true →
        (st.num_iter = env_second_create_fails.maximum ∧
            ∀ k, k + 1 = env_second_create_fails.maximum →
              env_second_create_fails.perform k = CURLE_OK) ∨
          ∃ k, k < st.num_iter ∧ env_second_create_fails.perform k ≠ CURLE_OK) := by
  intro h
  have hmem : some (TEVENT_REQ_USER_ERROR, 12, 1) ∈
      (run_states env_second_create_fails 2 4).map iterator_of := by
    rw [iterators_second_create_fails]
    simp
  obtain ⟨w, hw, hi⟩ := List.mem_map.mp hmem
  cases hI : w.heap 0 with
  | none => simp [iterator_of, hI] at hi
  | some I =>
    cases hd : I.data with
    | curl c => simp [iterator_of, hI, hd] at hi
    | transfer st =>
      simp only [iterator_of, hI, hd, Option.some.injEq, Prod.mk.injEq] at hi
      obtain ⟨hs, -, hn⟩ := hi
      rcases h w hw I st hI hd (by rw [hs]; rfl) with ⟨hmax, -⟩ | ⟨k, -, hk⟩
      · rw [hn] at hmax
        exact absurd hmax (by decide)
      · exact hk rfl

/-- C11, amended: for every sequence of external results and of subrequest
allocations, in every state of a run of `main` at the event loop (the state
`caller` leaves and the state after each iteration of `tevent_loop_wait`) the
counter `num_iter` of the iterator request is at most the maximum and equals
the number of leaf operations issued so far: the external calls made so far
are those with the indices `0, ..., num_iter - 1`, the counters announced at
the issues start with `0, ..., num_iter - 1`, and `num_iter` subrequests have
been created.  The iterator is terminal exactly in the states in which the
outcome of every issued operation has been delivered to the continuation and
either the counter is at the maximum with the last operation successful, or an
operation has failed, or the counter is below the maximum and the subrequest
of the next operation cannot be created.  With enough fuel the last of these
states is the one `main` returns from, and the iterator is terminal in it. -/
theorem counter_counts_issued_operations (env : Env) (stack fuel : Nat) (hstack : 2 ≤ stack)
    (hfuel : env.maximum < fuel) (hev : env.ev_ok = true) (hmctx : env.mctx_ok = true)
    (h0 : env.alloc 0 = true) :
    (∀ w, w ∈ run_states env stack fuel → ∃ I st,
      w.heap 0 = some I ∧ I.data = .transfer st ∧
      st.num_iter ≤ env.maximum ∧
      performed w.trace = (List.range st.num_iter).map (fun k => (k, env.perform k)) ∧
      List.range st.num_iter <+: counters w.trace ∧
      (ledger w.trace).created = st.num_iter ∧
      (terminal I.state = true ↔
        (ledger w.trace).consumed = st.num_iter ∧
          ((st.num_iter = env.maximum ∧
              ∀ k, k + 1 = env.maximum → env.perform k = CURLE_OK) ∨
            (∃ k, k < st.num_iter ∧ env.perform k ≠ CURLE_OK) ∨
            (st.num_iter < env.maximum ∧ env.alloc (st.num_iter + 1) = false)))) ∧
    ∃ wl I, main env stack fuel = .ok (0, talloc_free_mctx wl) ∧
      (run_states env stack fuel).getLast? = some wl ∧
      wl.heap 0 = some I ∧ terminal I.state = true := by
  have hall : ∀ w, w ∈ run_states env stack fuel → ∃ I st,
      w.heap 0 = some I ∧ I.data = .transfer st ∧
      st.num_iter ≤ env.maximum ∧
      performed w.trace = (List.range st.num_iter).map (fun k => (k, env.perform k)) ∧
      List.range st.num_iter <+: counters w.trace ∧
      (ledger w.trace).created = st.num_iter ∧
      (terminal I.state = true ↔
        (ledger w.trace).consumed = st.num_iter ∧
          ((st.num_iter = env.maximum ∧
              ∀ k, k + 1 = env.maximum → env.perform k = CURLE_OK) ∨
            (∃ k, k < st.num_iter ∧ env.perform k ≠ CURLE_OK) ∨
            (st.num_iter < env.maximum ∧ env.alloc (st.num_iter + 1) = false))) := by
    intro w hw
    cases run_states_at_loop env stack fuel hstack hev hmctx h0 w hw with
    | progress n h =>
      obtain ⟨res, hI⟩ := h.async.iter
      have hpos := h.async.pos
      obtain ⟨j, rfl⟩ : ∃ j, n = j + 1 := ⟨n - 1, by omega⟩
      obtain ⟨o1, o2, o3⟩ := obs_head_events env j (fun i hi1 hi2 => h.went i hi1 (by omega))
      have ht : w.trace = head_events env j := by simpa using h.trace
      refine ⟨_, _, hI, rfl, h.async.le, ?_, ?_, ?_, ?_⟩
      · rw [ht, o1]
      · rw [ht, o2]
      · rw [ht, o3]; rfl
      · rw [ht, o3]
        simp [terminal, iter_req, pending_ledger]
    | stopped n h =>
      obtain ⟨o1, o2, o3⟩ := obs_head_events_stop env n h.pos h.went h.stop
      have hpos := h.pos
      have hcnt : List.range n <+: counters (head_events env n) := by
        rw [o2, List.range_add]
        exact List.prefix_append _ _
      by_cases hf : leaf_status env (n - 1) = 0
      · by_cases hmax : n = env.maximum
        · have hI : w.heap 0 = some { finished (iter_req n (env.perform (n - 1)))
              with freed := true } := by
            rw [h.iter]; simp [final_iter, hf, if_pos hmax]
          refine ⟨_, _, hI, rfl, h.le, ?_, ?_, ?_, ?_⟩
          · rw [h.trace, o1]
          · rw [h.trace]; exact hcnt
          · rw [h.trace, o3]; rfl
          · rw [h.trace, o3]
            simp only [terminal, finished, iter_req, settled_ledger, true_iff, true_and]
            refine Or.inl ⟨hmax, ?_⟩
            intro k hk
            have e : k = n - 1 := by omega
            rw [e]
            exact (leaf_status_eq_zero_iff env (n - 1)).mp hf
        · have ha : env.alloc (n + 1) = false := by
            cases ha : env.alloc (n + 1)
            · rfl
            · rcases not_continues_of_alloc env n ha h.stop with h1 | h1
              · exact absurd hf h1
              · exact absurd h1 hmax
          have hI : w.heap 0 = some { failed (iter_req n (env.perform (n - 1)))
              (uint64_of_int ENOMEM) with freed := true } := by
            rw [h.iter]; simp [final_iter, hf, if_neg hmax]
          have hle := h.le
          refine ⟨_, _, hI, rfl, h.le, ?_, ?_, ?_, ?_⟩
          · rw [h.trace, o1]
          · rw [h.trace]; exact hcnt
          · rw [h.trace, o3]; rfl
          · rw [h.trace, o3]
            simp only [terminal, failed, iter_req, settled_ledger, true_iff, true_and]
            exact Or.inr (Or.inr ⟨by omega, ha⟩)
      · have hI : w.heap 0 = some { failed (iter_req n (env.perform (n - 1)))
            (uint64_of_int (leaf_status env (n - 1))) with freed := true } := by
          rw [h.iter]; simp [final_iter, hf]
        refine ⟨_, _, hI, rfl, h.le, ?_, ?_, ?_, ?_⟩
        · rw [h.trace, o1]
        · rw [h.trace]; exact hcnt
        · rw [h.trace, o3]; rfl
        · rw [h.trace, o3]
          have hp : env.perform (n - 1) ≠ CURLE_OK :=
            fun hp => hf ((leaf_status_eq_zero_iff env (n - 1)).mpr hp)
          simp only [terminal, failed, iter_req, settled_ledger, true_iff, true_and]
          exact Or.inr (Or.inl ⟨n - 1, by omega, hp⟩)
    | immediate b h =>
      have hp := performed_immediate env b
      have hl := ledger_immediate env b
      by_cases hm : env.maximum = 0
      · have hI : w.heap 0 = some { finished (iter_req 0 0) with freed := b } := by
          rw [h.iter]; simp [immediate_iter, hm]
        refine ⟨_, _, hI, rfl, Nat.zero_le _, ?_, ?_, ?_, ?_⟩
        · rw [h.trace, hp]; rfl
        · exact List.nil_prefix
        · rw [h.trace, hl]; rfl
        · rw [h.trace, hl]
          simp [terminal, finished, iter_req, settled_ledger, hm]
      · have h1 : env.alloc 1 = false := by
          rcases h.cond with h1 | h1
          · exact absurd h1 hm
          · exact h1
        have hI : w.heap 0 = some { failed (iter_req 0 0) (uint64_of_int ENOMEM)
            with freed := b } := by
          rw [h.iter]; simp [immediate_iter, hm]
        refine ⟨_, _, hI, rfl, Nat.zero_le _, ?_, ?_, ?_, ?_⟩
        · rw [h.trace, hp]; rfl
        · exact List.nil_prefix
        · rw [h.trace, hl]; rfl
        · rw [h.trace, hl]
          simp only [terminal, failed, iter_req, settled_ledger, true_iff, true_and]
          exact Or.inr (Or.inr ⟨by omega, h1⟩)
  refine ⟨hall, ?_⟩
  obtain ⟨wl, hmain, hlast, hq, -⟩ :=
    run_states_last env stack fuel hstack hfuel hev hmctx h0
  have hmem : wl ∈ run_states env stack fuel := List.mem_of_getLast?_eq_some hlast
  cases run_states_at_loop env stack fuel hstack hev hmctx h0 wl hmem with
  | progress n h =>
    have := h.async.queue
    rw [hq] at this
    cases this
  | stopped n h =>
    refine ⟨wl, _, hmain, hlast, h.iter, ?_⟩
    unfold final_iter
    split
    · rfl
    · split <;> rfl
  | immediate b h =>
    refine ⟨wl, _, hmain, hlast, h.iter, ?_⟩
    unfold immediate_iter
    split <;> rfl

/-- Witness of the amended C11 at the program's maximum `3` when the first
operation succeeds and the second subrequest cannot be created. -/
theorem counter_counts_issued_operations_witness :
    (∀ w, w ∈ run_states env_second_create_fails 2 4 → ∃ I st,
      w.heap 0 = some I ∧ I.data = .transfer st ∧
      st.num_iter ≤ env_second_create_fails.maximum ∧
      performed w.trace =
        (List.range st.num_iter).map (fun k => (k, env_second_create_fails.perform k)) ∧
      List.range st.num_iter <+: counters w.trace ∧
      (ledger w.trace).created = st.num_iter ∧
      (terminal I.state = true ↔
        (ledger w.trace).consumed = st.num_iter ∧
          ((st.num_iter = env_second_create_fails.maximum ∧
              ∀ k, k + 1 = env_second_create_fails.maximum →
                env_second_create_fails.perform k = CURLE_OK) ∨
            (∃ k, k < st.num_iter ∧ env_second_create_fails.perform k ≠ CURLE_OK) ∨
            (st.num_iter < env_second_create_fails.maximum ∧
              env_second_create_fails.alloc (st.num_iter + 1) = false)))) ∧
    ∃ wl I, main env_second_create_fails 2 4 = .ok (0, talloc_free_mctx wl) ∧
      (run_states env_second_create_fails 2 4).getLast? = some wl ∧
      wl.heap 0 = some I ∧ terminal I.state = true :=
  counter_counts_issued_operations env_second_create_fails 2 4 (by decide) (by decide) rfl rfl
    rfl

/-! ## The calls that finish a request -/

theorem finishes_append (a b : List Event) : finishes (a ++ b) = finishes a ++ finishes b := by
  simp [finishes]

theorem finishes_cons (e : Event) (t : List Event) :
    finishes (e :: t) = (finished_of e).toList ++ finishes t := by
  unfold finishes
  rw [List.filterMap_cons]
  cases finished_of e <;> simp

theorem finishes_report_events (ret : Int) : finishes (report_events ret) = [] := by
  unfold report_events
  split_ifs <;> simp [finishes, finished_of]

theorem finishes_caller_done_events (it : Nat) (ret : Int) :
    finishes (caller_done_events it ret) = [] := by
  simp only [caller_done_events, finishes_append, finishes_report_events]
  simp [finishes, finished_of]

theorem finishes_consume_events (s : Nat) (ret : Int) :
    finishes (consume_events s ret) = [] := by
  simp [consume_events, finishes, finished_of]

theorem finishes_issue_events (it s n url k r : Nat) :
    finishes (issue_events it s n url k r) = [s] := by
  unfold issue_events leaf_events
  split_ifs <;> simp [finishes, finished_of]

theorem finishes_finish_events (env : Env) (n : Nat) :
    finishes (finish_events env n) = [0] := by
  unfold finish_events
  split_ifs <;> simp [finishes, finished_of]

theorem finishes_tail_events (env : Env) (k n : Nat) (hk : n + k = env.maximum) :
    finishes (tail_events env k n) = List.range' (n + 1) (stop_index env k n - n) ++ [0] := by
  refine tail_events_induction env
    (fun n N t => finishes t = List.range' (n + 1) (N - n) ++ [0]) ?_ ?_ k n hk
  · intro n h
    rw [dispatch_events_of_stop env n h]
    simp only [finishes_cons, finishes_append, finishes_consume_events, finishes_finish_events,
      finishes_caller_done_events]
    simp [finishes, finished_of]
  · intro n N t h hlt ih
    rw [dispatch_events_of_continues env n h]
    obtain ⟨j, rfl⟩ : ∃ j, N = n + 1 + j := ⟨N - (n + 1), by omega⟩
    have e1 : n + 1 + j - (n + 1) = j := by omega
    have e2 : n + 1 + j - n = j + 1 := by omega
    rw [e1] at ih
    simp only [finishes_cons, finishes_append, finishes_consume_events, finishes_issue_events, ih,
      e2]
    rw [List.range'_succ]
    simp [finishes, finished_of]

/-- The calls of `tevent_req_done` and `tevent_req_error` of a whole run: one
on each subrequest in turn, then one on the iterator request. -/
theorem finishes_run_events (env : Env) :
    finishes (run_events env) = List.range' 1 (issued env) ++ [0] := by
  by_cases hm : env.maximum = 0
  · simp only [run_events, issued, hm, if_true, finishes_append, finishes_caller_done_events]
    simp [finishes, finished_of, start_events_zero]
  · cases h1 : env.alloc 1
    · simp only [run_events, issued, hm, h1, if_false, Bool.false_eq_true, finishes_append,
        finishes_caller_done_events]
      simp [finishes, finished_of, start_events_nomem]
    · have hb := stop_index_bounds env (env.maximum - 1) 1
      obtain ⟨j, hj⟩ : ∃ j, stop_index env (env.maximum - 1) 1 = j + 1 :=
        ⟨stop_index env (env.maximum - 1) 1 - 1, by omega⟩
      have ht := finishes_tail_events env (env.maximum - 1) 1 (by omega)
      rw [hj] at ht
      have e : j + 1 - 1 = j := by omega
      rw [e] at ht
      simp only [run_events, issued, hm, h1, if_true, if_false, start_events, finishes_cons,
        finishes_append, finishes_issue_events, ht, hj]
      rw [List.range'_succ]
      simp [finishes, finished_of]

theorem finishes_run_nodup (env : Env) : (finishes (run_events env)).Nodup := by
  rw [finishes_run_events, List.nodup_append]
  refine ⟨List.nodup_range' _ _, List.nodup_singleton _, ?_⟩
  intro a ha hb
  simp only [List.mem_singleton] at hb
  subst hb
  simp [List.mem_range'_1] at ha

theorem stable_release (w w' : World) (i : Nat) (h : w'.heap = release i w.heap) :
    stable w w' := by
  intro j r1 hr1 _
  rw [h]
  by_cases hr : released_with i j r1 = true
  · exact ⟨{ r1 with freed := true }, by simp [release, hr1, hr], rfl, rfl⟩
  · exact ⟨r1, by simp [release, hr1, hr], rfl, rfl⟩

theorem stable_of_progress (env : Env) (n m : Nat) (w w' : World) (h : Progress env n w)
    (hnm : n ≤ m)
    (hdead : ∀ i, 1 ≤ i → i < m → w'.heap i = some { sub_req env (i - 1) with freed := true })
    (hlast : w'.heap m = some (sub_req env (m - 1)) ∨
      w'.heap m = some { sub_req env (m - 1) with freed := true }) :
    stable w w' := by
  intro i r1 hr1 ht
  have hpos := h.async.pos
  by_cases hi0 : i = 0
  · subst hi0
    obtain ⟨res, hI⟩ := h.async.iter
    rw [hI] at hr1
    injection hr1 with e
    subst e
    simp [terminal, iter_req] at ht
  · by_cases hin : i < n
    · have hd := h.dead i (by omega) hin
      rw [hd] at hr1
      injection hr1 with e
      subst e
      exact ⟨_, hdead i (by omega) (by omega), rfl, rfl⟩
    · by_cases hie : i = n
      · subst hie
        rw [h.async.leaf] at hr1
        injection hr1 with e
        subst e
        by_cases him : i = m
        · subst him
          rcases hlast with hl | hl
          · exact ⟨_, hl, rfl, rfl⟩
          · exact ⟨_, hl, rfl, rfl⟩
        · exact ⟨_, hdead i (by omega) (by omega), rfl, rfl⟩
      · rw [h.fresh i (by omega)] at hr1
        cases hr1

theorem stable_progress_progress (env : Env) (n m : Nat) (w w' : World)
    (h : Progress env n w) (h' : Progress env m w') (hnm : n ≤ m) : stable w w' :=
  stable_of_progress env n m w w' h hnm h'.dead (Or.inl h'.async.leaf)

theorem stable_progress_stopped (env : Env) (n m : Nat) (w w' : World)
    (h : Progress env n w) (h' : Stopped env m w') (hnm : n ≤ m) : stable w w' :=
  stable_of_progress env n m w w' h hnm (fun i hi1 hi2 => h'.dead i hi1 (by omega))
    (Or.inr (h'.dead m h'.pos (le_refl m)))

theorem loop_states_stable (env : Env) (d : Nat) :
    ∀ fuel n w, Progress env n w →
      (∀ w' ∈ loop_states env (d + 2) fuel w,
        (∃ m, n ≤ m ∧ Progress env m w') ∨ (∃ m, n ≤ m ∧ Stopped env m w')) ∧
      (loop_states env (d + 2) fuel w).Pairwise stable := by
  intro fuel
  induction fuel with
  | zero =>
    intro n w h
    simp only [loop_states, List.mem_singleton, List.pairwise_singleton, and_true]
    intro w' hw
    subst hw
    exact Or.inl ⟨n, le_refl n, h⟩
  | succ f ih =>
    intro n w h
    obtain ⟨w1, h1, hc⟩ := progress_step env d n w h
    have hq : ¬ w.queue = [] := by simp [h.async.queue]
    simp only [loop_states, hq, h1, if_false, List.mem_cons, List.pairwise_cons]
    cases hcn : continues env n
    · rw [hcn] at hc
      simp only [Bool.false_eq_true, if_false] at hc
      rw [loop_states_idle env _ f w1 hc.queue]
      simp only [List.mem_singleton, List.pairwise_singleton, and_true]
      refine ⟨?_, ?_⟩
      · intro w' hw
        rcases hw with hw | hw
        · subst hw; exact Or.inl ⟨n, le_refl n, h⟩
        · subst hw; exact Or.inr ⟨n, le_refl n, hc⟩
      · intro w' hw
        subst hw
        exact stable_progress_stopped env n n w _ h hc (le_refl n)
    · rw [hcn] at hc
      simp only [if_true] at hc
      obtain ⟨ih1, ih2⟩ := ih (n + 1) w1 hc
      refine ⟨?_, ?_, ih2⟩
      · intro w' hw
        rcases hw with hw | hw
        · subst hw; exact Or.inl ⟨n, le_refl n, h⟩
        · rcases ih1 w' hw with ⟨m, hm, hp⟩ | ⟨m, hm, hp⟩
          · exact Or.inl ⟨m, by omega, hp⟩
          · exact Or.inr ⟨m, by omega, hp⟩
      · intro w' hw
        rcases ih1 w' hw with ⟨m, hm, hp⟩ | ⟨m, hm, hp⟩
        · exact stable_progress_progress env n m w w' h hp (by omega)
        · exact stable_progress_stopped env n m w w' h hp (by omega)

/-- Along the states of a run at the event loop, a request that is terminal
keeps its state and its error in every later state. -/
theorem run_states_stable (env : Env) (stack fuel : Nat) (hstack : 2 ≤ stack)
    (hev : env.ev_ok = true) (hmctx : env.mctx_ok = true) (h0 : env.alloc 0 = true) :
    (run_states env stack fuel).Pairwise stable := by
  obtain ⟨d, rfl⟩ : ∃ d, stack = d + 2 := ⟨stack - 2, by omega⟩
  by_cases hm : env.maximum = 0
  · obtain ⟨w, hc, ht, hq, hI⟩ := caller_zero env (call_fn env (d + 2)) h0 hm
    cases fuel with
    | zero => simp [run_states, hev, hmctx, hc, loop_states]
    | succ f =>
      have hl := loop_states_sync env (d + 1) f (emit .tevent_loop_wait w) (finished (iter_req 0 0))
        { ev := 0, num_iter := 0, res := 0, url := 1 } hq hI rfl rfl rfl
      simp only [run_states, hev, hmctx, hc, hl]
      simp only [Bool.not_true, Bool.false_eq_true, if_false, ne_eq, not_true_eq_false,
        List.pairwise_cons, List.mem_singleton, List.pairwise_singleton, and_true,
        List.not_mem_nil, false_implies, implies_true]
      refine ⟨?_, trivial, List.Pairwise.nil⟩
      intro w' hw
      subst hw
      exact stable_release _ _ 0 rfl
  · cases h1 : env.alloc 1
    · obtain ⟨w, hc, ht, hq, hI⟩ := caller_nomem env (call_fn env (d + 2)) h0 h1 hm
      cases fuel with
      | zero => simp [run_states, hev, hmctx, hc, loop_states]
      | succ f =>
        have hl := loop_states_sync env (d + 1) f (emit .tevent_loop_wait w)
          (failed (iter_req 0 0) (uint64_of_int ENOMEM))
          { ev := 0, num_iter := 0, res := 0, url := 1 } hq hI rfl rfl rfl
        simp only [run_states, hev, hmctx, hc, hl]
        simp only [Bool.not_true, Bool.false_eq_true, if_false, ne_eq, not_true_eq_false,
          List.pairwise_cons, List.mem_singleton, List.pairwise_singleton, and_true,
          List.not_mem_nil, false_implies, implies_true]
        refine ⟨?_, trivial, List.Pairwise.nil⟩
        intro w' hw
        subst hw
        exact stable_release _ _ 0 rfl
    · obtain ⟨w, hc, ht, ha⟩ := caller_async env (call_fn env (d + 2)) h0 h1 hm
      have hfr := caller_async_fresh env (call_fn env (d + 2)) h0 h1 hm w 0 hc
      have hP : Progress env 1 (emit .tevent_loop_wait w) :=
        ⟨⟨ha.pos, ha.le, ha.iter, ha.leaf, ha.next, ha.nalloc, ha.ncurl, ha.queue⟩,
          fun i hi1 hi2 => by omega, by simp [emit, ht, head_events],
          fun i hi1 hi2 => by omega, hfr⟩
      simp only [run_states, hev, hmctx, hc]
      simpa using (loop_states_stable env d fuel 1 _ hP).2

theorem stable_trans (a b c : World) (h1 : stable a b) (h2 : stable b c) : stable a c := by
  intro i r1 hr1 ht
  obtain ⟨r2, hr2, hs, he⟩ := h1 i r1 hr1 ht
  obtain ⟨r3, hr3, hs3, he3⟩ := h2 i r2 hr2 (by rw [hs]; exact ht)
  exact ⟨r3, hr3, hs3.trans hs, he3.trans he⟩

theorem stable_talloc_free_mctx (w : World) : stable w (talloc_free_mctx w) := by
  intro i r1 hr1 _
  exact ⟨{ r1 with freed := true }, by simp [talloc_free_mctx, hr1], rfl, rfl⟩

theorem finishes_prefix_fresh (t p : List Event) (e : Event) (i : Nat)
    (hn : (finishes t).Nodup) (hp : p ++ [e] <+: t) (he : finished_of e = some i) :
    i ∉ finishes p := by
  have h1 : finishes (p ++ [e]) <+: finishes t := List.IsPrefix.filterMap finished_of hp
  have h2 : (finishes (p ++ [e])).Nodup := hn.sublist h1.sublist
  rw [finishes_append] at h2
  have h3 : finishes [e] = [i] := by simp [finishes, he]
  rw [h3, List.nodup_append] at h2
  intro hmem
  exact h2.2.2 hmem (List.mem_singleton_self i)

/-- C12: for every sequence of external results (and of subrequest
allocations), in the run of `main` the program calls `tevent_req_done` or
`tevent_req_error` at most once on each request, and exactly once on each
request created; at the moment of such a call no earlier call has finished the
same request, so the request is not yet terminal; and along the states of the
run at the event loop, followed by the state `main` returns in, a request that
is terminal (`TEVENT_REQ_DONE`, `TEVENT_REQ_USER_ERROR` or
`TEVENT_REQ_TIMED_OUT`) has the same state and the same error code in every
later state. -/
theorem terminal_requests_never_change (env : Env) (stack fuel : Nat) (hstack : 2 ≤ stack)
    (hfuel : env.maximum < fuel) (hev : env.ev_ok = true) (hmctx : env.mctx_ok = true)
    (h0 : env.alloc 0 = true) :
    ∃ w, main env stack fuel = .ok (0, w) ∧
      (∀ i, (finishes w.trace).count i ≤ 1) ∧
      (∀ i, i ∈ created w.trace → (finishes w.trace).count i = 1) ∧
      (∀ p e i, p ++ [e] <+: w.trace → finished_of e = some i → i ∉ finishes p) ∧
      (run_states env stack fuel ++ [w]).Pairwise stable := by
  obtain ⟨wl, hmain, hlast, -, ht⟩ := run_states_last env stack fuel hstack hfuel hev hmctx h0
  have ht2 : (talloc_free_mctx wl).trace = run_events env := ht
  have hnd := finishes_run_nodup env
  refine ⟨_, hmain, ?_, ?_, ?_, ?_⟩
  · rw [ht2]
    exact List.nodup_iff_count_le_one.mp hnd
  · intro i hi
    rw [ht2] at hi ⊢
    refine List.count_eq_one_of_mem hnd ?_
    rw [(cb_run_events env 0).1] at hi
    have hi2 := List.mem_range.mp hi
    rw [finishes_run_events]
    by_cases hi0 : i = 0
    · simp [hi0]
    · simp only [List.mem_append, List.mem_range'_1, List.mem_singleton]
      left
      omega
  · intro p e i hp he
    rw [ht2] at hp
    exact finishes_prefix_fresh _ p e i hnd hp he
  · have hP := run_states_stable env stack fuel hstack hev hmctx h0
    obtain ⟨ys, hys⟩ := List.getLast?_eq_some_iff.mp hlast
    rw [List.pairwise_append]
    refine ⟨hP, List.pairwise_singleton _ _, ?_⟩
    intro a ha b hb
    simp only [List.mem_singleton] at hb
    subst hb
    rw [hys] at ha hP
    rcases List.mem_append.mp ha with ha | ha
    · have h1 := (List.pairwise_append.mp hP).2.2 a ha wl (List.mem_singleton_self wl)
      exact stable_trans _ _ _ h1 (stable_talloc_free_mctx wl)
    · simp only [List.mem_singleton] at ha
      subst ha
      exact stable_talloc_free_mctx a

/-- Witness of C12 at the program's maximum `3` with a failing second call. -/
theorem terminal_requests_never_change_witness :
    ∃ w, main (env_of 3 [0, 7]) 2 4 = .ok (0, w) ∧
      (∀ i, (finishes w.trace).count i ≤ 1) ∧
      (∀ i, i ∈ created w.trace → (finishes w.trace).count i = 1) ∧
      (∀ p e i, p ++ [e] <+: w.trace → finished_of e = some i → i ∉ finishes p) ∧
      (run_states (env_of 3 [0, 7]) 2 4 ++ [w]).Pairwise stable :=
  terminal_requests_never_change (env_of 3 [0, 7]) 2 4 (by decide) (by decide) rfl rfl rfl

/-! ## The continuation and `tevent_req_post` -/

theorem posts_append (a b : List Event) : posts (a ++ b) = posts a ++ posts b := by
  simp [posts]

theorem posts_caller_done_events (it : Nat) (ret : Int) :
    posts (caller_done_events it ret) = [] := by
  unfold caller_done_events report_events
  split_ifs <;> simp [posts, posted_of]

/-- The operations of the continuation of a subrequest that failed with code
`7`. -/
theorem trace_of_failed_leaf :
    trace_of (transfer_file_done (env_of 3 [7]) (call_fn (env_of 3 [7]) 1) (some 1)
        (world_of 1 (sub_req (env_of 3 [7]) 0))) =
      [.enter .transfer_file_done, .printf .receiving, .enter .curl_execute_recv,
        .leave .curl_execute_recv (.int 7), .talloc_free (some 1),
        .tevent_req_error (some 0) 7, .callback 0 .caller_done,
        .enter .caller_done, .enter .transfer_file_recv, .leave .transfer_file_recv (.int 7),
        .talloc_free (some 0), .printf .transfer_failure, .printf (.curl_failed 7),
        .leave .caller_done .void, .leave .transfer_file_done .void] := by
  rfl

/-- The operations of the continuation of the last subrequest of a successful
chain. -/
theorem trace_of_last_leaf :
    trace_of (transfer_file_done (env_of 3 []) (call_fn (env_of 3 []) 1) (some 1)
        (world_of 3 (sub_req (env_of 3 []) 2))) =
      [.enter .transfer_file_done, .printf .receiving, .enter .curl_execute_recv,
        .leave .curl_execute_recv (.int 0), .talloc_free (some 1),
        .enter .transfer_file_next, .leave .transfer_file_next (.int 0),
        .tevent_req_done (some 0), .callback 0 .caller_done,
        .enter .caller_done, .enter .transfer_file_recv, .leave .transfer_file_recv (.int 0),
        .talloc_free (some 0), .printf .transfer_successful,
        .leave .caller_done .void, .leave .transfer_file_done .void] := by
  rfl

/-- C13, counterexample: the continuation of a subrequest that failed with
code `7` calls `tevent_req_error` on the iterator request `0` with code `7`,
and the continuation of the last subrequest of a successful chain calls
`tevent_req_done` on it, but neither calls `tevent_req_post` on the iterator
request (nor on any request). -/
theorem continuation_does_not_post :
    (Event.tevent_req_error (some 0) 7 ∈
        trace_of (transfer_file_done (env_of 3 [7]) (call_fn (env_of 3 [7]) 1) (some 1)
          (world_of 1 (sub_req (env_of 3 [7]) 0))) ∧
      Event.tevent_req_post (some 0) ∉
        trace_of (transfer_file_done (env_of 3 [7]) (call_fn (env_of 3 [7]) 1) (some 1)
          (world_of 1 (sub_req (env_of 3 [7]) 0)))) ∧
    (Event.tevent_req_done (some 0) ∈
        trace_of (transfer_file_done (env_of 3 []) (call_fn (env_of 3 []) 1) (some 1)
          (world_of 3 (sub_req (env_of 3 []) 2))) ∧
      Event.tevent_req_post (some 0) ∉
        trace_of (transfer_file_done (env_of 3 []) (call_fn (env_of 3 []) 1) (some 1)
          (world_of 3 (sub_req (env_of 3 []) 2)))) := by
  rw [trace_of_failed_leaf, trace_of_last_leaf]
  decide

/-- C13, amended: when the continuation `transfer_file_done` runs on a
subrequest `s` of the iterator `it` (in progress, with `caller_done`
registered) and does not issue a further operation, it finishes the iterator
and the registered callback `caller_done` runs at once, inside that call,
observing the status; the continuation calls `tevent_req_post` on no request.
If the subrequest failed with status `ret`, the call is
`tevent_req_error(it, ret)`, the iterator ends as `TEVENT_REQ_USER_ERROR` with
code `ret` and `transfer_file_next` is not called; if the subrequest succeeded
and the counter is at the maximum, the call is `tevent_req_done(it)` and the
iterator ends as `TEVENT_REQ_DONE`; if the subrequest succeeded and the next
subrequest cannot be created, the call is `tevent_req_error(it, ENOMEM)`. -/
theorem continuation_finishes_without_post (env : Env) (d s it : Nat) (w : World)
    (S I : tevent_req) (c : curl_execute_state) (st : transfer_file_state)
    (hS : w.heap s = some S) (hSf : S.freed = false)
    (hSfn : S.fn = some (.transfer_file_done (some it))) (hSd : S.data = .curl c)
    (hI : w.heap it = some I) (hIf : I.freed = false) (hIfn : I.fn = some .caller_done)
    (hId : I.data = .transfer st) (hIp : I.parent ≠ some s) (hne : s ≠ it)
    (hterm : recv_status S ≠ 0 ∨ st.num_iter = env.maximum ∨ env.alloc w.nalloc = false) :
    ∃ w' es I', transfer_file_done env (call_fn env (d + 1)) (some s) w = .ok w' ∧
      w'.trace = w.trace ++ es ∧ posts es = [] ∧
      w'.heap it = some I' ∧ terminal I'.state = true ∧
      (recv_status S ≠ 0 →
        [Event.tevent_req_error (some it) (uint64_of_int (recv_status S)),
          Event.callback it .caller_done] <:+: es ∧
        I'.state = TEVENT_REQ_USER_ERROR ∧ I'.error = uint64_of_int (recv_status S) ∧
        Event.enter .transfer_file_next ∉ es ∧ reported es = [recv_status S]) ∧
      (recv_status S = 0 → st.num_iter = env.maximum →
        [Event.tevent_req_done (some it), Event.callback it .caller_done] <:+: es ∧
        I'.state = TEVENT_REQ_DONE ∧ reported es = [0]) ∧
      (recv_status S = 0 → st.num_iter ≠ env.maximum →
        [Event.tevent_req_error (some it) (uint64_of_int ENOMEM),
          Event.callback it .caller_done] <:+: es ∧
        I'.state = TEVENT_REQ_USER_ERROR ∧ I'.error = uint64_of_int ENOMEM ∧
        reported es = [ENOMEM]) := by
  by_cases hret : recv_status S = 0
  · by_cases hmax : st.num_iter = env.maximum
    · obtain ⟨q, hq⟩ := transfer_file_done_finished_general env d s it w S I c st hS hSf hSfn hSd
        hI hIf hIfn hId hIp hne hret hmax
      refine ⟨_, consume_events s 0 ++
          [.enter .transfer_file_next, .leave .transfer_file_next (.int 0),
            .tevent_req_done (some it), .callback it .caller_done] ++
          caller_done_events it 0 ++ [.leave .transfer_file_done .void],
        { finished (seen I st c.res) with freed := true }, hq, ?_, ?_, ?_, rfl, ?_, ?_, ?_⟩
      · simp only [List.append_assoc]
      · simp only [posts_append, posts_caller_done_events]
        simp [posts, posted_of, consume_events]
      · simp [release, released_with, Function.update_apply]
      · intro h; exact absurd hret h
      · intro _ _
        refine ⟨⟨consume_events s 0 ++
            [.enter .transfer_file_next, .leave .transfer_file_next (.int 0)],
          caller_done_events it 0 ++ [.leave .transfer_file_done .void], by simp⟩, rfl, ?_⟩
        simp only [reported_append, (obs_caller_done_events it 0).2.1,
          (obs_consume_events s 0).2.1]
        simp [reported, reported_of]
      · intro _ h; exact absurd hmax h
    · have ha : env.alloc w.nalloc = false := by
        rcases hterm with h | h | h
        · exact absurd hret h
        · exact absurd h hmax
        · exact h
      obtain ⟨q, hq⟩ := transfer_file_done_nomem_general env d s it w S I c st hS hSf hSfn hSd
        hI hIf hIfn hId hIp hne hret hmax ha
      refine ⟨_, consume_events s 0 ++
          [.enter .transfer_file_next, .printf (.sending st.num_iter st.url),
            .enter .curl_execute_send, .tevent_req_create .curl_execute_state none,
            .printf .create_failed, .leave .curl_execute_send (.ptr none),
            .leave .transfer_file_next (.int ENOMEM),
            .tevent_req_error (some it) (uint64_of_int ENOMEM), .callback it .caller_done] ++
          caller_done_events it ENOMEM ++ [.leave .transfer_file_done .void],
        { failed (seen I st c.res) (uint64_of_int ENOMEM) with freed := true }, hq, ?_, ?_, ?_,
        rfl, ?_, ?_, ?_⟩
      · simp only [List.append_assoc]
      · simp only [posts_append, posts_caller_done_events]
        simp [posts, posted_of, consume_events]
      · simp [release, released_with, Function.update_apply]
      · intro h; exact absurd hret h
      · intro _ h; exact absurd h hmax
      · intro _ _
        refine ⟨⟨consume_events s 0 ++
            [.enter .transfer_file_next, .printf (.sending st.num_iter st.url),
              .enter .curl_execute_send, .tevent_req_create .curl_execute_state none,
              .printf .create_failed, .leave .curl_execute_send (.ptr none),
              .leave .transfer_file_next (.int ENOMEM)],
          caller_done_events it ENOMEM ++ [.leave .transfer_file_done .void], by simp⟩,
          rfl, rfl, ?_⟩
        simp only [reported_append, (obs_caller_done_events it ENOMEM).2.1,
          (obs_consume_events s 0).2.1]
        simp [reported, reported_of]
  · obtain ⟨q, hq⟩ := transfer_file_done_failed_general env d s it w S I c st hS hSf hSfn hSd hI
      hIf hIfn hId hIp hne hret
    refine ⟨_, consume_events s (recv_status S) ++
        [.tevent_req_error (some it) (uint64_of_int (recv_status S)),
          .callback it .caller_done] ++
        caller_done_events it (recv_status S) ++ [.leave .transfer_file_done .void],
      { failed (seen I st c.res) (uint64_of_int (recv_status S)) with freed := true }, hq, ?_, ?_,
      ?_, rfl, ?_, ?_, ?_⟩
    · simp only [List.append_assoc]
    · simp only [posts_append, posts_caller_done_events]
      simp [posts, posted_of, consume_events]
    · simp [release, released_with, Function.update_apply]
    · intro _
      refine ⟨⟨consume_events s (recv_status S),
        caller_done_events it (recv_status S) ++ [.leave .transfer_file_done .void], by simp⟩,
        rfl, rfl, ?_, ?_⟩
      · unfold caller_done_events report_events consume_events
        split_ifs <;> simp
      · simp only [reported_append, (obs_caller_done_events it (recv_status S)).2.1,
          (obs_consume_events s (recv_status S)).2.1]
        simp [reported, reported_of]
    · intro h; exact absurd h hret
    · intro h; exact absurd h hret

/-- Witness of the amended C13 at the continuation of a subrequest that failed
with code `7`. -/
theorem continuation_finishes_without_post_witness :
    ∃ w' es I',
      transfer_file_done (env_of 3 [7]) (call_fn (env_of 3 [7]) (0 + 1)) (some 1)
        (world_of 1 (sub_req (env_of 3 [7]) 0)) = .ok w' ∧
      w'.trace = (world_of 1 (sub_req (env_of 3 [7]) 0)).trace ++ es ∧ posts es = [] ∧
      w'.heap 0 = some I' ∧ terminal I'.state = true ∧
      (recv_status (sub_req (env_of 3 [7]) 0) ≠ 0 →
        [Event.tevent_req_error (some 0) (uint64_of_int (recv_status (sub_req (env_of 3 [7]) 0))),
          Event.callback 0 .caller_done] <:+: es ∧
        I'.state = TEVENT_REQ_USER_ERROR ∧
        I'.error = uint64_of_int (recv_status (sub_req (env_of 3 [7]) 0)) ∧
        Event.enter .transfer_file_next ∉ es ∧
        reported es = [recv_status (sub_req (env_of 3 [7]) 0)]) ∧
      (recv_status (sub_req (env_of 3 [7]) 0) = 0 →
        ({ ev := 0, num_iter := 1, res := 0, url := 1 } : transfer_file_state).num_iter =
          (env_of 3 [7]).maximum →
        [Event.tevent_req_done (some 0), Event.callback 0 .caller_done] <:+: es ∧
        I'.state = TEVENT_REQ_DONE ∧ reported es = [0]) ∧
      (recv_status (sub_req (env_of 3 [7]) 0) = 0 →
        ({ ev := 0, num_iter := 1, res := 0, url := 1 } : transfer_file_state).num_iter ≠
          (env_of 3 [7]).maximum →
        [Event.tevent_req_error (some 0) (uint64_of_int ENOMEM),
          Event.callback 0 .caller_done] <:+: es ∧
        I'.state = TEVENT_REQ_USER_ERROR ∧ I'.error = uint64_of_int ENOMEM ∧
        reported es = [ENOMEM]) :=
  continuation_finishes_without_post (env_of 3 [7]) 0 1 0 (world_of 1 (sub_req (env_of 3 [7]) 0))
    (sub_req (env_of 3 [7]) 0) (iter_req 1 0) { res := 7 }
    { ev := 0, num_iter := 1, res := 0, url := 1 }
    rfl rfl rfl rfl rfl rfl rfl rfl (by decide) (by decide) (Or.inl (by decide))

/-! ## The call stack of a run -/

theorem guarded_append {σ : Type} (step : σ → Event → σ) (ok : σ → Event → Prop) (s : σ)
    (a b : List Event) :
    Guarded step ok s (a ++ b) ↔ Guarded step ok s a ∧ Guarded step ok (a.foldl step s) b := by
  induction a generalizing s with
  | nil => simp [Guarded]
  | cons e es ih => simp [Guarded, ih, and_assoc]

theorem guarded_spec {σ : Type} (step : σ → Event → σ) (ok : σ → Event → Prop) (s : σ)
    (t : List Event) (h : Guarded step ok s t) :
    ∀ p e, p ++ [e] <+: t → ok (p.foldl step s) e := by
  induction t generalizing s with
  | nil =>
    intro p e hp
    have := List.eq_nil_of_prefix_nil hp
    simp at this
  | cons x xs ih =>
    intro p e hp
    obtain ⟨hx, hxs⟩ := h
    cases p with
    | nil =>
      have hh : x = e := by
        obtain ⟨r, hr⟩ := hp
        simp at hr
        exact hr.1.symm
      simpa [hh] using hx
    | cons y ys =>
      have hp2 : y = x ∧ ys ++ [e] <+: xs := by
        obtain ⟨r, hr⟩ := hp
        simp at hr
        exact ⟨hr.1, ⟨r, by simpa using hr.2⟩⟩
      obtain ⟨rfl, hp3⟩ := hp2
      simpa using ih (step s y) hxs ys e hp3

theorem stack_report_events (s : List Fn) (ret : Int) (hl : s.length ≤ 4) :
    Guarded active_step dispatched s (report_events ret) ∧
    (report_events ret).foldl active_step s = s := by
  unfold report_events
  split_ifs <;> simp [Guarded, dispatched, active_step, hl]

theorem stack_caller_done_events (s : List Fn) (it : Nat) (ret : Int) (hl : s.length ≤ 2)
    (hs : ∀ f, f ∈ s → f = .transfer_file_done) :
    Guarded active_step dispatched s (caller_done_events it ret) ∧
    (caller_done_events it ret).foldl active_step s = s := by
  obtain ⟨h1, h2⟩ := stack_report_events (.caller_done :: s) ret (by simp; omega)
  have h3 : List.foldl active_step s
      [.enter .caller_done, .enter .transfer_file_recv, .leave .transfer_file_recv (.int ret),
        .talloc_free (some it)] = .caller_done :: s := by
    simp [active_step]
  refine ⟨?_, ?_⟩
  · rw [caller_done_events, guarded_append, guarded_append, List.foldl_append, h3, h2]
    refine ⟨⟨?_, h1⟩, ?_⟩
    · simp [Guarded, dispatched, active_step]
      refine ⟨⟨by omega, hs⟩, by omega, by omega, by omega⟩
    · simp [Guarded, dispatched, active_step]
      omega
  · rw [caller_done_events, List.foldl_append, List.foldl_append, h3, h2]
    simp [active_step]

theorem stack_consume_events (s : Nat) (ret : Int) :
    Guarded active_step dispatched [] (consume_events s ret) ∧
    (consume_events s ret).foldl active_step [] = [.transfer_file_done] := by
  simp [consume_events, Guarded, dispatched, active_step]

theorem stack_issue_events (s : List Fn) (it r n url k res : Nat) (hl : s.length ≤ 2) :
    Guarded active_step dispatched s (issue_events it r n url k res) ∧
    (issue_events it r n url k res).foldl active_step s = s := by
  unfold issue_events leaf_events
  split_ifs <;> simp [Guarded, dispatched, active_step] <;> omega

theorem stack_finish_events (env : Env) (n : Nat) :
    Guarded active_step dispatched [.transfer_file_done] (finish_events env n) ∧
    (finish_events env n).foldl active_step [.transfer_file_done] = [.transfer_file_done] := by
  unfold finish_events
  split_ifs <;> simp [Guarded, dispatched, active_step]

theorem stack_dispatch_more (env : Env) (n : Nat) (h : continues env n = true) :
    Guarded active_step dispatched [] (dispatch_events env n) ∧
    (dispatch_events env n).foldl active_step [] = [] := by
  obtain ⟨a1, a2⟩ := stack_consume_events n 0
  obtain ⟨b1, b2⟩ := stack_issue_events [.transfer_file_done] 0 (n + 1) n 1 n (env.perform n)
    (by simp)
  have e : active_step [] (.callback n (.transfer_file_done (some 0))) = [] := rfl
  rw [dispatch_events_of_continues env n h]
  refine ⟨?_, ?_⟩
  · refine ⟨by simp [dispatched], ?_⟩
    rw [e, guarded_append, guarded_append, List.foldl_append, a2, b2]
    exact ⟨⟨a1, b1⟩, by simp [dispatched], trivial⟩
  · rw [List.foldl_cons, e, List.foldl_append, List.foldl_append, a2, b2]
    rfl

theorem stack_dispatch_stop (env : Env) (n : Nat) (h : continues env n = false) :
    Guarded active_step dispatched [] (dispatch_events env n) ∧
    (dispatch_events env n).foldl active_step [] = [] := by
  obtain ⟨a1, a2⟩ := stack_consume_events n (leaf_status env (n - 1))
  obtain ⟨b1, b2⟩ := stack_finish_events env n
  obtain ⟨c1, c2⟩ := stack_caller_done_events [.transfer_file_done] 0 (final_status env n)
    (by simp) (by simp)
  have e : active_step [] (.callback n (.transfer_file_done (some 0))) = [] := rfl
  have e2 : active_step [.transfer_file_done] (.callback 0 .caller_done) =
      [.transfer_file_done] := rfl
  rw [dispatch_events_of_stop env n h]
  refine ⟨?_, ?_⟩
  · refine ⟨by simp [dispatched], ?_⟩
    rw [e, guarded_append, guarded_append, List.foldl_append, a2, b2]
    refine ⟨⟨a1, b1⟩, by simp [dispatched], ?_⟩
    rw [e2, guarded_append, c2]
    exact ⟨c1, by simp [dispatched], trivial⟩
  · rw [List.foldl_cons, e, List.foldl_append, List.foldl_append, a2, b2, List.foldl_cons, e2,
      List.foldl_append, c2]
    rfl

theorem stack_tail_events (env : Env) (k n : Nat) (hk : n + k = env.maximum) :
    Guarded active_step dispatched [] (tail_events env k n) ∧
    (tail_events env k n).foldl active_step [] = [] := by
  refine tail_events_induction env
    (fun _ _ t => Guarded active_step dispatched [] t ∧ t.foldl active_step [] = []) ?_ ?_ k n hk
  · intro n h
    exact stack_dispatch_stop env n h
  · intro n N t h _ ih
    obtain ⟨h1, h2⟩ := stack_dispatch_more env n h
    obtain ⟨i1, i2⟩ := ih
    rw [guarded_append, List.foldl_append, h2]
    exact ⟨⟨h1, i1⟩, i2⟩

/-- The call stack along a whole run: the condition `dispatched` holds in
front of every operation, and no function is active at the end. -/
theorem stack_run_events (env : Env) :
    Guarded active_step dispatched [] (run_events env) ∧ active (run_events env) = [] := by
  unfold active
  by_cases hm : env.maximum = 0
  · obtain ⟨c1, c2⟩ := stack_caller_done_events [] 0 0 (by simp) (by simp)
    have e : List.foldl active_step [] start_events_zero = [] := by
      simp [start_events_zero, active_step]
    have e2 : List.foldl active_step []
        [.tevent_loop_wait, .callback 0 .caller_done] = [] := rfl
    simp only [run_events, hm, if_true, guarded_append, List.foldl_append, e, e2, c2]
    refine ⟨⟨⟨?_, ?_⟩, c1⟩, trivial⟩
    · simp [start_events_zero, Guarded, dispatched, active_step]
    · simp [Guarded, dispatched, active_step]
  · cases h1 : env.alloc 1
    · obtain ⟨c1, c2⟩ := stack_caller_done_events [] 0 ENOMEM (by simp) (by simp)
      have e : List.foldl active_step [] start_events_nomem = [] := by
        simp [start_events_nomem, active_step]
      have e2 : List.foldl active_step []
          [.tevent_loop_wait, .callback 0 .caller_done] = [] := rfl
      simp only [run_events, hm, h1, if_false, Bool.false_eq_true, guarded_append,
        List.foldl_append, e, e2, c2]
      refine ⟨⟨⟨?_, ?_⟩, c1⟩, trivial⟩
      · simp [start_events_nomem, Guarded, dispatched, active_step]
      · simp [Guarded, dispatched, active_step]
    · obtain ⟨t1, t2⟩ := stack_tail_events env (env.maximum - 1) 1 (by omega)
      obtain ⟨b1, b2⟩ := stack_issue_events [.transfer_file_send, .caller] 0 1 0 1 0
        (env.perform 0) (by simp)
      have e0 : List.foldl active_step []
          [.enter .caller, .enter .transfer_file_send,
            .tevent_req_create .transfer_file_state (some 0)] =
          [.transfer_file_send, .caller] := rfl
      have e1 : List.foldl active_step [.transfer_file_send, .caller]
          [.leave .transfer_file_send (.ptr (some 0)),
            .tevent_req_set_callback (some 0) .caller_done, .leave .caller (.int 0)] = [] := rfl
      have e2 : List.foldl active_step [] [.tevent_loop_wait] = [] := rfl
      simp only [run_events, hm, h1, if_false, if_true, start_events, guarded_append,
        List.foldl_append, e0, b2, e1, e2, t2]
      refine ⟨⟨⟨⟨⟨?_, b1⟩, ?_⟩, ?_⟩, t1⟩, trivial⟩
      · simp [Guarded, dispatched, active_step]
      · simp [Guarded, dispatched, active_step]
      · simp [Guarded, dispatched]

/-- C14: for every sequence of external results (and of subrequest
allocations) and every maximum, in the run of `main` with two callback frames
the continuation `transfer_file_done` is invoked and entered only while no
function of the program is active, that is from the dispatch of the event
loop and never while `curl_execute_send`, `transfer_file_next`,
`transfer_file_send` or `caller` is active; `caller_done` is invoked and
entered only while no function other than `transfer_file_done` is active, so
never inside `transfer_file_send`, `caller` or a callback registration; and at
every point of the run at most four functions of the program are nested,
whatever the maximum. -/
theorem continuations_enter_from_the_loop (env : Env) (stack fuel : Nat) (hstack : 2 ≤ stack)
    (hfuel : env.maximum < fuel) (hev : env.ev_ok = true) (hmctx : env.mctx_ok = true)
    (h0 : env.alloc 0 = true) :
    ∃ w, main env stack fuel = .ok (0, w) ∧
      (∀ p i q, p ++ [.callback i (.transfer_file_done q)] <+: w.trace → active p = []) ∧
      (∀ p, p ++ [.enter .transfer_file_done] <+: w.trace → active p = []) ∧
      (∀ p i, p ++ [.callback i .caller_done] <+: w.trace →
        ∀ f, f ∈ active p → f = .transfer_file_done) ∧
      (∀ p, p ++ [.enter .caller_done] <+: w.trace →
        ∀ f, f ∈ active p → f = .transfer_file_done) ∧
      (∀ p, p <+: w.trace → (active p).length ≤ 4) := by
  obtain ⟨w, hmain, ht, -, -⟩ := main_run env stack fuel hstack hfuel hev hmctx h0
  obtain ⟨hG, hA⟩ := stack_run_events env
  have hspec := guarded_spec active_step dispatched [] (run_events env) hG
  refine ⟨w, hmain, ?_, ?_, ?_, ?_, ?_⟩
  · intro p i q hp
    rw [ht] at hp
    exact (hspec p _ hp).2
  · intro p hp
    rw [ht] at hp
    exact (hspec p _ hp).2
  · intro p i hp
    rw [ht] at hp
    exact (hspec p _ hp).2
  · intro p hp
    rw [ht] at hp
    exact (hspec p _ hp).2
  · intro p hp
    rw [ht] at hp
    by_cases hpt : p = run_events env
    · rw [hpt, hA]
      simp
    · obtain ⟨e, he⟩ := proper_prefix_extends p _ hp hpt
      exact (hspec p e he).1

/-- Witness of C14 at the program's maximum `3` with three successful calls:
the last continuation runs `caller_done` inside `transfer_file_done`. -/
theorem continuations_enter_from_the_loop_witness :
    ∃ w, main (env_of 3 []) 2 4 = .ok (0, w) ∧
      (∀ p i q, p ++ [.callback i (.transfer_file_done q)] <+: w.trace → active p = []) ∧
      (∀ p, p ++ [.enter .transfer_file_done] <+: w.trace → active p = []) ∧
      (∀ p i, p ++ [.callback i .caller_done] <+: w.trace →
        ∀ f, f ∈ active p → f = .transfer_file_done) ∧
      (∀ p, p ++ [.enter .caller_done] <+: w.trace →
        ∀ f, f ∈ active p → f = .transfer_file_done) ∧
      (∀ p, p <+: w.trace → (active p).length ≤ 4) :=
  continuations_enter_from_the_loop (env_of 3 []) 2 4 (by decide) (by decide) rfl rfl rfl

/-! ## Subrequests that cannot be created -/

theorem run_facts_of_nomem (env : Env) (K : Nat) (hKm : K < env.maximum)
    (hok : ∀ i, i < K → env.perform i = CURLE_OK)
    (halloc : ∀ i, i ≤ K → env.alloc i = true) (hfail : env.alloc (K + 1) = false) :
    issued env = K ∧ attempted env = K + 1 ∧ run_status env = ENOMEM ∧
    (run_iter env).state = TEVENT_REQ_USER_ERROR ∧
    (run_iter env).error = uint64_of_int ENOMEM ∧
    ∃ st, (run_iter env).data = .transfer st ∧ st.num_iter = K := by
  have hm : env.maximum ≠ 0 := by omega
  by_cases hK : K = 0
  · subst hK
    have h1 : env.alloc 1 = false := hfail
    simp [issued, attempted, run_status, run_iter, hm, h1, failed, iter_req]
  · have h1 : env.alloc 1 = true := halloc 1 (by omega)
    have hl : leaf_status env (K - 1) = 0 := leaf_status_of_ok env _ (hok _ (by omega))
    have hstop : continues env K = false := by simp [continues, hfail]
    have hne : ¬ K = env.maximum := by omega
    have hs : stop_index env (env.maximum - 1) 1 = K :=
      stop_index_eq env K (env.maximum - 1) 1
        (fun i hi hlt => continues_of_ok env i (by omega)
          (hok _ (by omega)) (halloc _ (by omega)))
        hstop (by omega) (by omega)
    simp [issued, attempted, run_status, run_iter, hm, h1, hs, failed_attempt, final_status,
      final_iter, hl, hne, failed, iter_req]

/-- C15: when `curl_execute_send` yields no request because the subrequest
cannot be created, `transfer_file_next` returns `ENOMEM` and leaves every
request as it was (no callback registered, counter not incremented).  In the
run of `main` in which `K` operations are issued and succeed and the
subrequest of the next one cannot be created (`K = 0`: the first advance,
inside `transfer_file_send`; `K ≥ 1`: a later advance, inside
`transfer_file_done`), `transfer_file_next` returns `ENOMEM`, the iterator
request ends in state `TEVENT_REQ_USER_ERROR` with error code `ENOMEM` and
counter `K`, `caller_done` observes `ENOMEM`, no callback is registered for
the failed attempt, and nothing further is attempted: `K + 1` calls of
`curl_execute_send`, `K` external calls, `K` subrequests. -/
theorem start_failure_ends_with_enomem (env : Env) (stack fuel K : Nat) (hstack : 2 ≤ stack)
    (hfuel : env.maximum < fuel) (hev : env.ev_ok = true) (hmctx : env.mctx_ok = true)
    (hKm : K < env.maximum) (hok : ∀ i, i < K → env.perform i = CURLE_OK)
    (halloc : ∀ i, i ≤ K → env.alloc i = true) (hfail : env.alloc (K + 1) = false) :
    (∀ (call : Call) (it : Nat) (w0 : World) (I : tevent_req) (st : transfer_file_state),
      w0.heap it = some I → I.freed = false → I.data = .transfer st →
      st.num_iter ≠ env.maximum → env.alloc w0.nalloc = false →
      ∃ w1, transfer_file_next env call (some it) w0 = .ok (ENOMEM, w1) ∧
        w1.heap = w0.heap ∧ w1.next = w0.next ∧ w1.queue = w0.queue ∧
        w1.ncurl = w0.ncurl) ∧
    ∃ w r st, main env stack fuel = .ok (0, w) ∧
      Event.leave .transfer_file_next (.int ENOMEM) ∈ w.trace ∧
      w.heap 0 = some r ∧ r.state = TEVENT_REQ_USER_ERROR ∧
      r.error = uint64_of_int ENOMEM ∧ r.data = .transfer st ∧ st.num_iter = K ∧
      reported w.trace = [ENOMEM] ∧ verdicts w.trace = [.transfer_failure] ∧
      registered (K + 1) w.trace = [] ∧
      sends w.trace = K + 1 ∧ counters w.trace = List.range (K + 1) ∧
      performed w.trace = (List.range K).map (fun i => (i, env.perform i)) ∧
      created w.trace = List.range (K + 1) := by
  refine ⟨?_, ?_⟩
  · intro call it w0 I st hI hf hd hmax ha
    exact ⟨_, transfer_file_next_nomem env call it w0 I st hI hf hd hmax ha, rfl, rfl, rfl, rfl⟩
  · obtain ⟨w, hmain, ht, hI, -⟩ :=
      main_run env stack fuel hstack hfuel hev hmctx (halloc 0 (Nat.zero_le _))
    obtain ⟨f1, f2, f3, f4, f5, st, f6, f7⟩ := run_facts_of_nomem env K hKm hok halloc hfail
    obtain ⟨o1, o2, o3, o4⟩ := obs_run_events env
    obtain ⟨c1, c2, -⟩ := cb_run_events env (K + 1)
    have hm : env.maximum ≠ 0 := by omega
    refine ⟨w, run_iter env, st, hmain, ?_, hI, f4, f5, f6, f7, ?_, ?_, ?_, ?_, ?_, ?_, ?_⟩
    · rw [ht]
      by_cases hK : K = 0
      · subst hK
        have h1 : env.alloc 1 = false := hfail
        simp [run_events, hm, h1, start_events_nomem]
      · have h1 : env.alloc 1 = true := halloc 1 (by omega)
        have hstop : continues env K = false := by simp [continues, hfail]
        have hl : leaf_status env (K - 1) = 0 := leaf_status_of_ok env _ (hok _ (by omega))
        have hne : ¬ K = env.maximum := by omega
        have hs : stop_index env (env.maximum - 1) 1 = K :=
          stop_index_eq env K (env.maximum - 1) 1
            (fun i hi hlt => continues_of_ok env i (by omega)
              (hok _ (by omega)) (halloc _ (by omega)))
            hstop (by omega) (by omega)
        have hmem : Event.leave .transfer_file_next (.int ENOMEM) ∈ dispatch_events env K := by
          simp [dispatch_events, hl, hne, hfail]
        have htail : ∀ k n, n ≤ K → K ≤ n + k → (∀ i, n ≤ i → i < K → continues env i = true) →
            Event.leave .transfer_file_next (.int ENOMEM) ∈ tail_events env k n := by
          intro k
          induction k with
          | zero =>
            intro n h1 h2 _
            have e : n = K := by omega
            subst e
            simpa [tail_events] using hmem
          | succ k ih =>
            intro n h1 h2 hc
            by_cases hn : n = K
            · subst hn
              rw [tail_events_of_stop env _ n hstop]
              exact hmem
            · have hcn := hc n (le_refl n) (by omega)
              simp only [tail_events, hcn, if_true, List.mem_append]
              exact Or.inr (ih (n + 1) (by omega) (by omega)
                (fun i hi hiK => hc i (by omega) hiK))
        simp only [run_events, hm, h1, if_true, if_false, List.mem_append]
        exact Or.inr (htail (env.maximum - 1) 1 (by omega) (by omega)
          (fun i hi hlt => continues_of_ok env i (by omega)
            (hok _ (by omega)) (halloc _ (by omega))))
    · rw [ht, o2, f3]
    · rw [ht, verdicts_run_events, f3]
      simp [verdict]
      decide
    · rw [ht, c2]
      simp [callback_of, f1]
    · rw [ht, o4, f2]
    · rw [ht, o3, f2]
    · rw [ht, o1, f1]
    · rw [ht, c1, f1]

/-- Witness of C15 at the program's maximum `3`: the first operation succeeds
and the subrequest of the second cannot be created. -/
theorem start_failure_ends_with_enomem_witness :
    (∀ (call : Call) (it : Nat) (w0 : World) (I : tevent_req) (st : transfer_file_state),
      w0.heap it = some I → I.freed = false → I.data = .transfer st →
      st.num_iter ≠ env_second_create_fails.maximum →
      env_second_create_fails.alloc w0.nalloc = false →
      ∃ w1, transfer_file_next env_second_create_fails call
          (some it) w0 = .ok (ENOMEM, w1) ∧
        w1.heap = w0.heap ∧ w1.next = w0.next ∧ w1.queue = w0.queue ∧
        w1.ncurl = w0.ncurl) ∧
    ∃ w r st, main env_second_create_fails 2 4 = .ok (0, w) ∧
      Event.leave .transfer_file_next (.int ENOMEM) ∈ w.trace ∧
      w.heap 0 = some r ∧ r.state = TEVENT_REQ_USER_ERROR ∧
      r.error = uint64_of_int ENOMEM ∧ r.data = .transfer st ∧ st.num_iter = 1 ∧
      reported w.trace = [ENOMEM] ∧ verdicts w.trace = [.transfer_failure] ∧
      registered (1 + 1) w.trace = [] ∧
      sends w.trace = 1 + 1 ∧ counters w.trace = List.range (1 + 1) ∧
      performed w.trace = (List.range 1).map
        (fun i => (i, env_second_create_fails.perform i)) ∧
      created w.trace = List.range (1 + 1) :=
  start_failure_ends_with_enomem env_second_create_fails 2 4 1
    (by decide) (by decide) rfl rfl (by decide) (fun _ _ => rfl)
    (fun i hi => by
      have h : i = 0 ∨ i = 1 := by omega
      rcases h with h | h <;> subst h <;> rfl)
    rfl

/-! ## The release of subrequests -/

/-- C16: for every outcome of the subrequest `s` (every state and error it may
be in), the continuation `transfer_file_done` releases `s` right after
`curl_execute_recv` (its operations start with the call of
`curl_execute_recv` followed by `talloc_free(s)`), whether the status is zero
or not; the released subrequest keeps its state and error; and the payload of
the parent afterwards holds the outcome read from the subrequest in `res`,
with `url` and `ev` as before.  In every state of a run of `main` at the event
loop in which the iterator is terminal, every other request has been released
and every subrequest created has been released by a `talloc_free` of its
own. -/
theorem continuation_releases_subrequest (env : Env) (stack fuel : Nat) (hstack : 2 ≤ stack)
    (hev : env.ev_ok = true) (hmctx : env.mctx_ok = true) (h0 : env.alloc 0 = true) :
    (∀ (d s it : Nat) (w : World) (S I : tevent_req) (c : curl_execute_state)
      (st : transfer_file_state),
      w.heap s = some S → S.freed = false → S.fn = some (.transfer_file_done (some it)) →
      S.data = .curl c → w.heap it = some I → I.freed = false → I.fn = some .caller_done →
      I.data = .transfer st → I.parent ≠ some s → s ≠ it → w.heap w.next = none →
      ∃ w' es S' I' st', transfer_file_done env (call_fn env (d + 1)) (some s) w = .ok w' ∧
        w'.trace = w.trace ++ es ∧
        [Event.enter .transfer_file_done, .printf .receiving, .enter .curl_execute_recv,
          .leave .curl_execute_recv (.int (recv_status S)), .talloc_free (some s)] <+: es ∧
        w'.heap s = some S' ∧ S'.freed = true ∧ S'.state = S.state ∧ S'.error = S.error ∧
        w'.heap it = some I' ∧ I'.data = .transfer st' ∧
        st'.res = c.res ∧ st'.url = st.url ∧ st'.ev = st.ev) ∧
    (∀ w, w ∈ run_states env stack fuel → ∀ I, w.heap 0 = some I → terminal I.state = true →
      (∀ i r, i ≠ 0 → w.heap i = some r → r.freed = true) ∧
      (ledger w.trace).live = [] ∧ (ledger w.trace).released = (ledger w.trace).created) := by
  refine ⟨?_, ?_⟩
  · intro d s it w S I c st hS hSf hSfn hSd hI hIf hIfn hId hIp hne hfresh
    have hne2 : it ≠ s := fun h => hne h.symm
    by_cases hret : recv_status S = 0
    · by_cases hmax : st.num_iter = env.maximum
      · obtain ⟨q, hq⟩ := transfer_file_done_finished_general env d s it w S I c st hS hSf hSfn
          hSd hI hIf hIfn hId hIp hne hret hmax
        refine ⟨_, consume_events s 0 ++
            ([.enter .transfer_file_next, .leave .transfer_file_next (.int 0),
              .tevent_req_done (some it), .callback it .caller_done] ++
            caller_done_events it 0 ++ [.leave .transfer_file_done .void]),
          { S with freed := true },
          { finished (seen I st c.res) with freed := true }, { st with res := c.res }, hq, ?_,
          ?_, ?_, rfl, rfl, rfl, ?_, ?_, rfl, rfl, rfl⟩
        · simp only [List.append_assoc]
        · rw [hret]
          exact ⟨_, rfl⟩
        · simp [release, released_with, Function.update_apply, hne, hS]
        · simp [release, released_with, Function.update_apply]
        · simp [finished, seen]
      · cases ha : env.alloc w.nalloc
        · obtain ⟨q, hq⟩ := transfer_file_done_nomem_general env d s it w S I c st hS hSf hSfn
            hSd hI hIf hIfn hId hIp hne hret hmax ha
          refine ⟨_, consume_events s 0 ++
              ([.enter .transfer_file_next, .printf (.sending st.num_iter st.url),
                .enter .curl_execute_send, .tevent_req_create .curl_execute_state none,
                .printf .create_failed, .leave .curl_execute_send (.ptr none),
                .leave .transfer_file_next (.int ENOMEM),
                .tevent_req_error (some it) (uint64_of_int ENOMEM), .callback it .caller_done] ++
              caller_done_events it ENOMEM ++ [.leave .transfer_file_done .void]),
            { S with freed := true },
            { failed (seen I st c.res) (uint64_of_int ENOMEM) with freed := true },
            { st with res := c.res }, hq, ?_, ?_, ?_, rfl, rfl, rfl, ?_, ?_, rfl, rfl, rfl⟩
          · simp only [List.append_assoc]
          · rw [hret]
            exact ⟨_, rfl⟩
          · simp [release, released_with, Function.update_apply, hne, hS]
          · simp [release, released_with, Function.update_apply]
          · simp [failed, seen]
        · have hn1 : it ≠ w.next := by
            intro h
            rw [← h, hI] at hfresh
            cases hfresh
          have hn2 : s ≠ w.next := by
            intro h
            rw [← h, hS] at hfresh
            cases hfresh
          obtain ⟨q, hq⟩ := transfer_file_done_more_general env d s it w S I c st hS hSf hSfn
            hSd hI hIf hIfn hId hIp hne hret hmax ha hn1
          refine ⟨_, consume_events s 0 ++
              (issue_events it w.next st.num_iter st.url w.ncurl (env.perform w.ncurl) ++
              [.leave .transfer_file_done .void]),
            { S with freed := true },
            { I with data := .transfer { st with res := c.res, num_iter := st.num_iter + 1 } },
            { st with res := c.res, num_iter := st.num_iter + 1 }, hq, ?_,
            ?_, ?_, rfl, rfl, rfl, ?_, rfl, rfl, rfl, rfl⟩
          · simp only [List.append_assoc]
          · rw [hret]
            exact ⟨_, rfl⟩
          · simp [release, released_with, Function.update_apply, hne, hn2, hS]
          · simp [Function.update_apply]
    · obtain ⟨q, hq⟩ := transfer_file_done_failed_general env d s it w S I c st hS hSf hSfn hSd
        hI hIf hIfn hId hIp hne hret
      refine ⟨_, consume_events s (recv_status S) ++
          ([.tevent_req_error (some it) (uint64_of_int (recv_status S)),
            .callback it .caller_done] ++
          caller_done_events it (recv_status S) ++ [.leave .transfer_file_done .void]),
        { S with freed := true },
        { failed (seen I st c.res) (uint64_of_int (recv_status S)) with freed := true },
        { st with res := c.res }, hq, ?_, ?_, ?_, rfl, rfl, rfl, ?_, ?_, rfl, rfl, rfl⟩
      · simp only [List.append_assoc]
      · exact ⟨_, rfl⟩
      · simp [release, released_with, Function.update_apply, hne, hS]
      · simp [release, released_with, Function.update_apply]
      · simp [failed, seen]
  · intro w hw I hI hterm
    cases run_states_at_loop env stack fuel hstack hev hmctx h0 w hw with
    | progress n h =>
      obtain ⟨res, hI2⟩ := h.async.iter
      rw [hI2] at hI
      injection hI with e
      subst e
      simp [terminal, iter_req] at hterm
    | stopped n h =>
      obtain ⟨-, -, o3⟩ := obs_head_events_stop env n h.pos h.went h.stop
      refine ⟨?_, ?_, ?_⟩
      · intro i r hi hr
        by_cases hin : i ≤ n
        · rw [h.dead i (by omega) hin] at hr
          injection hr with e
          subst e
          rfl
        · rw [h.fresh i (by omega)] at hr
          cases hr
      · rw [h.trace, o3]; rfl
      · rw [h.trace, o3]; rfl
    | immediate b h =>
      refine ⟨?_, ?_, ?_⟩
      · intro i r hi hr
        rw [h.fresh i (by omega)] at hr
        cases hr
      · rw [h.trace, ledger_immediate]; rfl
      · rw [h.trace, ledger_immediate]; rfl

/-- Witness of C16 at the program's maximum `3` with a failing second call. -/
theorem continuation_releases_subrequest_witness :
    (∀ (d s it : Nat) (w : World) (S I : tevent_req) (c : curl_execute_state)
      (st : transfer_file_state),
      w.heap s = some S → S.freed = false → S.fn = some (.transfer_file_done (some it)) →
      S.data = .curl c → w.heap it = some I → I.freed = false → I.fn = some .caller_done →
      I.data = .transfer st → I.parent ≠ some s → s ≠ it → w.heap w.next = none →
      ∃ w' es S' I' st',
        transfer_file_done (env_of 3 [0, 7]) (call_fn (env_of 3 [0, 7]) (d + 1)) (some s) w =
          .ok w' ∧
        w'.trace = w.trace ++ es ∧
        [Event.enter .transfer_file_done, .printf .receiving, .enter .curl_execute_recv,
          .leave .curl_execute_recv (.int (recv_status S)), .talloc_free (some s)] <+: es ∧
        w'.heap s = some S' ∧ S'.freed = true ∧ S'.state = S.state ∧ S'.error = S.error ∧
        w'.heap it = some I' ∧ I'.data = .transfer st' ∧
        st'.res = c.res ∧ st'.url = st.url ∧ st'.ev = st.ev) ∧
    (∀ w, w ∈ run_states (env_of 3 [0, 7]) 2 4 → ∀ I, w.heap 0 = some I →
      terminal I.state = true →
      (∀ i r, i ≠ 0 → w.heap i = some r → r.freed = true) ∧
      (ledger w.trace).live = [] ∧ (ledger w.trace).released = (ledger w.trace).created) :=
  continuation_releases_subrequest (env_of 3 [0, 7]) 2 4 (by decide) rfl rfl rfl

/-! ## The codes passed to `tevent_req_error` -/

theorem coded_curl (r : Nat) (h0 : r ≠ CURLE_OK) (h : r < 2 ^ 32) :
    uint64_of_CURLcode r ≠ 0 ∧ int_of_uint64 (uint64_of_CURLcode r) ≠ 0 := by
  have h0 : r ≠ 0 := h0
  have e : uint64_of_CURLcode r = r := Nat.mod_eq_of_lt (by omega)
  have e2 : r % 2 ^ 32 = r := Nat.mod_eq_of_lt h
  rw [e]
  refine ⟨h0, ?_⟩
  unfold int_of_uint64
  rw [e2]
  split_ifs <;> omega

theorem coded_int (v : Int) (h0 : v ≠ 0) (hlo : -2 ^ 31 ≤ v) (hhi : v < 2 ^ 31) :
    uint64_of_int v ≠ 0 ∧ int_of_uint64 (uint64_of_int v) ≠ 0 := by
  refine ⟨uint64_of_int_ne_zero v h0 hlo hhi, ?_⟩
  rw [int_of_uint64_of_int v hlo hhi]
  exact h0

theorem leaf_status_range (env : Env) (k : Nat) :
    -2 ^ 31 ≤ leaf_status env k ∧ leaf_status env k < 2 ^ 31 :=
  recv_status_range _

theorem coded_report_events (ret : Int) : ∀ e, e ∈ report_events ret → coded e := by
  unfold report_events
  split_ifs <;> simp [coded]

theorem coded_caller_done_events (it : Nat) (ret : Int) :
    ∀ e, e ∈ caller_done_events it ret → coded e := by
  intro e he
  simp only [caller_done_events, List.mem_append] at he
  rcases he with (he | he) | he
  · simp at he
    rcases he with rfl | rfl | rfl | rfl <;> trivial
  · exact coded_report_events ret e he
  · simp at he
    subst he
    trivial

theorem coded_consume_events (s : Nat) (ret : Int) :
    ∀ e, e ∈ consume_events s ret → coded e := by
  simp [consume_events, coded]

theorem coded_issue_events (it s n url k r : Nat) (hr : r < 2 ^ 32) :
    ∀ e, e ∈ issue_events it s n url k r → coded e := by
  unfold issue_events leaf_events
  split_ifs with h
  · simp [coded]
  · have hc := coded_curl r h hr
    simp [coded, hc]

theorem coded_finish_events (env : Env) (n : Nat) :
    ∀ e, e ∈ finish_events env n → coded e := by
  have hE := coded_int ENOMEM (by decide) (by decide) (by decide)
  unfold finish_events
  split_ifs with h
  · have hr := leaf_status_range env (n - 1)
    have hc := coded_int _ h hr.1 hr.2
    simp [coded, hc]
  · simp [coded]
  · simp [coded, hE]

theorem coded_dispatch_events (env : Env) (n : Nat) (hres : ∀ k, env.perform k < 2 ^ 32) :
    ∀ e, e ∈ dispatch_events env n → coded e := by
  intro e he
  cases h : continues env n
  · rw [dispatch_events_of_stop env n h] at he
    simp only [List.mem_cons, List.mem_append] at he
    rcases he with rfl | (he | he) | rfl | he | he
    · trivial
    · exact coded_consume_events _ _ e he
    · exact coded_finish_events env n e he
    · trivial
    · exact coded_caller_done_events _ _ e he
    · simp at he
      subst he
      trivial
  · rw [dispatch_events_of_continues env n h] at he
    simp only [List.mem_cons, List.mem_append] at he
    rcases he with rfl | (he | he) | he
    · trivial
    · exact coded_consume_events _ _ e he
    · exact coded_issue_events _ _ _ _ _ _ (hres n) e he
    · simp at he
      subst he
      trivial

theorem coded_tail_events (env : Env) (hres : ∀ k, env.perform k < 2 ^ 32) (k n : Nat)
    (hk : n + k = env.maximum) : ∀ e, e ∈ tail_events env k n → coded e := by
  refine tail_events_induction env (fun _ _ t => ∀ e, e ∈ t → coded e) ?_ ?_ k n hk
  · intro n _
    exact coded_dispatch_events env n hres
  · intro n N t _ _ ih e he
    rcases List.mem_append.mp he with he | he
    · exact coded_dispatch_events env n hres e he
    · exact ih e he

/-- Every call of `tevent_req_error` of a whole run passes a code that is not
zero, when the external results fit the 32 bits of a `CURLcode`. -/
theorem coded_run_events (env : Env) (hres : ∀ k, env.perform k < 2 ^ 32) :
    ∀ e, e ∈ run_events env → coded e := by
  intro e he
  by_cases hm : env.maximum = 0
  · simp only [run_events, hm, if_true, List.mem_append] at he
    rcases he with (he | he) | he
    · simp [start_events_zero] at he
      rcases he with rfl | rfl | rfl | rfl | rfl | rfl | rfl | rfl | rfl | rfl <;> trivial
    · simp at he
      rcases he with rfl | rfl <;> trivial
    · exact coded_caller_done_events _ _ e he
  · cases h1 : env.alloc 1
    · simp only [run_events, hm, h1, if_false, Bool.false_eq_true, List.mem_append] at he
      rcases he with (he | he) | he
      · simp [start_events_nomem] at he
        rcases he with rfl | rfl | rfl | rfl | rfl | rfl | rfl | rfl | rfl | rfl | rfl | rfl |
          rfl | rfl | rfl <;> trivial
      · simp at he
        rcases he with rfl | rfl <;> trivial
      · exact coded_caller_done_events _ _ e he
    · simp only [run_events, hm, h1, if_false, if_true, start_events, List.mem_append] at he
      rcases he with (((he | he) | he) | he) | he
      · simp at he
        rcases he with rfl | rfl | rfl <;> trivial
      · exact coded_issue_events _ _ _ _ _ _ (hres 0) e he
      · simp at he
        rcases he with rfl | rfl | rfl <;> trivial
      · simp at he
        subst he
        trivial
      · exact coded_tail_events env hres (env.maximum - 1) 1 (by omega) e he

theorem sub_req_coded (env : Env) (k : Nat) (hres : ∀ k, env.perform k < 2 ^ 32)
    (r : tevent_req) (hr : r = sub_req env k ∨ r = { sub_req env k with freed := true })
    (hs : r.state = TEVENT_REQ_USER_ERROR) : r.error ≠ 0 ∧ int_of_uint64 r.error ≠ 0 := by
  have hstate : r.state = (sub_req env k).state := by rcases hr with rfl | rfl <;> rfl
  have herr : r.error = (sub_req env k).error := by rcases hr with rfl | rfl <;> rfl
  rw [hstate] at hs
  rw [herr]
  by_cases h0 : env.perform k = CURLE_OK
  · simp [sub_req, leaf_req, h0] at hs
  · have hc := coded_curl (env.perform k) h0 (hres k)
    simpa [sub_req, leaf_req, h0] using hc

theorem final_iter_coded (env : Env) (n : Nat)
    (hs : (final_iter env n).state = TEVENT_REQ_USER_ERROR) :
    (final_iter env n).error ≠ 0 ∧ int_of_uint64 (final_iter env n).error ≠ 0 := by
  have hE := coded_int ENOMEM (by decide) (by decide) (by decide)
  unfold final_iter at hs ⊢
  split_ifs at hs ⊢ with h1 h2
  · have hr := leaf_status_range env (n - 1)
    exact coded_int _ h1 hr.1 hr.2
  · simp [finished, iter_req] at hs
  · exact hE

theorem at_loop_well_coded (env : Env) (hres : ∀ k, env.perform k < 2 ^ 32) (w : World)
    (h : AtLoop env w) : well_coded w := by
  intro i r hr hs
  cases h with
  | progress n h =>
    have hpos := h.async.pos
    by_cases hi0 : i = 0
    · subst hi0
      obtain ⟨res, hI⟩ := h.async.iter
      rw [hI] at hr
      injection hr with e
      subst e
      simp [iter_req] at hs
    · by_cases hin : i < n
      · rw [h.dead i (by omega) hin] at hr
        injection hr with e
        exact sub_req_coded env (i - 1) hres r (Or.inr e.symm) hs
      · by_cases hie : i = n
        · subst hie
          rw [h.async.leaf] at hr
          injection hr with e
          exact sub_req_coded env (i - 1) hres r (Or.inl e.symm) hs
        · rw [h.fresh i (by omega)] at hr
          cases hr
  | stopped n h =>
    by_cases hi0 : i = 0
    · subst hi0
      rw [h.iter] at hr
      injection hr with e
      subst e
      exact final_iter_coded env n hs
    · by_cases hin : i ≤ n
      · rw [h.dead i (by omega) hin] at hr
        injection hr with e
        exact sub_req_coded env (i - 1) hres r (Or.inr e.symm) hs
      · rw [h.fresh i (by omega)] at hr
        cases hr
  | immediate b h =>
    by_cases hi0 : i = 0
    · subst hi0
      rw [h.iter] at hr
      injection hr with e
      subst e
      have hE := coded_int ENOMEM (by decide) (by decide) (by decide)
      by_cases hm : env.maximum = 0
      · simp [immediate_iter, hm, finished, iter_req] at hs
      · simpa [immediate_iter, hm, failed] using hE
    · rw [h.fresh i (by omega)] at hr
      cases hr

/-- C17: for every sequence of external results that fit the 32 bits of a
`CURLcode` (and every sequence of subrequest allocations), in the run of
`main` every call of `tevent_req_error` passes a code that is not zero, also
when it is converted to `int`; in every state of the run at the event loop and
in the state `main` returns in, no request is in state
`TEVENT_REQ_USER_ERROR` with the code zero or with a code whose `int`
conversion is zero, so `TEVENT_REQ_RETURN_ON_ERROR` never meets the
unclassified case `TRROEerr == 0`; and the code `transfer_file_done` passes
for a failed subrequest, whatever its state, is not zero. -/
theorem error_codes_never_zero (env : Env) (stack fuel : Nat) (hstack : 2 ≤ stack)
    (hfuel : env.maximum < fuel) (hev : env.ev_ok = true) (hmctx : env.mctx_ok = true)
    (h0 : env.alloc 0 = true) (hres : ∀ k, env.perform k < 2 ^ 32) :
    (∃ w, main env stack fuel = .ok (0, w) ∧
      (∀ p c, Event.tevent_req_error p c ∈ w.trace → c ≠ 0 ∧ int_of_uint64 c ≠ 0) ∧
      (∀ ws, ws ∈ run_states env stack fuel ++ [w] → ∀ i r, ws.heap i = some r →
        r.state = TEVENT_REQ_USER_ERROR → r.error ≠ 0 ∧ int_of_uint64 r.error ≠ 0)) ∧
    (∀ S : tevent_req, recv_status S ≠ 0 →
      uint64_of_int (recv_status S) ≠ 0 ∧
        int_of_uint64 (uint64_of_int (recv_status S)) ≠ 0) := by
  refine ⟨?_, ?_⟩
  · obtain ⟨wl, hmain, hlast, -, ht⟩ :=
      run_states_last env stack fuel hstack hfuel hev hmctx h0
    have ht2 : (talloc_free_mctx wl).trace = run_events env := ht
    have hwl : well_coded wl :=
      at_loop_well_coded env hres wl (run_states_at_loop env stack fuel hstack hev hmctx h0 wl
        (List.mem_of_getLast?_eq_some hlast))
    refine ⟨_, hmain, ?_, ?_⟩
    · intro p c hmem
      rw [ht2] at hmem
      exact coded_run_events env hres _ hmem
    · intro ws hws i r hr hs
      rcases List.mem_append.mp hws with hws | hws
      · exact at_loop_well_coded env hres ws
          (run_states_at_loop env stack fuel hstack hev hmctx h0 ws hws) i r hr hs
      · simp only [List.mem_singleton] at hws
        subst hws
        cases hr0 : wl.heap i with
        | none => simp [talloc_free_mctx, hr0] at hr
        | some r0 =>
          simp only [talloc_free_mctx, hr0, Option.map_some', Option.some.injEq] at hr
          subst hr
          exact hwl i r0 hr0 hs
  · intro S hS
    have hr := recv_status_range S
    exact coded_int _ hS hr.1 hr.2

/-- Witness of C17 at the program's maximum `3` with a failing second call. -/
theorem error_codes_never_zero_witness :
    (∃ w, main (env_of 3 [0, 7]) 2 4 = .ok (0, w) ∧
      (∀ p c, Event.tevent_req_error p c ∈ w.trace → c ≠ 0 ∧ int_of_uint64 c ≠ 0) ∧
      (∀ ws, ws ∈ run_states (env_of 3 [0, 7]) 2 4 ++ [w] → ∀ i r, ws.heap i = some r →
        r.state = TEVENT_REQ_USER_ERROR → r.error ≠ 0 ∧ int_of_uint64 r.error ≠ 0)) ∧
    (∀ S : tevent_req, recv_status S ≠ 0 →
      uint64_of_int (recv_status S) ≠ 0 ∧
        int_of_uint64 (uint64_of_int (recv_status S)) ≠ 0) :=
  error_codes_never_zero (env_of 3 [0, 7]) 2 4 (by decide) (by decide) rfl rfl rfl
    (fun k => by
      by_cases h0 : k = 0
      · subst h0; decide
      · by_cases h1 : k = 1
        · subst h1; decide
        · have e : (env_of 3 [0, 7]).perform k = 0 := by
            obtain ⟨j, rfl⟩ : ∃ j, k = j + 2 := ⟨k - 2, by omega⟩
            rfl
          rw [e]
          decide)

/-! ## Termination -/

theorem continued_append (a b : List Event) :
    continued (a ++ b) = continued a ++ continued b := by
  simp [continued]

theorem continued_cons (e : Event) (t : List Event) :
    continued (e :: t) = (continued_of e).toList ++ continued t := by
  unfold continued
  rw [List.filterMap_cons]
  cases continued_of e <;> simp

theorem continued_report_events (ret : Int) : continued (report_events ret) = [] := by
  unfold report_events
  split_ifs <;> simp [continued, continued_of]

theorem continued_caller_done_events (it : Nat) (ret : Int) :
    continued (caller_done_events it ret) = [] := by
  simp only [caller_done_events, continued_append, continued_report_events]
  simp [continued, continued_of]

theorem continued_consume_events (s : Nat) (ret : Int) :
    continued (consume_events s ret) = [] := by
  simp [consume_events, continued, continued_of]

theorem continued_issue_events (it s n url k r : Nat) :
    continued (issue_events it s n url k r) = [] := by
  unfold issue_events leaf_events
  split_ifs <;> simp [continued, continued_of]

theorem continued_finish_events (env : Env) (n : Nat) :
    continued (finish_events env n) = [] := by
  unfold finish_events
  split_ifs <;> simp [continued, continued_of]

theorem continued_tail_events (env : Env) (k n : Nat) (hk : n + k = env.maximum) :
    continued (tail_events env k n) = List.range' n (stop_index env k n - n + 1) := by
  refine tail_events_induction env
    (fun n N t => continued t = List.range' n (N - n + 1)) ?_ ?_ k n hk
  · intro n h
    rw [dispatch_events_of_stop env n h]
    simp only [continued_cons, continued_append, continued_consume_events,
      continued_finish_events, continued_caller_done_events]
    simp [continued, continued_of]
  · intro n N t h hlt ih
    rw [dispatch_events_of_continues env n h]
    obtain ⟨j, rfl⟩ : ∃ j, N = n + 1 + j := ⟨N - (n + 1), by omega⟩
    have e1 : n + 1 + j - (n + 1) = j := by omega
    have e2 : n + 1 + j - n = j + 1 := by omega
    rw [e1] at ih
    simp only [continued_cons, continued_append, continued_consume_events,
      continued_issue_events, ih, e2]
    rw [List.range'_succ n (j + 1)]
    simp [continued, continued_of]

/-- The continuation is invoked once for each subrequest issued, in turn. -/
theorem continued_run_events (env : Env) :
    continued (run_events env) = List.range' 1 (issued env) := by
  by_cases hm : env.maximum = 0
  · simp only [run_events, issued, hm, if_true, continued_append,
      continued_caller_done_events]
    simp [continued, continued_of, start_events_zero]
  · cases h1 : env.alloc 1
    · simp only [run_events, issued, hm, h1, if_false, Bool.false_eq_true, continued_append,
        continued_caller_done_events]
      simp [continued, continued_of, start_events_nomem]
    · have hb := stop_index_bounds env (env.maximum - 1) 1
      have ht := continued_tail_events env (env.maximum - 1) 1 (by omega)
      have e : stop_index env (env.maximum - 1) 1 - 1 + 1 = stop_index env (env.maximum - 1) 1 := by
        omega
      rw [e] at ht
      simp only [run_events, issued, hm, h1, if_true, if_false, start_events, continued_cons,
        continued_append, continued_issue_events, ht]
      simp [continued, continued_of]

theorem issued_le (env : Env) : issued env ≤ env.maximum := by
  by_cases hm : env.maximum = 0
  · simp [issued, hm]
  · cases h1 : env.alloc 1
    · simp [issued, hm, h1]
    · exact (issued_pos env hm h1).2

theorem loop_states_head (env : Env) (stack fuel : Nat) (w : World) :
    (loop_states env stack fuel w).head? = some w := by
  cases fuel with
  | zero => simp [loop_states]
  | succ f =>
    simp only [loop_states]
    split
    · simp
    · split <;> simp

theorem remaining_progress (env : Env) (n : Nat) (w : World) (h : Progress env n w) :
    remaining env w = env.maximum - n := by
  obtain ⟨res, hI⟩ := h.async.iter
  simp [remaining, hI, iter_req]

theorem not_in_progress_stopped (env : Env) (n : Nat) (w : World) (h : Stopped env n w) :
    ¬ in_progress w := by
  rintro ⟨I, hI, hs⟩
  rw [h.iter] at hI
  injection hI with e
  subst e
  unfold final_iter at hs
  split_ifs at hs <;> simp [failed, finished, iter_req] at hs

/-- Along the states of the event loop the measure `maximum - num_iter`
decreases while the iterator is in progress, and the loop makes at most
`maximum - n + 1` iterations from a state with `n` operations issued. -/
theorem loop_states_decreases (env : Env) (d : Nat) :
    ∀ fuel n w, Progress env n w →
      (loop_states env (d + 2) fuel w).Chain' (decreases env) ∧
      (loop_states env (d + 2) fuel w).length ≤ env.maximum - n + 2 := by
  intro fuel
  induction fuel with
  | zero =>
    intro n w h
    simp [loop_states]
  | succ f ih =>
    intro n w h
    obtain ⟨w1, h1, hc⟩ := progress_step env d n w h
    have hq : ¬ w.queue = [] := by simp [h.async.queue]
    simp only [loop_states, hq, h1, if_false]
    cases hcn : continues env n
    · rw [hcn] at hc
      simp only [Bool.false_eq_true, if_false] at hc
      rw [loop_states_idle env _ f w1 hc.queue]
      refine ⟨?_, by simp⟩
      simp only [List.chain'_cons, List.chain'_singleton, and_true]
      intro hp
      exact absurd hp (not_in_progress_stopped env n w1 hc)
    · rw [hcn] at hc
      simp only [if_true] at hc
      obtain ⟨ih1, ih2⟩ := ih (n + 1) w1 hc
      have hlt := continues_lt env n h.async.le hcn
      refine ⟨?_, ?_⟩
      · rw [List.chain'_cons']
        refine ⟨?_, ih1⟩
        intro y hy
        rw [loop_states_head] at hy
        simp only [Option.mem_def, Option.some.injEq] at hy
        subst hy
        intro _
        rw [remaining_progress env n w h, remaining_progress env (n + 1) _ hc]
        omega
      · simp only [List.length_cons]
        omega

theorem run_states_decreases (env : Env) (stack fuel : Nat) (hstack : 2 ≤ stack)
    (hev : env.ev_ok = true) (hmctx : env.mctx_ok = true) (h0 : env.alloc 0 = true) :
    (run_states env stack fuel).Chain' (decreases env) ∧
    (run_states env stack fuel).length ≤ env.maximum + 2 := by
  obtain ⟨d, rfl⟩ : ∃ d, stack = d + 2 := ⟨stack - 2, by omega⟩
  by_cases hm : env.maximum = 0
  · obtain ⟨w, hc, ht, hq, hI⟩ := caller_zero env (call_fn env (d + 2)) h0 hm
    cases fuel with
    | zero => simp [run_states, hev, hmctx, hc, loop_states]
    | succ f =>
      have hl := loop_states_sync env (d + 1) f (emit .tevent_loop_wait w) (finished (iter_req 0 0))
        { ev := 0, num_iter := 0, res := 0, url := 1 } hq hI rfl rfl rfl
      simp only [run_states, hev, hmctx, hc, hl]
      refine ⟨?_, by simp⟩
      simp only [Bool.not_true, Bool.false_eq_true, if_false, ne_eq, not_true_eq_false,
        List.chain'_cons, List.chain'_singleton, and_true]
      rintro ⟨I, hI2, hs⟩
      simp [emit, release, hI, released_with, finished, iter_req] at hI2
      subst hI2
      simp at hs
  · cases h1 : env.alloc 1
    · obtain ⟨w, hc, ht, hq, hI⟩ := caller_nomem env (call_fn env (d + 2)) h0 h1 hm
      cases fuel with
      | zero => simp [run_states, hev, hmctx, hc, loop_states]
      | succ f =>
        have hl := loop_states_sync env (d + 1) f (emit .tevent_loop_wait w)
          (failed (iter_req 0 0) (uint64_of_int ENOMEM))
          { ev := 0, num_iter := 0, res := 0, url := 1 } hq hI rfl rfl rfl
        simp only [run_states, hev, hmctx, hc, hl]
        refine ⟨?_, by simp⟩
        simp only [Bool.not_true, Bool.false_eq_true, if_false, ne_eq, not_true_eq_false,
          List.chain'_cons, List.chain'_singleton, and_true]
        rintro ⟨I, hI2, hs⟩
        simp [emit, release, hI, released_with, failed, iter_req] at hI2
        subst hI2
        simp at hs
    · obtain ⟨w, hc, ht, ha⟩ := caller_async env (call_fn env (d + 2)) h0 h1 hm
      have hfr := caller_async_fresh env (call_fn env (d + 2)) h0 h1 hm w 0 hc
      have hP : Progress env 1 (emit .tevent_loop_wait w) :=
        ⟨⟨ha.pos, ha.le, ha.iter, ha.leaf, ha.next, ha.nalloc, ha.ncurl, ha.queue⟩,
          fun i hi1 hi2 => by omega, by simp [emit, ht, head_events],
          fun i hi1 hi2 => by omega, hfr⟩
      obtain ⟨c1, c2⟩ := loop_states_decreases env d fuel 1 _ hP
      simp only [run_states, hev, hmctx, hc]
      refine ⟨by simpa using c1, ?_⟩
      have : (loop_states env (d + 2) fuel (emit .tevent_loop_wait w)).length ≤
          env.maximum + 2 := by omega
      simpa using this

/-- C18: for every sequence of external results (and of subrequest
allocations) and every maximum, the run of `main` terminates: with two
callback frames and more than `maximum` iterations of fuel, the event loop
started in the state `caller` leaves reaches an idle state (no trigger
scheduled) in which the iterator request is terminal, and `main` returns from
it; the continuation is dispatched at most `maximum` times (once per operation
issued) and `caller_done` runs exactly once; the loop visits at most
`maximum + 2` states; and from each state at the event loop to the next the
measure `maximum - num_iter` decreases while the iterator is in progress. -/
theorem run_terminates (env : Env) (stack fuel : Nat) (hstack : 2 ≤ stack)
    (hfuel : env.maximum < fuel) (hev : env.ev_ok = true) (hmctx : env.mctx_ok = true)
    (h0 : env.alloc 0 = true) :
    ∃ wl I, main env stack fuel = .ok (0, talloc_free_mctx wl) ∧
      (run_states env stack fuel).getLast? = some wl ∧
      wl.queue = [] ∧ wl.heap 0 = some I ∧ terminal I.state = true ∧
      invoked 0 wl.trace = [.caller_done] ∧
      (continued wl.trace).length = issued env ∧ issued env ≤ env.maximum ∧
      (run_states env stack fuel).length ≤ env.maximum + 2 ∧
      (run_states env stack fuel).Chain' (decreases env) := by
  obtain ⟨wl, hmain, hlast, hq, ht⟩ := run_states_last env stack fuel hstack hfuel hev hmctx h0
  obtain ⟨hch, hlen⟩ := run_states_decreases env stack fuel hstack hev hmctx h0
  have hmem : wl ∈ run_states env stack fuel := List.mem_of_getLast?_eq_some hlast
  have hinv : invoked 0 wl.trace = [.caller_done] := by
    rw [ht, (cb_run_events env 0).2.2]
    simp [callback_of]
  have hcont : (continued wl.trace).length = issued env := by
    rw [ht, continued_run_events]
    simp
  cases run_states_at_loop env stack fuel hstack hev hmctx h0 wl hmem with
  | progress n h =>
    have := h.async.queue
    rw [hq] at this
    cases this
  | stopped n h =>
    refine ⟨wl, _, hmain, hlast, hq, h.iter, ?_, hinv, hcont, issued_le env, hlen, hch⟩
    unfold final_iter
    split
    · rfl
    · split <;> rfl
  | immediate b h =>
    refine ⟨wl, _, hmain, hlast, hq, h.iter, ?_, hinv, hcont, issued_le env, hlen, hch⟩
    unfold immediate_iter
    split <;> rfl

/-- Witness of C18 at the program's maximum `3` with three successful
calls. -/
theorem run_terminates_witness :
    ∃ wl I, main (env_of 3 []) 2 4 = .ok (0, talloc_free_mctx wl) ∧
      (run_states (env_of 3 []) 2 4).getLast? = some wl ∧
      wl.queue = [] ∧ wl.heap 0 = some I ∧ terminal I.state = true ∧
      invoked 0 wl.trace = [.caller_done] ∧
      (continued wl.trace).length = issued (env_of 3 []) ∧
      issued (env_of 3 []) ≤ (env_of 3 []).maximum ∧
      (run_states (env_of 3 []) 2 4).length ≤ (env_of 3 []).maximum + 2 ∧
      (run_states (env_of 3 []) 2 4).Chain' (decreases (env_of 3 [])) :=
  run_terminates (env_of 3 []) 2 4 (by decide) (by decide) rfl rfl rfl

end TeventReqIterate
